import Mathlib

/-!
Verification of the hydrogen-management subsystem (AddHs.cpp) of the
molecular-graph engine: a shallow embedding of `MolOps::addHs`,
`MolOps::removeHs`, `MolOps::mergeQueryHs`, `adjustStereoAtomsIfRequired`,
`isQueryH` and `setHydrogenCoords`, together with theorems settling the
specification claims about them.

Modelling conventions:
* atom, bond and conformer collections are Lean lists indexed by position,
  mirroring the dense index-addressed storage of the molecule;
* machine integers are `Nat`; no arithmetic here can overflow 64 bits for the
  molecule sizes involved, and the source uses `unsigned int` throughout;
* the external services the file calls into (periodic-table valence lists and
  covalent radii, `Atom::getPerturbationOrder`, `RWMol` graph mutation,
  `sanitizeMol`, the vector-geometry primitives of `RDGeom`) are not part of
  the excerpt; they are modelled from the specification text, and every such
  definition carries a doc comment saying so;
* per-atom derived hydrogen counts are recomputed from the current graph on
  demand, following the specification's resource model ("all derived per-atom
  properties touched by this subsystem are recomputed synchronously in place
  after each structural change"); consequently the `updatePropertyCache`
  calls of the source are identities in the model and are not repeated here,
  except where the source relies on the cached value staying fixed during a
  loop, which is noted at the relevant definition;
* floating-point geometry is modelled over `ℝ`.
-/

namespace RDKitAddHs

/-- Chiral parity tags, `Atom::ChiralType` in the source. -/
inductive ChiralType where
  | CHI_UNSPECIFIED
  | CHI_TETRAHEDRAL_CW
  | CHI_TETRAHEDRAL_CCW
  | CHI_OTHER
deriving DecidableEq, Repr

/-- Modelled from the spec: `Atom::invertChirality` swaps the
clockwise and counterclockwise tags and leaves the others alone. -/
def ChiralType.invert : ChiralType → ChiralType
  | .CHI_TETRAHEDRAL_CW => .CHI_TETRAHEDRAL_CCW
  | .CHI_TETRAHEDRAL_CCW => .CHI_TETRAHEDRAL_CW
  | t => t

/-- Bond orders, `Bond::BondType`; only the constructors exercised by the
hydrogen-management code are distinguished. -/
inductive BondType where
  | SINGLE
  | DOUBLE
  | TRIPLE
  | AROMATIC
  | OTHER
deriving DecidableEq, Repr

/-- Single-bond direction markers, `Bond::BondDir`. -/
inductive BondDir where
  | NONE
  | BEGINWEDGE
  | BEGINDASH
  | ENDDOWNRIGHT
  | ENDUPRIGHT
  | UNKNOWN
deriving DecidableEq, Repr

/-- Numeric value of a direction marker, used for the source's
`getBondDir() > Bond::NONE` comparisons (the enum order of the source). -/
def BondDir.toNat : BondDir → Nat
  | .NONE => 0
  | .BEGINWEDGE => 1
  | .BEGINDASH => 2
  | .ENDDOWNRIGHT => 3
  | .ENDUPRIGHT => 4
  | .UNKNOWN => 5

/-- Double-bond stereo descriptors, `Bond::BondStereo`. -/
inductive BondStereo where
  | STEREONONE
  | STEREOANY
  | STEREOZ
  | STEREOE
  | STEREOCIS
  | STEREOTRANS
deriving DecidableEq, Repr

/-- Numeric value of a stereo descriptor, in the enum order of the source,
used for the `getStereo() > Bond::STEREOANY` comparisons. -/
def BondStereo.toNat : BondStereo → Nat
  | .STEREONONE => 0
  | .STEREOANY => 1
  | .STEREOZ => 2
  | .STEREOE => 3
  | .STEREOCIS => 4
  | .STEREOTRANS => 5

/-- The `getStereo() > Bond::STEREOANY` test of the source. -/
def BondStereo.gtAny (s : BondStereo) : Bool :=
  BondStereo.STEREOANY.toNat < s.toNat

/-- Hybridization states, `Atom::HybridizationType`; only the constructors
the placement code branches on are distinguished. -/
inductive HybridizationType where
  | UNSPECIFIED
  | SP
  | SP2
  | SP3
  | OTHER
deriving DecidableEq, Repr

/-- Atom query expression trees.  A node carries the description string the
source dispatches on ("AtomAtomicNum", "AtomOr", "AtomAnd", "AtomHCount",
"RecursiveStructure", ...), its negation flag, the integer payload that leaf
queries carry (read through the `ATOM_EQUALS_QUERY` cast when the description
matches), and its child list.  The nested query molecule of a
recursive-substructure node is not modelled: none of the claims under
verification concern its contents, so such a node is a childless leaf here. -/
inductive Query where
  | node (descr : String) (neg : Bool) (val : Int) (children : List Query)

instance : Repr Query := ⟨fun q _ => match q with | .node d n v _ => repr (d, n, v)⟩

/-- Description string of a query node. -/
def Query.descr : Query → String
  | .node d _ _ _ => d

/-- Negation flag of a query node, `getNegation()` in the source. -/
def Query.neg : Query → Bool
  | .node _ n _ _ => n

/-- Integer payload of a query node, `getVal()` in the source. -/
def Query.val : Query → Int
  | .node _ _ v _ => v

/-- Children of a query node, `beginChildren()`/`endChildren()`. -/
def Query.children : Query → List Query
  | .node _ _ _ cs => cs

/-- Atom records.  The boolean property fields correspond to the dynamic
properties the source reads and writes through `hasProp`/`setProp`
(`isImplicit`, `origNoImplicit`, `_UnknownStereo`, `molAtomMapNumber`,
`_CIPCode`, `_CIPRank`); a `none` : `Option` value means the property is not
set. -/
structure Atom where
  atomicNum : Nat := 0
  isotope : Nat := 0
  numExplicitHs : Nat := 0
  noImplicit : Bool := false
  isAromatic : Bool := false
  chiralTag : ChiralType := .CHI_UNSPECIFIED
  hybridization : HybridizationType := .UNSPECIFIED
  query : Option Query := none
  isImplicit : Bool := false
  origNoImplicit : Option Bool := none
  unknownStereo : Bool := false
  molAtomMapNumber : Option Nat := none
  cipCode : Option String := none
  cipRank : Option Nat := none
deriving Repr

instance : Inhabited Atom := ⟨{}⟩

/-- Bond records: endpoint atom indices, order, aromatic flag, direction
marker, stereo descriptor and the stereo reference-atom list. -/
structure Bond where
  beginAtomIdx : Nat := 0
  endAtomIdx : Nat := 0
  bondType : BondType := .SINGLE
  isAromatic : Bool := false
  bondDir : BondDir := .NONE
  stereo : BondStereo := .STEREONONE
  stereoAtoms : List Nat := []
deriving DecidableEq, Repr

instance : Inhabited Bond := ⟨{}⟩

/-- Does the bond touch atom index `i`? -/
def Bond.incident (b : Bond) (i : Nat) : Bool :=
  b.beginAtomIdx == i || b.endAtomIdx == i

/-- The endpoint of `b` other than `i`, `Bond::getOtherAtomIdx`. -/
def Bond.getOtherAtomIdx (b : Bond) (i : Nat) : Nat :=
  if b.beginAtomIdx == i then b.endAtomIdx else b.beginAtomIdx

/-- Does the bond connect atom indices `i` and `j`? -/
def Bond.connects (b : Bond) (i j : Nat) : Bool :=
  (b.beginAtomIdx == i && b.endAtomIdx == j) ||
  (b.beginAtomIdx == j && b.endAtomIdx == i)

/-- A point in 3-D space, `RDGeom::Point3D`; coordinates are exact reals. -/
structure Point3 where
  x : ℝ := 0
  y : ℝ := 0
  z : ℝ := 0

instance : Inhabited Point3 := ⟨{}⟩

/-- The zero vector, the value of a default-initialized `RDGeom::Point3D`. -/
def Point3.zero : Point3 := ⟨0, 0, 0⟩

/-- One conformer: a dimensionality flag and one position per atom index. -/
structure Conformer where
  is3D : Bool := true
  positions : List Point3 := []

instance : Inhabited Conformer := ⟨{}⟩

/-- The molecule: dense index-addressed atom and bond collections plus the
owned conformers. -/
structure Mol where
  atoms : List Atom := []
  bonds : List Bond := []
  conformers : List Conformer := []

instance : Inhabited Mol := ⟨{}⟩

namespace Mol

/-- Number of atoms, `getNumAtoms`. -/
def numAtoms (m : Mol) : Nat := m.atoms.length

/-- Atom record at index `i` (`getAtomWithIdx`); a default record is returned
for an out-of-range index, which the source treats as a precondition
violation. -/
def getAtom (m : Mol) (i : Nat) : Atom := m.atoms.getD i {}

/-- Bond record at index `bi`. -/
def getBond (m : Mol) (bi : Nat) : Bond := m.bonds.getD bi {}

/-- Indices of the bonds incident to atom `i`, in bond-insertion order; this
is the iteration order of `getAtomBonds` over the adjacency list. -/
def atomBondIdxs (m : Mol) (i : Nat) : List Nat :=
  (List.range m.bonds.length).filter (fun bi => (m.getBond bi).incident i)

/-- Degree of atom `i` (`getDegree`/`getAtomDegree`). -/
def getAtomDegree (m : Mol) (i : Nat) : Nat := (m.atomBondIdxs i).length

/-- Neighbor atom indices of atom `i` in adjacency order
(`getAtomNeighbors`). -/
def atomNeighbors (m : Mol) (i : Nat) : List Nat :=
  (m.atomBondIdxs i).map (fun bi => (m.getBond bi).getOtherAtomIdx i)

/-- Index of the bond between atoms `i` and `j`, if any
(`getBondBetweenAtoms`). -/
def getBondBetweenAtoms (m : Mol) (i j : Nat) : Option Nat :=
  (List.range m.bonds.length).find? (fun bi => (m.getBond bi).connects i j)

/-- Replace the atom record at index `i`. -/
def setAtom (m : Mol) (i : Nat) (a : Atom) : Mol :=
  { m with atoms := m.atoms.set i a }

/-- Update the atom record at index `i` in place. -/
def modifyAtom (m : Mol) (i : Nat) (f : Atom → Atom) : Mol :=
  m.setAtom i (f (m.getAtom i))

/-- Replace the bond record at index `bi`. -/
def setBond (m : Mol) (bi : Nat) (b : Bond) : Mol :=
  { m with bonds := m.bonds.set bi b }

/-- Update the bond record at index `bi` in place. -/
def modifyBond (m : Mol) (bi : Nat) (f : Bond → Bond) : Mol :=
  m.setBond bi (f (m.getBond bi))

/-- Append a new atom record (`addAtom` with `updateLabel = false`,
`takeOwnership = true`); the new atom receives the next free index. -/
def addAtom (m : Mol) (a : Atom) : Mol :=
  { m with atoms := m.atoms ++ [a] }

/-- Append a new bond between `i` and `j` (`addBond`). -/
def addBond (m : Mol) (i j : Nat) (t : BondType) : Mol :=
  { m with bonds := m.bonds ++ [{ beginAtomIdx := i, endAtomIdx := j, bondType := t }] }

end Mol

/-- Renumbering applied to a stored atom index when the atom at index `k` is
deleted: indices above `k` shift down by one. -/
def shiftIdx (k i : Nat) : Nat := if k < i then i - 1 else i

/-- Renumbering of the indices stored inside a surviving bond record after
the atom at index `k` is deleted. -/
def Bond.shiftAfterRemoval (k : Nat) (b : Bond) : Bond :=
  { b with
    beginAtomIdx := shiftIdx k b.beginAtomIdx
    endAtomIdx := shiftIdx k b.endAtomIdx
    stereoAtoms := b.stereoAtoms.map (shiftIdx k) }

/-- Modelled from the spec: the Graph Mutator's `removeAtom` cascades to
removing the incident bonds, shifts all atom indices greater than the removed
index down by one in every structure that stores indices (bond endpoints,
stereo reference atoms), and erases the atom's entry from every conformer. -/
def Mol.removeAtom (m : Mol) (k : Nat) : Mol :=
  { atoms := m.atoms.eraseIdx k
    bonds := (m.bonds.filter (fun b => !(b.incident k))).map (Bond.shiftAfterRemoval k)
    conformers := m.conformers.map
      (fun c => { c with positions := c.positions.eraseIdx k }) }

/-- Modelled from the spec: the external periodic-table service supplies a
default-valence list per atomic number; the hydrogen-count bookkeeping
selects the first entry that is at least the atom's explicit valence. -/
def pickDefaultValence (vs : List Nat) (e : Nat) : Option Nat :=
  vs.find? (fun v => e ≤ v)

/-- Contribution of one bond to its endpoints' explicit valence.  Modelled
from the spec ("bond order"): single 1, double 2, triple 3; a bond whose
type is the aromatic marker contributes 1 in this integer model (none of the
verified claims depends on the fractional aromatic contribution). -/
def BondType.valenceContrib : BondType → Nat
  | .SINGLE => 1
  | .DOUBLE => 2
  | .TRIPLE => 3
  | .AROMATIC => 1
  | .OTHER => 0

namespace Mol

/-- Modelled from the spec: explicit valence of atom `i`, the sum of the
orders of its bonds plus its stored explicit-hydrogen count. -/
def explicitValence (m : Mol) (i : Nat) : Nat :=
  ((m.atomBondIdxs i).map (fun bi => (m.getBond bi).bondType.valenceContrib)).sum
    + (m.getAtom i).numExplicitHs

/-- Modelled from the spec: the implicit-hydrogen count of atom `i`, derived
on demand from the current graph ("recomputed synchronously in place after
each structural change"): zero when the no-implicit flag is set, otherwise
the gap up to the first default valence at least the explicit valence, and
zero when the valence list has no such entry. -/
def getNumImplicitHs (table : Nat → List Nat) (m : Mol) (i : Nat) : Nat :=
  if (m.getAtom i).noImplicit then 0
  else
    match pickDefaultValence (table (m.getAtom i).atomicNum) (m.explicitValence i) with
    | some v => v - m.explicitValence i
    | none => 0

/-- Modelled from the spec: total valence = explicit valence plus the
implicit-hydrogen count (`getTotalValence`). -/
def getTotalValence (table : Nat → List Nat) (m : Mol) (i : Nat) : Nat :=
  m.explicitValence i + m.getNumImplicitHs table i

end Mol

/-! Geometry Engine (spec §4.1).  The vector primitives live in the external
`RDGeom` library, so they are modelled from the specification: normalize,
length-squared degeneracy tests, perpendicular construction, cross and dot
products, and rotation about a unit axis.  Division by a zero length yields
the zero vector (`ℝ` division by zero), where the source would produce
non-finite floats; every use below is guarded by the source's own
degenerate-input checks. -/

namespace Point3

/-- Componentwise sum. -/
def add (a b : Point3) : Point3 := ⟨a.x + b.x, a.y + b.y, a.z + b.z⟩

instance : Add Point3 := ⟨add⟩

/-- Componentwise difference. -/
def sub (a b : Point3) : Point3 := ⟨a.x - b.x, a.y - b.y, a.z - b.z⟩

instance : Sub Point3 := ⟨sub⟩

/-- Scaling by a scalar, the source's `operator*(double)`. -/
def smul (a : Point3) (r : ℝ) : Point3 := ⟨a.x * r, a.y * r, a.z * r⟩

/-- Dot product. -/
def dotProduct (a b : Point3) : ℝ := a.x * b.x + a.y * b.y + a.z * b.z

/-- Cross product. -/
def crossProduct (a b : Point3) : Point3 :=
  ⟨a.y * b.z - a.z * b.y, a.z * b.x - a.x * b.z, a.x * b.y - a.y * b.x⟩

/-- Squared Euclidean length. -/
def lengthSq (a : Point3) : ℝ := a.x * a.x + a.y * a.y + a.z * a.z

/-- Euclidean length. -/
noncomputable def length (a : Point3) : ℝ := Real.sqrt a.lengthSq

/-- Modelled from the spec: `normalize` divides the vector by its length. -/
noncomputable def normalize (a : Point3) : Point3 := a.smul (1 / a.length)

/-- Modelled from the spec: `getPerpendicular` returns some unit vector
perpendicular to its argument.  No verified claim depends on which one is
chosen. -/
noncomputable def getPerpendicular (a : Point3) : Point3 :=
  if a.x = 0 ∧ a.y = 0 then ⟨1, 0, 0⟩ else normalize ⟨-a.y, a.x, 0⟩

/-- Modelled from the spec: `directionVector` is the normalized vector from
`a` toward `b`. -/
noncomputable def directionVector (a b : Point3) : Point3 := (b - a).normalize

end Point3

/-- Modelled from the spec: the Geometry Engine's "rotate vector V by angle
θ about axis A" (`Transform3D::SetRotation` followed by application; the axis
is assumed unit length), in Rodrigues form. -/
noncomputable def rotateAbout (theta : ℝ) (axis v : Point3) : Point3 :=
  (v.smul (Real.cos theta) + (axis.crossProduct v).smul (Real.sin theta))
    + axis.smul (axis.dotProduct v * (1 - Real.cos theta))

namespace Conformer

/-- Position of atom `i` in this conformer (`getAtomPos`). -/
def getAtomPos (c : Conformer) (i : Nat) : Point3 := c.positions.getD i Point3.zero

/-- Store a position for atom `i` (`setAtomPos`); the positions vector grows
as needed, zero-filled, which is how the source's `resize` behaves after the
caller's `reserve`. -/
def setAtomPos (c : Conformer) (i : Nat) (p : Point3) : Conformer :=
  { c with
    positions := (c.positions ++ List.replicate (i + 1 - c.positions.length) Point3.zero).set i p }

end Conformer

/-- First neighbor of `atomIdx` that is not `otherIdx`, in adjacency order
(`getAtomNeighborNot`); the source's postcondition guarantees one exists at
every call site, and an absent neighbor falls back to index 0 here. -/
def getAtomNeighborNot (m : Mol) (atomIdx otherIdx : Nat) : Nat :=
  ((m.atomNeighbors atomIdx).find? (fun n => !(n == otherIdx))).getD 0

/-- The degeneracy threshold of the placement code, `1e-4`. -/
noncomputable def degenEps : ℝ := 1 / 10000

/-- Degree-1 placement loop of `setHydrogenCoords` (one conformer at a
time).  The direction vector is a C++ local declared outside the conformer
loop, so its components persist from one conformer to the next; the state
argument reproduces that carryover. -/
noncomputable def setHCoordsDeg1 (bondLength : ℝ) (hydIdx heavyIdx : Nat) :
    Point3 → List Conformer → List Conformer
  | _, [] => []
  | dirVect0, c :: rest =>
      let dirVect := if c.is3D then { dirVect0 with z := 1 } else { dirVect0 with x := 1 }
      let heavyPos := c.getAtomPos heavyIdx
      let hydPos := heavyPos + dirVect.smul (if c.is3D then bondLength else 1)
      c.setAtomPos hydIdx hydPos :: setHCoordsDeg1 bondLength hydIdx heavyIdx dirVect rest

/-- Degree-2 placement loop of `setHydrogenCoords`.  `perpVect` is likewise
a C++ local declared outside the conformer loop; the 2-D SP3 branch only
assigns its z component, so the other components persist across conformers
and are threaded through as state. -/
noncomputable def setHCoordsDeg2 (m : Mol) (bondLength : ℝ) (hydIdx heavyIdx nbr1Idx : Nat) :
    Point3 → List Conformer → List Conformer
  | _, [] => []
  | perpVect0, c :: rest =>
      let heavyPos := c.getAtomPos heavyIdx
      let nbr1Pos := c.getAtomPos nbr1Idx
      let nbr1Vect := nbr1Pos - heavyPos
      if |nbr1Vect.lengthSq| < degenEps then
        -- redundant atoms: park the hydrogen on the heavy atom (issue 678)
        c.setAtomPos hydIdx heavyPos ::
          setHCoordsDeg2 m bondLength hydIdx heavyIdx nbr1Idx perpVect0 rest
      else
        let nbr1Vect := (nbr1Vect.normalize).smul (-1)
        let scale : ℝ := if c.is3D then bondLength else 1
        match (m.getAtom heavyIdx).hybridization with
        | .SP3 =>
            let perpVect :=
              if c.is3D then nbr1Vect.getPerpendicular else { perpVect0 with z := 1 }
            let dirVect := rotateAbout ((180 - 109.471) * Real.pi / 180) perpVect nbr1Vect
            c.setAtomPos hydIdx (heavyPos + dirVect.smul scale) ::
              setHCoordsDeg2 m bondLength hydIdx heavyIdx nbr1Idx perpVect rest
        | .SP2 =>
            let perpVect :=
              if m.getAtomDegree nbr1Idx > 1 &&
                 ((m.getBond ((m.getBondBetweenAtoms heavyIdx nbr1Idx).getD 0)).isAromatic ||
                  (m.getBond ((m.getBondBetweenAtoms heavyIdx nbr1Idx).getD 0)).bondType
                    == .DOUBLE) then
                let nbr2Idx := getAtomNeighborNot m nbr1Idx heavyIdx
                let nbr2Vect := nbr1Pos.directionVector (c.getAtomPos nbr2Idx)
                nbr2Vect.crossProduct nbr1Vect
              else nbr1Vect.getPerpendicular
            let perpVect := perpVect.normalize
            let dirVect := rotateAbout (60 * Real.pi / 180) perpVect nbr1Vect
            c.setAtomPos hydIdx (heavyPos + dirVect.smul scale) ::
              setHCoordsDeg2 m bondLength hydIdx heavyIdx nbr1Idx perpVect rest
        | _ =>
            -- SP and all remaining hybridizations: lay the H along the vector
            let dirVect := nbr1Vect
            c.setAtomPos hydIdx (heavyPos + dirVect.smul scale) ::
              setHCoordsDeg2 m bondLength hydIdx heavyIdx nbr1Idx perpVect0 rest

/-- The two non-hydrogen neighbors collected by the degree-3 case (first and
second in adjacency order; with exactly two candidates this matches the
source's first/last accumulation). -/
def firstTwoNeighborsNot (m : Mol) (heavyIdx hydIdx : Nat) : Nat × Nat :=
  let l := (m.atomNeighbors heavyIdx).filter (fun n => !(n == hydIdx))
  (l.getD 0 0, l.getD 1 0)

/-- Degree-3 placement of `setHydrogenCoords`, one conformer at a time; no
local state survives from one conformer to the next in this case. -/
noncomputable def setHCoordsDeg3 (m : Mol) (bondLength : ℝ)
    (hydIdx heavyIdx nbr1Idx nbr2Idx : Nat) (confs : List Conformer) : List Conformer :=
  confs.map (fun c =>
    let heavyPos := c.getAtomPos heavyIdx
    let nbr1Vect := heavyPos - c.getAtomPos nbr1Idx
    let nbr2Vect := heavyPos - c.getAtomPos nbr2Idx
    if |nbr1Vect.lengthSq| < degenEps ∨ |nbr2Vect.lengthSq| < degenEps then
      -- redundant atoms: park the hydrogen on the heavy atom (issue 678)
      c.setAtomPos hydIdx heavyPos
    else
      let nbr1Vect := nbr1Vect.normalize
      let nbr2Vect := nbr2Vect.normalize
      let dirVect := nbr1Vect + nbr2Vect
      let dirVect := dirVect.normalize
      if c.is3D then
        match (m.getAtom heavyIdx).hybridization with
        | .SP3 =>
            let nbrPerp := nbr1Vect.crossProduct nbr2Vect
            let rotnAxis := (nbrPerp.crossProduct dirVect).normalize
            let dirVect := rotateAbout ((109.471 / 2) * Real.pi / 180) rotnAxis dirVect
            c.setAtomPos hydIdx (heavyPos + dirVect.smul bondLength)
        | _ =>
            -- SP2 and the remaining hybridizations: the H goes right on the
            -- direction vector
            c.setAtomPos hydIdx (heavyPos + dirVect.smul bondLength)
      else
        c.setAtomPos hydIdx (heavyPos + dirVect))

/-- The three neighbors collected by the degree-4 case: ordered by ascending
(CIP rank, index) when the heavy atom carries a CIP code, in adjacency order
otherwise (with exactly three candidates the source's first/second/last
accumulation is the adjacency order). -/
def deg4Neighbors (m : Mol) (heavyIdx hydIdx : Nat) : Nat × Nat × Nat :=
  let ns := (m.atomNeighbors heavyIdx).filter (fun n => !(n == hydIdx))
  let ns :=
    if (m.getAtom heavyIdx).cipCode.isSome then
      ((ns.map (fun n => ((m.getAtom n).cipRank.getD 0, n))).mergeSort
        (fun a b => Nat.blt a.1 b.1 || (a.1 == b.1 && Nat.ble a.2 b.2))).map (fun p => p.2)
    else ns
  (ns.getD 0 0, ns.getD 1 0, ns.getD 2 0)

/-- Degree-4 placement of `setHydrogenCoords`, one conformer at a time. -/
noncomputable def setHCoordsDeg4 (m : Mol) (bondLength : ℝ)
    (hydIdx heavyIdx nbr1Idx nbr2Idx nbr3Idx : Nat) (confs : List Conformer) :
    List Conformer :=
  confs.map (fun c =>
    let heavyPos := c.getAtomPos heavyIdx
    let nbr1Vect := heavyPos - c.getAtomPos nbr1Idx
    let nbr2Vect := heavyPos - c.getAtomPos nbr2Idx
    let nbr3Vect := heavyPos - c.getAtomPos nbr3Idx
    if |nbr1Vect.lengthSq| < degenEps ∨ |nbr2Vect.lengthSq| < degenEps ∨
       |nbr3Vect.lengthSq| < degenEps then
      -- redundant atoms: park the hydrogen on the heavy atom (issue 678)
      c.setAtomPos hydIdx heavyPos
    else
      let nbr1Vect := nbr1Vect.normalize
      let nbr2Vect := nbr2Vect.normalize
      let nbr3Vect := nbr3Vect.normalize
      let dirVect :=
        if c.is3D then
          if |nbr3Vect.dotProduct (nbr1Vect.crossProduct nbr2Vect)| < (1 / 10 : ℝ) then
            -- nearly planar neighbors (issue 2951221): use the normal, with
            -- the chiral-volume sign correction for CIP-labelled centers
            let dirVect := nbr1Vect.crossProduct nbr2Vect
            match (m.getAtom heavyIdx).cipCode with
            | some cipCode =>
                let v1 := dirVect - nbr3Vect
                let v2 := nbr1Vect - nbr3Vect
                let v3 := nbr2Vect - nbr3Vect
                let vol := v1.dotProduct (v2.crossProduct v3)
                if (cipCode == "S" && vol < 0) || (cipCode == "R" && vol > 0) then
                  dirVect.smul (-1)
                else dirVect
            | none => dirVect
          else nbr1Vect + nbr2Vect + nbr3Vect
        else
          -- flatland (github 908): aim between the neighbor pair with the
          -- widest angle
          let minDot := nbr1Vect.dotProduct nbr2Vect
          let dirVect := nbr1Vect + nbr2Vect
          let pair2 := nbr2Vect.dotProduct nbr3Vect < minDot
          let minDot := if pair2 then nbr2Vect.dotProduct nbr3Vect else minDot
          let dirVect := if pair2 then nbr2Vect + nbr3Vect else dirVect
          let dirVect :=
            if nbr1Vect.dotProduct nbr3Vect < minDot then nbr1Vect + nbr3Vect else dirVect
          dirVect.smul (-1)
      let dirVect := dirVect.normalize
      c.setAtomPos hydIdx (heavyPos + dirVect.smul (if c.is3D then bondLength else 1)))

/-- Placement of one newly attached hydrogen (`setHydrogenCoords`): switch on
the heavy atom's degree after attachment.  `rb0` is the external
periodic-table covalent-radius lookup (`PeriodicTable::getRb0`), supplied as
a parameter; the bond length is the sum of the radii of hydrogen and the
heavy atom. -/
noncomputable def setHydrogenCoords (rb0 : Nat → ℝ) (m : Mol) (hydIdx heavyIdx : Nat) : Mol :=
  let heavyAtom := m.getAtom heavyIdx
  let bondLength := rb0 1 + rb0 heavyAtom.atomicNum
  let confs :=
    if m.getAtomDegree heavyIdx == 1 then
      setHCoordsDeg1 bondLength hydIdx heavyIdx Point3.zero m.conformers
    else if m.getAtomDegree heavyIdx == 2 then
      setHCoordsDeg2 m bondLength hydIdx heavyIdx (getAtomNeighborNot m heavyIdx hydIdx)
        Point3.zero m.conformers
    else if m.getAtomDegree heavyIdx == 3 then
      let p := firstTwoNeighborsNot m heavyIdx hydIdx
      setHCoordsDeg3 m bondLength hydIdx heavyIdx p.1 p.2 m.conformers
    else if m.getAtomDegree heavyIdx == 4 then
      let p := deg4Neighbors m heavyIdx hydIdx
      setHCoordsDeg4 m bondLength hydIdx heavyIdx p.1 p.2.1 p.2.2 m.conformers
    else
      -- degrees five and up are unsupported: `heavyPos` and `dirVect`
      -- still hold their default-initialized zeroes, so every conformer
      -- receives the same position, computed once before the loop
      let heavyPos : Point3 := Point3.zero
      let dirVect : Point3 := Point3.zero
      let hydPos := heavyPos + dirVect.smul bondLength
      m.conformers.map (fun c => c.setAtomPos hydIdx hydPos)
  { m with conformers := confs }

/-! The `addHs` entry point (spec §6 `addHydrogens`). -/

/-- A freshly constructed hydrogen atom, `new Atom(1)`. -/
def newHAtom : Atom := { atomicNum := 1 }

/-- Create one hydrogen on atom `aidx`: append the atom record (with the
`isImplicit` property when requested), append the single bond, and place its
coordinates when `addCoords` is set.  The new hydrogen's property-cache
refresh is an identity in this model. -/
noncomputable def addHsOneH (rb0 : Nat → ℝ) (addCoords implicitFlag : Bool)
    (m : Mol) (aidx : Nat) : Mol :=
  let newIdx := m.numAtoms
  let m' := m.addAtom { newHAtom with isImplicit := implicitFlag }
  let m' := m'.addBond aidx newIdx .SINGLE
  if addCoords then setHydrogenCoords rb0 m' newIdx aidx else m'

/-- Processing of one heavy-atom index inside `addHs`: convert the stored
explicit-H count into explicit graph hydrogens, then (unless `explicitOnly`)
convert the implicit count as well, remember the original no-implicit flag in
the `origNoImplicit` property and forbid further implicit hydrogens.  The
source reads the cached `getNumImplicitHs()` on every iteration of its
implicit loop; that cache is left untouched by the loop body, so the count is
read once here, before any implicit hydrogen is added. -/
noncomputable def addHsProcessAtom (table : Nat → List Nat) (rb0 : Nat → ℝ)
    (explicitOnly addCoords : Bool) (m : Mol) (aidx : Nat) : Mol :=
  let onumexpl := (m.getAtom aidx).numExplicitHs
  let m1 := (List.range onumexpl).foldl (fun mm _ => addHsOneH rb0 addCoords false mm aidx) m
  let m2 := m1.modifyAtom aidx (fun a => { a with numExplicitHs := 0 })
  if explicitOnly then m2
  else
    let nImp := m2.getNumImplicitHs table aidx
    let m3 := (List.range nImp).foldl (fun mm _ => addHsOneH rb0 addCoords true mm aidx) m2
    m3.modifyAtom aidx (fun a => { a with origNoImplicit := some a.noImplicit, noImplicit := true })

namespace MolOps

/-- The in-place `MolOps::addHs`.  The conformer-capacity reservation of the
source has no observable effect (positions grow on demand here), and the
optional residue-info pass (`addResidueInfo`) is not modelled: no claim under
verification concerns residue labels. -/
noncomputable def addHs (table : Nat → List Nat) (rb0 : Nat → ℝ) (m : Mol)
    (explicitOnly addCoords : Bool) (onlyOnAtoms : Option (List Nat) := none) : Mol :=
  let stopIdx := m.numAtoms
  (List.range stopIdx).foldl
    (fun mm aidx =>
      if onlyOnAtoms.elim true (fun l => l.contains aidx) then
        addHsProcessAtom table rb0 explicitOnly addCoords mm aidx
      else mm)
    m

end MolOps

/-! The `removeHs` entry point (spec §6 `removeHydrogens`) and its stereo
preservation steps. -/

/-- Modelled from the spec: `Atom::getPerturbationOrder` counts the pairwise
swaps needed to take the probe ordering into the reference ordering (the
atom's stored bond order); only its parity is consumed.  Each step brings the
reference's head element to the front of the probe by one swap when it is not
already there. -/
def countSwapsToInterconvert : List Nat → List Nat → Nat
  | [], _ => 0
  | r :: rs, probe =>
      match probe with
      | [] => 0
      | p :: ps =>
          if p == r then countSwapsToInterconvert rs ps
          else
            let i := probe.indexOf r
            1 + countSwapsToInterconvert rs (ps.set (i - 1) p)

/-- Parity-counting wrapper with the reference order first; `ref` plays the
role of the atom's current bond ordering. -/
def getPerturbationOrder (ref probe : List Nat) : Nat :=
  countSwapsToInterconvert ref probe

/-- Replace the first occurrence of `a` in the list by `b` (the write through
the `std::find` iterator into the stereo-atom list). -/
def replaceFirst (l : List Nat) (a b : Nat) : List Nat :=
  match l with
  | [] => []
  | x :: xs => if x == a then b :: xs else x :: replaceFirst xs a b

/-- The alternate-neighbor search of `adjustStereoAtomsIfRequired`: the
first neighbor of `heavyIdx` other than the double bond's far endpoint and
`atomIdx` itself. -/
def adjustStereoAltNbr (m : Mol) (atomIdx heavyIdx bi : Nat) : Option Nat :=
  (m.atomNeighbors heavyIdx).find?
    (fun n => !(n == (m.getBond bi).getOtherAtomIdx heavyIdx) && !(n == atomIdx))

/-- Does bond `bi` trigger the stereo-atom substitution for `atomIdx` at
`heavyIdx`?  It must be a double bond with a stereo descriptor beyond "any"
whose stereo-atom list names `atomIdx`, and an alternate neighbor must exist
(the source's inner loop falls through to the next bond otherwise). -/
def adjustStereoQualifies (m : Mol) (atomIdx heavyIdx bi : Nat) : Bool :=
  (m.getBond bi).bondType == .DOUBLE && (m.getBond bi).stereo.gtAny &&
  (m.getBond bi).stereoAtoms.contains atomIdx && (adjustStereoAltNbr m atomIdx heavyIdx bi).isSome

/-- The cis/trans swap applied alongside the substitution; the remaining
descriptors (E and Z included) are left unchanged. -/
def swapCisTrans : BondStereo → BondStereo
  | .STEREOCIS => .STEREOTRANS
  | .STEREOTRANS => .STEREOCIS
  | s => s

/-- Stereo-atom substitution (`adjustStereoAtomsIfRequired`): if a double
bond at `heavyIdx` carries a stereo descriptor beyond "any" and names
`atomIdx` among its stereo atoms, substitute another neighbor of the heavy
atom (excluding the double bond's other endpoint and `atomIdx`) into that
slot and swap cis and trans, leaving other descriptors as they are.  The
source's nested loops with an early return amount to: act on the first such
bond for which an alternate neighbor exists.  Returns whether an adjustment
was made, together with the resulting molecule. -/
def adjustStereoAtomsIfRequired (m : Mol) (atomIdx heavyIdx : Nat) : Bool × Mol :=
  -- nothing we can do if the degree is only 2
  if m.getAtomDegree heavyIdx == 2 then (false, m)
  else if (m.getBondBetweenAtoms atomIdx heavyIdx).isNone then (false, m)
  else
    match (m.atomBondIdxs heavyIdx).find? (adjustStereoQualifies m atomIdx heavyIdx) with
    | none => (false, m)
    | some bi =>
        let nb := (adjustStereoAltNbr m atomIdx heavyIdx bi).getD 0
        let made :=
          (m.getBond bi).stereo == .STEREOCIS || (m.getBond bi).stereo == .STEREOTRANS
        (made, m.modifyBond bi (fun b =>
          { b with
            stereoAtoms := replaceFirst b.stereoAtoms atomIdx nb
            stereo := swapCisTrans b.stereo }))

/-- The eligibility decision of the `removeHs` loop for the atom at index
`i` (`removeIt` in the source): hydrogens without neighbors are kept (with a
warning), query hydrogens are kept, implicit-flagged hydrogens are removed
unless their only neighbor is a dummy atom, and otherwise — outside
implicit-only mode — an isotope-free hydrogen with exactly one neighbor is
removed when that neighbor is a genuine heavy atom, except when the neighbor
has degree two and sits on a double bond whose stereochemistry (descriptor,
or direction marker on the hydrogen's bond) would be jeopardized
(github 1810). -/
def removeHsShouldRemove (m : Mol) (implicitOnly : Bool) (i : Nat) : Bool :=
  let atom := m.getAtom i
  if !(atom.atomicNum == 1) then false
  else if m.getAtomDegree i == 0 then false
  else if atom.query.isSome then false
  else if atom.isImplicit then
    if m.getAtomDegree i == 1 &&
       (m.getAtom ((m.atomNeighbors i).headD 0)).atomicNum < 1 then
      -- attached to a dummy atom (github 1439): keep it, with a warning
      false
    else true
  else if !implicitOnly && atom.isotope == 0 && m.getAtomDegree i == 1 then
    let nbrIdx := (m.atomNeighbors i).headD 0
    let nbr := m.getAtom nbrIdx
    if nbr.atomicNum > 1 then
      if m.getAtomDegree nbrIdx == 2 &&
         (m.atomBondIdxs nbrIdx).any (fun bi =>
           (m.getBond bi).bondType == .DOUBLE &&
           ((m.getBond bi).stereo.gtAny ||
            BondDir.NONE.toNat <
              (m.getBond ((m.getBondBetweenAtoms i nbrIdx).getD 0)).bondDir.toNat)) then
        false
      else true
    else false
  else false

/-- Explicit-count bookkeeping on the heavy neighbor when a hydrogen is
removed: increment when asked to, when the heavy atom forbids implicit
hydrogens, or when it is chiral (the H is needed to complete the
coordination); otherwise only in the issue-228 cases — an aromatic N or P,
or a total valence equal to a non-first entry of the default-valence list. -/
def removeHsExplicitCountStep (table : Nat → List Nat) (updateExplicitCount : Bool)
    (m : Mol) (heavyIdx : Nat) : Mol :=
  let heavy := m.getAtom heavyIdx
  let heavyAtomNum := heavy.atomicNum
  let defaultVs := table heavyAtomNum
  if updateExplicitCount || heavy.noImplicit ||
     !(heavy.chiralTag == .CHI_UNSPECIFIED) then
    m.modifyAtom heavyIdx (fun a => { a with numExplicitHs := a.numExplicitHs + 1 })
  else if ((heavyAtomNum == 7 || heavyAtomNum == 15) && heavy.isAromatic) ||
          (defaultVs.drop 1).contains (m.getTotalValence table heavyIdx) then
    m.modifyAtom heavyIdx (fun a => { a with numExplicitHs := a.numExplicitHs + 1 })
  else m

/-- Chiral-parity fix-up when the hydrogen's bond `bi` is removed from the
heavy atom's bond list: order the incident bond indices with `bi` moved to
the end, compare against the stored bond order, and invert the chiral tag on
odd parity.  The chiral tag read here is unaffected by the preceding
explicit-count step. -/
def removeHsChiralStep (m : Mol) (heavyIdx bi : Nat) : Mol :=
  if !((m.getAtom heavyIdx).chiralTag == .CHI_UNSPECIFIED) then
    let neighborIndices :=
      ((m.atomBondIdxs heavyIdx).filter (fun b2 => !(b2 == bi))) ++ [bi]
    let nSwaps := getPerturbationOrder (m.atomBondIdxs heavyIdx) neighborIndices
    if nSwaps % 2 == 1 then
      m.modifyAtom heavyIdx (fun a => { a with chiralTag := a.chiralTag.invert })
    else m
  else m

/-- Wavy- and directed-bond handling for the removed hydrogen's bond `bi`,
followed by the stereo-atom substitution: a wavy bond beginning at the heavy
atom tags it with the unknown-stereo marker (and skips the substitution); a
directed bond moves its direction onto the heavy atom's last direction-free
single bond — flipped when both bonds begin at the heavy atom — provided no
other directed single bond exists there (github 754). -/
def removeHsBondDirStep (m : Mol) (i heavyIdx bi : Nat) : Mol :=
  let bond := m.getBond bi
  if bond.bondDir == .UNKNOWN && bond.beginAtomIdx == heavyIdx then
    m.modifyAtom heavyIdx (fun a => { a with unknownStereo := true })
  else if bond.bondDir == .ENDDOWNRIGHT || bond.bondDir == .ENDUPRIGHT then
    let singles := (m.atomBondIdxs heavyIdx).filter
      (fun b2 => !(b2 == bi) && (m.getBond b2).bondType == .SINGLE)
    let foundADir := singles.any (fun b2 => !((m.getBond b2).bondDir == .NONE))
    -- the source keeps overwriting its candidate, so the last direction-free
    -- single bond wins
    let oBond := (singles.filter (fun b2 => (m.getBond b2).bondDir == .NONE)).getLast?
    let m' :=
      if !foundADir then
        match oBond with
        | some ob =>
            let flipIt := ((m.getBond ob).beginAtomIdx == heavyIdx) &&
              (bond.beginAtomIdx == heavyIdx)
            let nd :=
              if flipIt then
                if bond.bondDir == .ENDDOWNRIGHT then BondDir.ENDUPRIGHT
                else BondDir.ENDDOWNRIGHT
              else bond.bondDir
            m.modifyBond ob (fun b => { b with bondDir := nd })
        | none => m
      else m
    (adjustStereoAtomsIfRequired m' i heavyIdx).2
  else
    (adjustStereoAtomsIfRequired m i heavyIdx).2

/-- Removal of one eligible hydrogen at index `i` (the body of the
`removeIt` branch of the `removeHs` loop): explicit-count bookkeeping on the
heavy neighbor, chiral-parity fix-up, wavy- and directed-bond handling with
stereo-atom substitution, and finally deletion of the hydrogen vertex.  The
heavy atom is the far endpoint of the hydrogen's first (and, for an atom the
loop removes, only) incident bond. -/
def removeHsRemoveOne (table : Nat → List Nat) (updateExplicitCount : Bool)
    (m : Mol) (i : Nat) : Mol :=
  let bi := (m.atomBondIdxs i).headD 0
  let heavyIdx := (m.getBond bi).getOtherAtomIdx i
  let m1 := removeHsExplicitCountStep table updateExplicitCount m heavyIdx
  let m2 := removeHsChiralStep m1 heavyIdx bi
  let m3 := removeHsBondDirStep m2 i heavyIdx bi
  m3.removeAtom i

/-- Restoration step for a kept non-hydrogen atom: if the `origNoImplicit`
property is present (protection for `removeHs` being called repeatedly
without an intervening `addHs`), move it back into the no-implicit flag and
clear the property. -/
def removeHsRestoreStep (m : Mol) (i : Nat) : Mol :=
  match (m.getAtom i).origNoImplicit with
  | some b => m.modifyAtom i (fun a => { a with noImplicit := b, origNoImplicit := none })
  | none => m

/-- The scanning loop of `removeHs`: advance `currIdx` past every kept atom,
delete eligible hydrogens in place (indices above shift down, so `currIdx`
stays), restore the `origNoImplicit`-backed no-implicit flag on every
non-hydrogen, and record the original-to-current index map the source
maintains.  The loop runs while `currIdx < numAtoms`; every iteration either
increments `currIdx` or shrinks the atom list, so `numAtoms - currIdx` bounds
the remaining iterations and is supplied as structural fuel (the fuel never
runs out when it starts at the atom count; see
`removeHsLoop_fuel_irrelevant`). -/
def removeHsLoop (table : Nat → List Nat) (implicitOnly updateExplicitCount : Bool) :
    Nat → Mol → Nat → Nat → List (Nat × Nat) → Mol × List (Nat × Nat)
  | 0, m, _, _, idxMap => (m, idxMap)
  | fuel + 1, m, currIdx, origIdx, idxMap =>
    if currIdx < m.numAtoms then
      let idxMap' := idxMap ++ [(origIdx, currIdx)]
      if (m.getAtom currIdx).atomicNum == 1 then
        if removeHsShouldRemove m implicitOnly currIdx then
          removeHsLoop table implicitOnly updateExplicitCount fuel
            (removeHsRemoveOne table updateExplicitCount m currIdx)
            currIdx (origIdx + 1) idxMap'
        else
          removeHsLoop table implicitOnly updateExplicitCount fuel m
            (currIdx + 1) (origIdx + 1) idxMap'
      else
        removeHsLoop table implicitOnly updateExplicitCount fuel
          (removeHsRestoreStep m currIdx) (currIdx + 1) (origIdx + 1) idxMap'
    else (m, idxMap)

namespace MolOps

/-- The in-place `MolOps::removeHs` without the optional trailing sanitize
pass (the initial property-cache refresh of the source is an identity in
this model; the sanitize pass is external and handled by
`removeHsSanitize`). -/
def removeHs (table : Nat → List Nat) (m : Mol)
    (implicitOnly updateExplicitCount : Bool) : Mol :=
  (removeHsLoop table implicitOnly updateExplicitCount m.numAtoms m 0 0 []).1

end MolOps

/-! The query-hydrogen merger (spec §4.5): `isQueryH` and `mergeQueryHs`. -/

mutual

/-- Size of a query tree, used as structural fuel for the breadth-first
scan of `isQueryH`. -/
def Query.qsize : Query → Nat
  | .node _ _ _ cs => 1 + qsizeList cs

/-- Total size of a list of query trees. -/
def qsizeList : List Query → Nat
  | [] => 0
  | q :: qs => Query.qsize q + qsizeList qs

end

/-- The empty query placeholder used when reading an absent query. -/
def Query.empty : Query := .node "" false 0 []

/-- The query of an atom, defaulting to the empty placeholder. -/
def Atom.queryOf (a : Atom) : Query := a.query.getD Query.empty

/-- The breadth-first work-list scan of `isQueryH` over a query's children:
pop the front; an OR node sets the or-flag (its children are not entered); a
non-negated atomic-number-equals-1 leaf sets the hydrogen flag; any other
node pushes its children at the back.  The loop stops once both flags are
set.  The fuel argument bounds the iterations; the initial total tree size
is always sufficient, since every step removes one node and pushes only that
node's proper subtrees. -/
def scanHQuery : Nat → List Query → Bool → Bool → Bool × Bool
  | 0, _, hasH, hasOr => (hasH, hasOr)
  | _ + 1, [], hasH, hasOr => (hasH, hasOr)
  | fuel + 1, q :: stack, hasH, hasOr =>
      if hasH && hasOr then (hasH, hasOr)
      else if q.descr == "AtomOr" then scanHQuery fuel stack hasH true
      else if q.descr == "AtomAtomicNum" then
        if q.val == 1 && !q.neg then scanHQuery fuel stack true hasOr
        else scanHQuery fuel stack hasH hasOr
      else scanHQuery fuel (stack ++ q.children) hasH hasOr

/-- Is the atom at index `i` an explicit-hydrogen query (`isQueryH`)?
Atomic number 1 with no query or with a plain non-negated atomic-number
query is the simple case; otherwise only degree-1 atoms with a non-negated
query qualify, and only when the scan finds a non-negated
atomic-number-equals-1 leaf without also finding an OR combinator (the
ambiguous OR case is rejected with a warning, see `isQueryHWarning`). -/
def isQueryH (m : Mol) (i : Nat) : Bool :=
  let atom := m.getAtom i
  if atom.atomicNum == 1 &&
     (atom.query.isNone ||
      (!atom.queryOf.neg && atom.queryOf.descr == "AtomAtomicNum")) then
    true
  else if !(m.getAtomDegree i == 1) then false
  else if atom.query.isSome && atom.queryOf.neg then false
  else
    match atom.query with
    | none => false
    | some q =>
        let res := scanHQuery (qsizeList q.children) q.children false (q.descr == "AtomOr")
        if res.1 && res.2 then false
        else res.1

/-- Does `isQueryH` take its warning branch on atom `i` (an ambiguous
OR-with-hydrogen-leaf query, for which the scan sets both flags)?  This is
the caller-visible diagnostic of the source; the atom is then left unmerged
and no error is raised. -/
def isQueryHWarning (m : Mol) (i : Nat) : Bool :=
  let atom := m.getAtom i
  if atom.atomicNum == 1 &&
     (atom.query.isNone ||
      (!atom.queryOf.neg && atom.queryOf.descr == "AtomAtomicNum")) then
    false
  else if !(m.getAtomDegree i == 1) then false
  else if atom.query.isSome && atom.queryOf.neg then false
  else
    match atom.query with
    | none => false
    | some q =>
        let res := scanHQuery (qsizeList q.children) q.children false (q.descr == "AtomOr")
        res.1 && res.2

/-- Modelled from the spec: `makeAtomNumQuery` builds a plain atomic-number
equality query. -/
def makeAtomNumQuery (z : Nat) : Query := .node "AtomAtomicNum" false (Int.ofNat z) []

/-- Modelled from the spec: `makeAtomHCountQuery i` with its negation flag
set — the "not exactly i hydrogens" clause that `mergeQueryHs` ANDs in. -/
def negHCountQuery (k : Nat) : Query := .node "AtomHCount" true (Int.ofNat k) []

/-- Modelled from the spec: `Atom::expandQuery` with the default AND
composition wraps the existing tree and the new clause in a conjunction. -/
def expandQuery (q tmp : Query) : Query := .node "AtomAnd" false 0 [q, tmp]

/-- Ascending insertion sort for the removal list (the source uses
`std::sort`; only the resulting order matters). -/
def insertAsc (x : Nat) : List Nat → List Nat
  | [] => [x]
  | y :: ys => if x ≤ y then x :: y :: ys else y :: insertAsc x ys

/-- Sort a list of indices ascending. -/
def sortAsc : List Nat → List Nat
  | [] => []
  | x :: xs => insertAsc x (sortAsc xs)

/-- One iteration of the `mergeQueryHs` scan at index `currIdx`, carrying
the accumulated molecule and removal list.  Query-hydrogen classifications
(`hatoms`) were computed once, up front.  For a non-query-hydrogen atom:
collect its eligible query-hydrogen neighbors (all of them, or only the
unmapped ones in `mergeUnmappedOnly` mode), queue them for removal, and when
any exist ensure the atom carries a query (synthesizing an atomic-number
query from its plain atomic number if it had none) and AND in one negated
H-count clause per eligible neighbor, for counts 0, 1, and so on.  The
recursion of the source into nested recursive-substructure query molecules
is outside this model: such nodes hold no nested molecule here. -/
def mergeQueryHsStep (mergeUnmappedOnly : Bool) (hatoms : List Bool)
    (st : Mol × List Nat) (currIdx : Nat) : Mol × List Nat :=
  let m := st.1
  let toRemove := st.2
  if hatoms.getD currIdx false then (m, toRemove)
  else
    let eligible := (m.atomNeighbors currIdx).filter (fun j =>
      hatoms.getD j false &&
      (!mergeUnmappedOnly || (m.getAtom j).molAtomMapNumber.isNone))
    let numHsToRemove := eligible.length
    if numHsToRemove > 0 then
      let m1 :=
        if (m.getAtom currIdx).query.isNone then
          m.modifyAtom currIdx (fun a => { a with query := some (makeAtomNumQuery a.atomicNum) })
        else m
      let m2 := (List.range numHsToRemove).foldl
        (fun mm k => mm.modifyAtom currIdx
          (fun a => { a with query := some (expandQuery a.queryOf (negHCountQuery k)) })) m1
      (m2, toRemove ++ eligible)
    else (m, toRemove)

namespace MolOps

end MolOps

/-- The up-front query-hydrogen classification of `mergeQueryHs`, one flag
per atom index. -/
def mergeQueryHsHatoms (m : Mol) : List Bool :=
  (List.range m.numAtoms).map (isQueryH m)

/-- The scan phase of `mergeQueryHs` over all original atom indices:
accumulates the merged molecule and the list of hydrogen indices to
remove. -/
def mergeQueryHsScan (mergeUnmappedOnly : Bool) (m : Mol) : Mol × List Nat :=
  (List.range m.numAtoms).foldl
    (mergeQueryHsStep mergeUnmappedOnly (mergeQueryHsHatoms m)) (m, [])

namespace MolOps

/-- The in-place `MolOps::mergeQueryHs`: classify every atom once, scan all
original indices accumulating merges and the removal list, then bulk-remove
the merged hydrogens, sorted, from the highest index down. -/
def mergeQueryHs (m : Mol) (mergeUnmappedOnly : Bool) : Mol :=
  let scanned := mergeQueryHsScan mergeUnmappedOnly m
  (sortAsc scanned.2).reverse.foldl (fun mm k => mm.removeAtom k) scanned.1

end MolOps

/-! The error path of the copy-returning `removeHs` (spec §7). -/

/-- A typed sanitize failure (`MolSanitizeException`) carrying the offending
context. -/
structure MolSanitizeException where
  message : String
deriving DecidableEq, Repr

namespace MolOps

/-- The in-place `removeHs` with its optional trailing sanitize pass: when
the removal may have altered indices (`implicitOnly` is off) and
sanitization was requested, the external sanitize service runs on the
post-removal molecule and its typed failure propagates.  Modelled from the
spec: `sanitizeMol` is an external service, supplied as the oracle `san`. -/
def removeHsSanitize (table : Nat → List Nat)
    (san : Mol → Except MolSanitizeException Mol) (m : Mol)
    (implicitOnly updateExplicitCount sanitize : Bool) :
    Except MolSanitizeException Mol :=
  let res := removeHs table m implicitOnly updateExplicitCount
  if !implicitOnly && sanitize then san res else .ok res

/-- The copy-returning `removeHs` variant: run on a freshly built copy and,
if the sanitize pass throws, delete the partial copy before re-throwing — in
this pure embedding the error result carries no molecule, and the input
value is untouched by construction. -/
def removeHsCopy (table : Nat → List Nat)
    (san : Mol → Except MolSanitizeException Mol) (m : Mol)
    (implicitOnly updateExplicitCount sanitize : Bool) :
    Except MolSanitizeException Mol :=
  match removeHsSanitize table san m implicitOnly updateExplicitCount sanitize with
  | .error se => .error se
  | .ok r => .ok r

end MolOps

/-! Shape definitions for the round-trip argument: the exact atom and bond
blocks `addHs` appends and `removeHs` strips again. -/

/-- The record transformation `addHs` applies to each processed heavy atom
when converting implicit hydrogens: explicit count cleared, original
no-implicit flag saved in the property, no-implicit set. -/
def markAdded (a : Atom) : Atom :=
  { a with numExplicitHs := 0, origNoImplicit := some a.noImplicit, noImplicit := true }

/-- The hydrogen record created by the implicit loop of `addHs`. -/
def hAtomImp : Atom := { newHAtom with isImplicit := true }

/-- Owner indices of the created hydrogens: atom `s` contributes the first
block of entries (one per implicit hydrogen), atom `s + 1` the next block,
and so on. -/
def ownersFrom : List Nat → Nat → List Nat
  | [], _ => []
  | k :: rest, s => List.replicate k s ++ ownersFrom rest (s + 1)

/-- The heavy-to-hydrogen single bonds for the listed owners, with the
hydrogens occupying consecutive indices starting at `base`. -/
def hBondsFor : List Nat → Nat → List Bond
  | [], _ => []
  | o :: rest, base =>
      { beginAtomIdx := o, endAtomIdx := base, bondType := .SINGLE } :: hBondsFor rest (base + 1)

/-- The per-atom implicit-hydrogen counts of a molecule. -/
def impCounts (table : Nat → List Nat) (m : Mol) : List Nat :=
  (List.range m.numAtoms).map (m.getNumImplicitHs table)

theorem Mol.numAtoms_setAtom (m : Mol) (i : Nat) (a : Atom) :
    (m.setAtom i a).numAtoms = m.numAtoms := by
  simp [Mol.setAtom, Mol.numAtoms]

theorem Mol.numAtoms_modifyAtom (m : Mol) (i : Nat) (f : Atom → Atom) :
    (m.modifyAtom i f).numAtoms = m.numAtoms := by
  simp [Mol.modifyAtom, Mol.numAtoms_setAtom]

theorem Mol.numAtoms_setBond (m : Mol) (bi : Nat) (b : Bond) :
    (m.setBond bi b).numAtoms = m.numAtoms := by
  simp [Mol.setBond, Mol.numAtoms]

theorem Mol.numAtoms_modifyBond (m : Mol) (bi : Nat) (f : Bond → Bond) :
    (m.modifyBond bi f).numAtoms = m.numAtoms := by
  simp [Mol.modifyBond, Mol.numAtoms_setBond]

theorem Mol.numAtoms_removeAtom (m : Mol) (k : Nat) (h : k < m.numAtoms) :
    (m.removeAtom k).numAtoms = m.numAtoms - 1 := by
  have h' : k < m.atoms.length := h
  simp only [Mol.removeAtom, Mol.numAtoms, List.length_eraseIdx]
  split <;> omega

theorem adjustStereoAtomsIfRequired_numAtoms (m : Mol) (a h : Nat) :
    (adjustStereoAtomsIfRequired m a h).2.numAtoms = m.numAtoms := by
  unfold adjustStereoAtomsIfRequired
  split
  · rfl
  · split
    · rfl
    · split <;> simp [Mol.numAtoms_modifyBond]

theorem removeHsExplicitCountStep_numAtoms (table : Nat → List Nat) (u : Bool)
    (m : Mol) (h : Nat) :
    (removeHsExplicitCountStep table u m h).numAtoms = m.numAtoms := by
  unfold removeHsExplicitCountStep
  dsimp only
  split
  · simp [Mol.numAtoms_modifyAtom]
  · split <;> simp [Mol.numAtoms_modifyAtom]

theorem removeHsChiralStep_numAtoms (m : Mol) (h bi : Nat) :
    (removeHsChiralStep m h bi).numAtoms = m.numAtoms := by
  unfold removeHsChiralStep
  dsimp only
  split
  · split <;> simp [Mol.numAtoms_modifyAtom]
  · rfl

theorem removeHsBondDirStep_numAtoms (m : Mol) (i h bi : Nat) :
    (removeHsBondDirStep m i h bi).numAtoms = m.numAtoms := by
  unfold removeHsBondDirStep
  dsimp only
  split
  · simp [Mol.numAtoms_modifyAtom]
  · split
    · rw [adjustStereoAtomsIfRequired_numAtoms]
      split
      · split
        · simp [Mol.numAtoms_modifyBond]
        · rfl
      · rfl
    · rw [adjustStereoAtomsIfRequired_numAtoms]

theorem removeHsRemoveOne_numAtoms (table : Nat → List Nat) (u : Bool) (m : Mol)
    (i : Nat) (h : i < m.numAtoms) :
    (removeHsRemoveOne table u m i).numAtoms = m.numAtoms - 1 := by
  unfold removeHsRemoveOne
  rw [Mol.numAtoms_removeAtom, removeHsBondDirStep_numAtoms, removeHsChiralStep_numAtoms,
    removeHsExplicitCountStep_numAtoms]
  rw [removeHsBondDirStep_numAtoms, removeHsChiralStep_numAtoms,
    removeHsExplicitCountStep_numAtoms]
  exact h

theorem removeHsRestoreStep_numAtoms (m : Mol) (i : Nat) :
    (removeHsRestoreStep m i).numAtoms = m.numAtoms := by
  unfold removeHsRestoreStep
  split <;> simp [Mol.numAtoms_modifyAtom]

/-! Infrastructure for the round-trip proof: positional list lemmas and the
decomposition of adjacency data over appended bond blocks. -/

theorem set_append_len {α : Type} (l1 : List α) (x : α) (l2 : List α) (v : α) :
    (l1 ++ x :: l2).set l1.length v = l1 ++ v :: l2 := by
  induction l1 with
  | nil => rfl
  | cons a t ih => simp [List.set, ih]

theorem getD_append_len {α : Type} (l1 : List α) (x : α) (l2 : List α) (d : α) :
    (l1 ++ x :: l2).getD l1.length d = x := by
  induction l1 with
  | nil => rfl
  | cons a t ih => simpa using ih

theorem eraseIdx_append_len {α : Type} (l1 : List α) (x : α) (l2 : List α) :
    (l1 ++ x :: l2).eraseIdx l1.length = l1 ++ l2 := by
  induction l1 with
  | nil => rfl
  | cons a t ih => simp [List.eraseIdx, ih]

theorem set_getD_self {α : Type} (l : List α) (i : Nat) (d : α) :
    l.set i (l.getD i d) = l := by
  induction l generalizing i with
  | nil => rfl
  | cons a t ih =>
    cases i with
    | zero => simp
    | succ n =>
      have : (a :: t).getD (n + 1) d = t.getD n d := rfl
      rw [this, List.set_cons_succ, ih]

/-- Every member of an atom's incident-bond index list is a valid bond
index. -/
theorem atomBondIdxs_lt (m : Mol) (i : Nat) :
    ∀ bi ∈ m.atomBondIdxs i, bi < m.bonds.length := by
  intro bi hbi
  have hmem := List.mem_filter.mp hbi
  simpa using List.mem_range.mp hmem.1

/-- Incident-bond indices over an appended bond block: the indices into the
first block, then the indices into the second block shifted up. -/
theorem atomBondIdxs_bonds_append (A : List Atom) (C : List Conformer)
    (B E : List Bond) (i : Nat) :
    Mol.atomBondIdxs ⟨A, B ++ E, C⟩ i =
      Mol.atomBondIdxs ⟨A, B, C⟩ i ++ (Mol.atomBondIdxs ⟨A, E, C⟩ i).map (B.length + ·) := by
  unfold Mol.atomBondIdxs
  simp only [List.length_append]
  rw [List.range_add, List.filter_append, List.filter_map]
  congr 1
  · apply List.filter_congr
    intro bi hbi
    have hlt := List.mem_range.mp hbi
    simp only [Mol.getBond]
    rw [List.getD_append _ _ _ _ hlt]
  · congr 1
    apply List.filter_congr
    intro bi _
    simp only [Function.comp_apply, Mol.getBond]
    rw [List.getD_append_right _ _ _ _ (Nat.le_add_right _ _)]
    simp

/-! Concrete example molecules used to instantiate the theorems below. -/

/-- A compact default-valence table covering the elements of the examples
(H, C, N, O, F, S, Cl, Br); all other atomic numbers get an empty list, so
dummies have no default valence. -/
def exTable : Nat → List Nat := fun z =>
  if z == 1 then [1] else if z == 6 then [4] else if z == 7 then [3]
  else if z == 8 then [2] else if z == 9 then [1] else if z == 16 then [2, 4, 6]
  else if z == 17 then [1] else if z == 35 then [1] else []

/-- A chiral carbon with an explicit hydrogen (index 1, bond 0) and three
halogen substituents; the hydrogen's bond comes first in the carbon's bond
list, so moving it to the end is a three-swap (odd) permutation. -/
def exMolChiralH : Mol :=
  { atoms := [{ atomicNum := 6, chiralTag := .CHI_TETRAHEDRAL_CW }, { atomicNum := 1 },
      { atomicNum := 9 }, { atomicNum := 17 }, { atomicNum := 35 }]
    bonds := [{ beginAtomIdx := 0, endAtomIdx := 1 }, { beginAtomIdx := 0, endAtomIdx := 2 },
      { beginAtomIdx := 0, endAtomIdx := 3 }, { beginAtomIdx := 0, endAtomIdx := 4 }] }

/-- A cis-configured double bond C0=C1 whose stereo-atom list names the
hydrogen (index 2) attached to C0; C0 also carries a methyl-like neighbor
(index 4) available as the alternate stereo reference. -/
def exMolCisH : Mol :=
  { atoms := [{ atomicNum := 6 }, { atomicNum := 6 }, { atomicNum := 1 },
      { atomicNum := 6 }, { atomicNum := 6 }]
    bonds := [{ beginAtomIdx := 0, endAtomIdx := 1, bondType := .DOUBLE,
                stereo := .STEREOCIS, stereoAtoms := [2, 3] },
      { beginAtomIdx := 0, endAtomIdx := 2 }, { beginAtomIdx := 1, endAtomIdx := 3 },
      { beginAtomIdx := 0, endAtomIdx := 4 }] }

/-- A degree-1 query atom carrying an ambiguous OR query (hydrogen leaf OR
carbon leaf) attached to a carbon. -/
def exMolOrH : Mol :=
  { atoms := [{ atomicNum := 6 },
      { atomicNum := 0,
        query := some (.node "AtomOr" false 0
          [.node "AtomAtomicNum" false 1 [], .node "AtomAtomicNum" false 6 []]) }]
    bonds := [{ beginAtomIdx := 0, endAtomIdx := 1 }] }

/-- The eligible query-hydrogen neighbors of atom `i` (those classified as
query hydrogens and, in unmapped-only mode, lacking an atom map), exactly as
the `mergeQueryHs` scan collects them. -/
def mergeEligible (b : Bool) (m : Mol) (i : Nat) : List Nat :=
  (m.atomNeighbors i).filter (fun j =>
    (mergeQueryHsHatoms m).getD j false &&
    (!b || (m.getAtom j).molAtomMapNumber.isNone))

/-- The query `mergeQueryHs` leaves on a heavy atom with `n` merged
hydrogen neighbors: the base query with one negated H-count clause ANDed in
per count 0, ..., n-1. -/
def hChainQuery (q : Query) (n : Nat) : Query :=
  (List.range n).foldl (fun acc k => expandQuery acc (negHCountQuery k)) q

/-- A methylene fragment: a carbon (index 0) bonded to two plain explicit
hydrogens (indices 1 and 2), all atoms query-free. -/
def exMolCH2 : Mol :=
  { atoms := [{ atomicNum := 6 }, { atomicNum := 1 }, { atomicNum := 1 }]
    bonds := [{ beginAtomIdx := 0, endAtomIdx := 1 }, { beginAtomIdx := 0, endAtomIdx := 2 }] }

/-- A 2-D conformer for the degree-3 placement example: the heavy atom at
the origin, its two existing neighbors at unit distance along the negative
axes. -/
noncomputable def exConf2D : Conformer :=
  { is3D := false, positions := [⟨0, 0, 0⟩, ⟨-1, 0, 0⟩, ⟨0, -1, 0⟩] }

/-- A heavy carbon (index 0) with two carbon neighbors (1, 2) and a freshly
attached hydrogen (3), carrying the 2-D conformer `exConf2D`. -/
noncomputable def exMolDeg3 : Mol :=
  { atoms := [{ atomicNum := 6 }, { atomicNum := 6 }, { atomicNum := 6 }, { atomicNum := 1 }]
    bonds := [{ beginAtomIdx := 0, endAtomIdx := 1 }, { beginAtomIdx := 0, endAtomIdx := 2 },
      { beginAtomIdx := 0, endAtomIdx := 3 }]
    conformers := [exConf2D] }

/-- A one-position 3-D conformer with the heavy atom at the origin. -/
noncomputable def exConfU3D : Conformer := { is3D := true, positions := [⟨0, 0, 0⟩] }

/-- A one-position 2-D conformer with the heavy atom at the origin. -/
noncomputable def exConfU2D : Conformer := { is3D := false, positions := [⟨0, 0, 0⟩] }

/-- A heavy carbon whose only bond goes to the fresh hydrogen (degree 1),
with a 3-D conformer followed by a 2-D conformer. -/
noncomputable def exMolDeg1Mixed : Mol :=
  { atoms := [{ atomicNum := 6 }, { atomicNum := 1 }]
    bonds := [{ beginAtomIdx := 0, endAtomIdx := 1 }]
    conformers := [exConfU3D, exConfU2D] }

/-- The same degree-1 molecule with a single 2-D conformer. -/
noncomputable def exMolDeg1Uni : Mol :=
  { atoms := [{ atomicNum := 6 }, { atomicNum := 1 }]
    bonds := [{ beginAtomIdx := 0, endAtomIdx := 1 }]
    conformers := [exConfU2D] }

/-- Methane as stored without explicit hydrogens: a lone carbon whose four
hydrogens are all implicit. -/
def exMolCH4 : Mol := { atoms := [{ atomicNum := 6 }] }

/-- A chiral halomethane with its hydrogen implicit: the chiral tag makes
the removal loop migrate the implicit hydrogen into the explicit count. -/
def exMolChiralImp : Mol :=
  { atoms := [{ atomicNum := 6, chiralTag := .CHI_TETRAHEDRAL_CW }, { atomicNum := 9 },
      { atomicNum := 17 }, { atomicNum := 35 }]
    bonds := [{ beginAtomIdx := 0, endAtomIdx := 1 }, { beginAtomIdx := 0, endAtomIdx := 2 },
      { beginAtomIdx := 0, endAtomIdx := 3 }] }

/-- The four protected hydrogen configurations of the `removeHs` eligibility
decision (`removeIt`), with the stereo-reference case restricted — as the
code requires — to non-implicit hydrogens: (1) no neighbors; (2) non-implicit
with an isotope label; (3) implicit with a lone dummy neighbor; (4)
non-implicit, isotope-free, whose lone heavy neighbor has degree two and
sits on a double bond with a set stereo descriptor (or the hydrogen's bond
carries a direction). -/
def protectedH (m : Mol) (i : Nat) : Prop :=
  m.getAtomDegree i = 0 ∨
  ((m.getAtom i).isImplicit = false ∧ 0 < (m.getAtom i).isotope) ∨
  ((m.getAtom i).isImplicit = true ∧ m.getAtomDegree i = 1 ∧
    (m.getAtom ((m.atomNeighbors i).headD 0)).atomicNum = 0) ∨
  ((m.getAtom i).isImplicit = false ∧ (m.getAtom i).isotope = 0 ∧
    m.getAtomDegree i = 1 ∧
    1 < (m.getAtom ((m.atomNeighbors i).headD 0)).atomicNum ∧
    m.getAtomDegree ((m.atomNeighbors i).headD 0) = 2 ∧
    ((m.atomBondIdxs ((m.atomNeighbors i).headD 0)).any (fun bi =>
      (m.getBond bi).bondType == .DOUBLE &&
      ((m.getBond bi).stereo.gtAny ||
       BondDir.NONE.toNat <
         (m.getBond ((m.getBondBetweenAtoms i
           ((m.atomNeighbors i).headD 0)).getD 0)).bondDir.toNat))) = true)

instance protectedH.instDecidable (m : Mol) (i : Nat) : Decidable (protectedH m i) := by
  unfold protectedH
  infer_instance

/-- A molecule exercising every protected hydrogen configuration: an
isolated hydrogen (0), an isotope-labeled hydrogen (1) on a carbon (2), an
implicit hydrogen (3) on a dummy (4), and a stereo-defining hydrogen (7) on
one carbon (5) of a cis double bond (5 = 6) whose far carbon carries a
methyl (8). -/
def exMolProt : Mol :=
  { atoms := [{ atomicNum := 1 }, { atomicNum := 1, isotope := 2 }, { atomicNum := 6 },
      { atomicNum := 1, isImplicit := true }, { atomicNum := 0 }, { atomicNum := 6 },
      { atomicNum := 6 }, { atomicNum := 1 }, { atomicNum := 6 }]
    bonds := [{ beginAtomIdx := 1, endAtomIdx := 2 }, { beginAtomIdx := 3, endAtomIdx := 4 },
      { beginAtomIdx := 5, endAtomIdx := 6, bondType := .DOUBLE, stereo := .STEREOCIS,
        stereoAtoms := [7, 8] },
      { beginAtomIdx := 5, endAtomIdx := 7 }, { beginAtomIdx := 6, endAtomIdx := 8 }] }

/-- An implicit-flagged hydrogen (2) that is a stereo reference of the cis
double bond 0 = 1 at its degree-2 neighbor 0: the implicit branch of the
eligibility decision removes it regardless. -/
def exMolStereoImpH : Mol :=
  { atoms := [{ atomicNum := 6 }, { atomicNum := 6 },
      { atomicNum := 1, isImplicit := true }, { atomicNum := 6 }]
    bonds := [{ beginAtomIdx := 0, endAtomIdx := 1, bondType := .DOUBLE,
                stereo := .STEREOCIS, stereoAtoms := [2, 3] },
      { beginAtomIdx := 0, endAtomIdx := 2 }, { beginAtomIdx := 1, endAtomIdx := 3 }] }

/-! Basic access lemmas for the graph mutators. -/

theorem Mol.bonds_setAtom (m : Mol) (i : Nat) (a : Atom) :
    (m.setAtom i a).bonds = m.bonds := rfl

theorem Mol.bonds_modifyAtom (m : Mol) (i : Nat) (f : Atom → Atom) :
    (m.modifyAtom i f).bonds = m.bonds := rfl

theorem Mol.atoms_setBond (m : Mol) (bi : Nat) (b : Bond) :
    (m.setBond bi b).atoms = m.atoms := rfl

theorem Mol.atoms_modifyBond (m : Mol) (bi : Nat) (f : Bond → Bond) :
    (m.modifyBond bi f).atoms = m.atoms := rfl

theorem Mol.conformers_setAtom (m : Mol) (i : Nat) (a : Atom) :
    (m.setAtom i a).conformers = m.conformers := rfl

theorem Mol.conformers_modifyAtom (m : Mol) (i : Nat) (f : Atom → Atom) :
    (m.modifyAtom i f).conformers = m.conformers := rfl

theorem Mol.conformers_modifyBond (m : Mol) (bi : Nat) (f : Bond → Bond) :
    (m.modifyBond bi f).conformers = m.conformers := rfl

theorem Mol.getAtom_setAtom_self (m : Mol) (i : Nat) (a : Atom) (h : i < m.numAtoms) :
    (m.setAtom i a).getAtom i = a := by
  simp [Mol.setAtom, Mol.getAtom, List.getD_eq_getElem?_getD, List.getElem?_set_self (by exact h)]

theorem Mol.getAtom_modifyAtom_self (m : Mol) (i : Nat) (f : Atom → Atom)
    (h : i < m.numAtoms) :
    (m.modifyAtom i f).getAtom i = f (m.getAtom i) := by
  simp [Mol.modifyAtom, Mol.getAtom_setAtom_self m i _ h]

theorem Mol.getAtom_setAtom_ne (m : Mol) (i : Nat) (a : Atom) (j : Nat) (h : j ≠ i) :
    (m.setAtom i a).getAtom j = m.getAtom j := by
  simp [Mol.setAtom, Mol.getAtom, List.getD_eq_getElem?_getD, List.getElem?_set_ne (Ne.symm h)]

theorem Mol.getAtom_modifyAtom_ne (m : Mol) (i : Nat) (f : Atom → Atom) (j : Nat)
    (h : j ≠ i) :
    (m.modifyAtom i f).getAtom j = m.getAtom j := Mol.getAtom_setAtom_ne m i _ j h

theorem Mol.getBond_setBond_self (m : Mol) (bi : Nat) (b : Bond) (h : bi < m.bonds.length) :
    (m.setBond bi b).getBond bi = b := by
  simp [Mol.setBond, Mol.getBond, List.getD_eq_getElem?_getD, List.getElem?_set_self (by exact h)]

theorem Mol.getBond_modifyBond_self (m : Mol) (bi : Nat) (f : Bond → Bond)
    (h : bi < m.bonds.length) :
    (m.modifyBond bi f).getBond bi = f (m.getBond bi) := by
  simp [Mol.modifyBond, Mol.getBond_setBond_self m bi _ h]

theorem Mol.getBond_setBond_ne (m : Mol) (bi : Nat) (b : Bond) (bj : Nat) (h : bj ≠ bi) :
    (m.setBond bi b).getBond bj = m.getBond bj := by
  simp [Mol.setBond, Mol.getBond, List.getD_eq_getElem?_getD, List.getElem?_set_ne (Ne.symm h)]

theorem Mol.getBond_modifyBond_ne (m : Mol) (bi : Nat) (f : Bond → Bond) (bj : Nat)
    (h : bj ≠ bi) :
    (m.modifyBond bi f).getBond bj = m.getBond bj := Mol.getBond_setBond_ne m bi _ bj h

/-- Incident-bond indices depend only on the bond list. -/
theorem Mol.atomBondIdxs_eq_of_bonds (m1 m2 : Mol) (h : m1.bonds = m2.bonds) (i : Nat) :
    m1.atomBondIdxs i = m2.atomBondIdxs i := by
  unfold Mol.atomBondIdxs Mol.getBond
  rw [h]

/-- Degree depends only on the bond list. -/
theorem Mol.getAtomDegree_eq_of_bonds (m1 m2 : Mol) (h : m1.bonds = m2.bonds) (i : Nat) :
    m1.getAtomDegree i = m2.getAtomDegree i := by
  unfold Mol.getAtomDegree
  rw [Mol.atomBondIdxs_eq_of_bonds m1 m2 h]

/-- Neighbor lists depend only on the bond list. -/
theorem Mol.atomNeighbors_eq_of_bonds (m1 m2 : Mol) (h : m1.bonds = m2.bonds) (i : Nat) :
    m1.atomNeighbors i = m2.atomNeighbors i := by
  unfold Mol.atomNeighbors Mol.getBond
  rw [Mol.atomBondIdxs_eq_of_bonds m1 m2 h, h]

theorem getD_eraseIdx {α : Type} (l : List α) (k j : Nat) (d : α) (hjk : j ≠ k) :
    (l.eraseIdx k).getD (shiftIdx k j) d = l.getD j d := by
  induction l generalizing k j with
  | nil => simp [List.eraseIdx]
  | cons a t ih =>
    cases k with
    | zero =>
      cases j with
      | zero => exact absurd rfl hjk
      | succ j' => simp [List.eraseIdx, shiftIdx]
    | succ k' =>
      cases j with
      | zero => simp [List.eraseIdx, shiftIdx]
      | succ j' =>
        have hshift : shiftIdx (k' + 1) (j' + 1) = shiftIdx k' j' + 1 := by
          unfold shiftIdx
          split <;> split <;> omega
        rw [hshift]
        have : (a :: t).eraseIdx (k' + 1) = a :: t.eraseIdx k' := rfl
        rw [this]
        have h2 : ∀ (l2 : List α) (x : α) (n : Nat), (x :: l2).getD (n + 1) d = l2.getD n d :=
          fun _ _ _ => rfl
        rw [h2, h2]
        exact ih k' j' (by omega)

/-- A surviving atom's record is unchanged by `removeAtom`, at its shifted
index. -/
theorem Mol.getAtom_removeAtom (m : Mol) (k j : Nat) (hjk : j ≠ k) :
    (m.removeAtom k).getAtom (shiftIdx k j) = m.getAtom j := by
  unfold Mol.removeAtom Mol.getAtom
  exact getD_eraseIdx m.atoms k j {} hjk

/-! Claim C10: the degree-five-and-up fallback of `setHydrogenCoords`. -/

theorem Conformer.getAtomPos_setAtomPos (c : Conformer) (i : Nat) (p : Point3) :
    (c.setAtomPos i p).getAtomPos i = p := by
  unfold Conformer.setAtomPos Conformer.getAtomPos
  dsimp only
  rw [List.getD_eq_getElem?_getD, List.getElem?_set_self ?hi, Option.getD_some]
  case hi =>
    rw [List.length_append, List.length_replicate]
    omega

theorem Point3.zero_add_zero_smul (r : ℝ) : Point3.zero + Point3.zero.smul r = Point3.zero := by
  unfold Point3.zero Point3.smul
  show Point3.add _ _ = _
  unfold Point3.add
  simp

/-- C10: when the heavy atom's degree (after the hydrogen is attached) is
five or more, `setHydrogenCoords` falls into its default branch, whose
position is computed once, before the conformer loop, from the
default-initialized zero heavy-atom position and zero direction vector: the
hydrogen receives the origin in every conformer, independent of the heavy
atom's actual coordinates in each of them. -/
theorem setHydrogenCoords_degreeFive_origin (rb0 : Nat → ℝ) (m : Mol)
    (hydIdx heavyIdx : Nat) (hdeg : 5 ≤ m.getAtomDegree heavyIdx) :
    ∀ c ∈ (setHydrogenCoords rb0 m hydIdx heavyIdx).conformers,
      c.getAtomPos hydIdx = Point3.zero := by
  intro c hc
  unfold setHydrogenCoords at hc
  dsimp only at hc
  rw [if_neg (by simp; omega), if_neg (by simp; omega), if_neg (by simp; omega),
    if_neg (by simp; omega)] at hc
  obtain ⟨c0, _, rfl⟩ := List.mem_map.mp hc
  rw [Conformer.getAtomPos_setAtomPos, Point3.zero_add_zero_smul]

/-- C10 witness: a heavy atom of degree five whose conformer stores
non-origin coordinates still gets its hydrogen at the origin. -/
theorem setHydrogenCoords_degreeFive_origin_witness :
    5 ≤ (Mol.mk
      [{ atomicNum := 16 }, { atomicNum := 9 }, { atomicNum := 9 }, { atomicNum := 9 },
        { atomicNum := 9 }, { atomicNum := 1 }]
      [{ beginAtomIdx := 0, endAtomIdx := 1 }, { beginAtomIdx := 0, endAtomIdx := 2 },
        { beginAtomIdx := 0, endAtomIdx := 3 }, { beginAtomIdx := 0, endAtomIdx := 4 },
        { beginAtomIdx := 0, endAtomIdx := 5 }]
      [{ is3D := true, positions := [⟨2, 3, 4⟩, ⟨1, 0, 0⟩, ⟨0, 1, 0⟩, ⟨0, 0, 1⟩,
        ⟨1, 1, 0⟩, ⟨0, 0, 0⟩] }]).getAtomDegree 0 ∧
    ∀ c ∈ (setHydrogenCoords (fun _ => (1 : ℝ)) (Mol.mk
      [{ atomicNum := 16 }, { atomicNum := 9 }, { atomicNum := 9 }, { atomicNum := 9 },
        { atomicNum := 9 }, { atomicNum := 1 }]
      [{ beginAtomIdx := 0, endAtomIdx := 1 }, { beginAtomIdx := 0, endAtomIdx := 2 },
        { beginAtomIdx := 0, endAtomIdx := 3 }, { beginAtomIdx := 0, endAtomIdx := 4 },
        { beginAtomIdx := 0, endAtomIdx := 5 }]
      [{ is3D := true, positions := [⟨2, 3, 4⟩, ⟨1, 0, 0⟩, ⟨0, 1, 0⟩, ⟨0, 0, 1⟩,
        ⟨1, 1, 0⟩, ⟨0, 0, 0⟩] }]) 5 0).conformers,
      c.getAtomPos 5 = Point3.zero :=
  ⟨by decide, setHydrogenCoords_degreeFive_origin (fun _ => (1 : ℝ)) _ 5 0 (by decide)⟩

/-! Claim C9: the error path of the copy-returning `removeHs`. -/

/-- C9: when the copy-returning `removeHs` runs with sanitization requested
and the external sanitize pass fails on the post-removal molecule, exactly
that typed error propagates to the caller and no molecule is returned — the
partially built copy is discarded (the error result carries nothing), and
the input value is untouched, this embedding of the copy path being pure. -/
theorem removeHsCopy_sanitize_error (table : Nat → List Nat)
    (san : Mol → Except MolSanitizeException Mol) (m : Mol) (u : Bool)
    (e : MolSanitizeException)
    (hsan : san (MolOps.removeHs table m false u) = .error e) :
    MolOps.removeHsCopy table san m false u true = .error e ∧
    ∀ r : Mol, MolOps.removeHsCopy table san m false u true ≠ .ok r := by
  have hmain : MolOps.removeHsCopy table san m false u true = .error e := by
    unfold MolOps.removeHsCopy MolOps.removeHsSanitize
    simp [hsan]
  exact ⟨hmain, fun r hr => by rw [hmain] at hr; exact Except.noConfusion hr⟩

/-- C9 witness: a sanitize oracle that always fails propagates its error
through the copy variant on a one-carbon molecule. -/
theorem removeHsCopy_sanitize_error_witness :
    (fun _ : Mol => (Except.error ⟨"sanitize failed"⟩ : Except MolSanitizeException Mol))
        (MolOps.removeHs (fun _ => [4]) { atoms := [{ atomicNum := 6 }] } false false) =
      .error ⟨"sanitize failed"⟩ ∧
    MolOps.removeHsCopy (fun _ => [4])
        (fun _ => .error ⟨"sanitize failed"⟩) { atoms := [{ atomicNum := 6 }] }
        false false true = .error ⟨"sanitize failed"⟩ :=
  ⟨rfl, (removeHsCopy_sanitize_error (fun _ => [4]) (fun _ => .error ⟨"sanitize failed"⟩)
    { atoms := [{ atomicNum := 6 }] } false ⟨"sanitize failed"⟩ rfl).1⟩

/-! Claim C2: the chiral-parity fix-up of `removeHs`. -/

/-- Reading any atom through `modifyAtom`, in all cases: the updated record
when the index matches and is in range, the original otherwise. -/
theorem Mol.getAtom_modifyAtom (m : Mol) (i : Nat) (f : Atom → Atom) (j : Nat) :
    (m.modifyAtom i f).getAtom j =
      if j = i ∧ i < m.numAtoms then f (m.getAtom i) else m.getAtom j := by
  split
  case isTrue hcond => rw [hcond.1, Mol.getAtom_modifyAtom_self m i f hcond.2]
  case isFalse hcond =>
    by_cases hji : j = i
    · subst hji
      have hlen : m.numAtoms ≤ j := by
        rcases Nat.lt_or_ge j m.numAtoms with hlt | hge
        · exact absurd ⟨rfl, hlt⟩ hcond
        · exact hge
      unfold Mol.modifyAtom Mol.setAtom Mol.getAtom
      rw [List.set_eq_of_length_le hlen]
    · exact Mol.getAtom_modifyAtom_ne m i f j hji

theorem Mol.getAtom_eq_of_atoms (m1 m2 : Mol) (h : m1.atoms = m2.atoms) (i : Nat) :
    m1.getAtom i = m2.getAtom i := by
  unfold Mol.getAtom
  rw [h]

/-- The stereo-atom substitution never touches atom records. -/
theorem adjustStereoAtomsIfRequired_atoms (m : Mol) (a h : Nat) :
    (adjustStereoAtomsIfRequired m a h).2.atoms = m.atoms := by
  unfold adjustStereoAtomsIfRequired
  split
  · rfl
  · split
    · rfl
    · split <;> simp [Mol.atoms_modifyBond]

/-- The explicit-count bookkeeping step keeps the bond list. -/
theorem removeHsExplicitCountStep_bonds (table : Nat → List Nat) (u : Bool)
    (m : Mol) (h : Nat) :
    (removeHsExplicitCountStep table u m h).bonds = m.bonds := by
  unfold removeHsExplicitCountStep
  dsimp only
  split
  · rfl
  · split <;> rfl

/-- The explicit-count bookkeeping step keeps every chiral tag. -/
theorem removeHsExplicitCountStep_chiralTag (table : Nat → List Nat) (u : Bool)
    (m : Mol) (h j : Nat) :
    ((removeHsExplicitCountStep table u m h).getAtom j).chiralTag =
      (m.getAtom j).chiralTag := by
  unfold removeHsExplicitCountStep
  dsimp only
  split
  · rw [Mol.getAtom_modifyAtom]
    split
    case isTrue hc => rw [hc.1]
    case isFalse => rfl
  · split
    · rw [Mol.getAtom_modifyAtom]
      split
      case isTrue hc => rw [hc.1]
      case isFalse => rfl
    · rfl

theorem removeHsExplicitCountStep_numAtoms' (table : Nat → List Nat) (u : Bool)
    (m : Mol) (h : Nat) :
    (removeHsExplicitCountStep table u m h).numAtoms = m.numAtoms :=
  removeHsExplicitCountStep_numAtoms table u m h

/-- The direction-marker step keeps every chiral tag. -/
theorem removeHsBondDirStep_chiralTag (m : Mol) (i h bi j : Nat) :
    ((removeHsBondDirStep m i h bi).getAtom j).chiralTag = (m.getAtom j).chiralTag := by
  unfold removeHsBondDirStep
  dsimp only
  split
  · rw [Mol.getAtom_modifyAtom]
    split
    case isTrue hc => rw [hc.1]
    case isFalse => rfl
  · split
    · rw [Mol.getAtom_eq_of_atoms _ _ (adjustStereoAtomsIfRequired_atoms _ i h) j]
      split
      · split
        · rw [Mol.getAtom_eq_of_atoms _ _ (Mol.atoms_modifyBond _ _ _) j]
        · rfl
      · rfl
    · rw [Mol.getAtom_eq_of_atoms _ _ (adjustStereoAtomsIfRequired_atoms _ i h) j]

/-- C2: for a hydrogen with a single incident bond whose heavy neighbor
carries a tetrahedral chiral tag, the removal step inverts that tag exactly
when the permutation taking the heavy atom's incident-bond list with the
removed bond moved to the end into its stored bond order has odd parity. -/
theorem removeHs_chiral_parity (table : Nat → List Nat) (u : Bool) (m : Mol)
    (i bi heavyIdx : Nat)
    (hbonds : m.atomBondIdxs i = [bi])
    (hheavy : (m.getBond bi).getOtherAtomIdx i = heavyIdx)
    (hne : heavyIdx ≠ i)
    (hlt : heavyIdx < m.numAtoms)
    (htag : (m.getAtom heavyIdx).chiralTag = .CHI_TETRAHEDRAL_CW ∨
            (m.getAtom heavyIdx).chiralTag = .CHI_TETRAHEDRAL_CCW) :
    (((removeHsRemoveOne table u m i).getAtom (shiftIdx i heavyIdx)).chiralTag =
        ((m.getAtom heavyIdx)).chiralTag.invert) ↔
      getPerturbationOrder (m.atomBondIdxs heavyIdx)
        (((m.atomBondIdxs heavyIdx).filter (fun b2 => !(b2 == bi))) ++ [bi]) % 2 = 1 := by
  have hchain : ((removeHsRemoveOne table u m i).getAtom (shiftIdx i heavyIdx)).chiralTag =
      (if getPerturbationOrder (m.atomBondIdxs heavyIdx)
          (((m.atomBondIdxs heavyIdx).filter (fun b2 => !(b2 == bi))) ++ [bi]) % 2 = 1 then
        ((m.getAtom heavyIdx)).chiralTag.invert
      else (m.getAtom heavyIdx).chiralTag) := by
    unfold removeHsRemoveOne
    dsimp only
    rw [hbonds]
    have hhd : ([bi].headD 0) = bi := rfl
    rw [hhd, hheavy]
    set E := removeHsExplicitCountStep table u m heavyIdx with hE
    have hEb : E.bonds = m.bonds := removeHsExplicitCountStep_bonds table u m heavyIdx
    have hEt : ∀ j, (E.getAtom j).chiralTag = (m.getAtom j).chiralTag :=
      fun j => removeHsExplicitCountStep_chiralTag table u m heavyIdx j
    have hEn : E.numAtoms = m.numAtoms := removeHsExplicitCountStep_numAtoms table u m heavyIdx
    have hEidxs : ∀ j, E.atomBondIdxs j = m.atomBondIdxs j :=
      fun j => Mol.atomBondIdxs_eq_of_bonds E m hEb j
    unfold removeHsChiralStep
    rw [hEt heavyIdx, hEidxs heavyIdx]
    have htagne : (!((m.getAtom heavyIdx).chiralTag == ChiralType.CHI_UNSPECIFIED)) = true := by
      rcases htag with h1 | h1 <;> rw [h1] <;> rfl
    rw [if_pos htagne]
    dsimp only
    by_cases hps : getPerturbationOrder (m.atomBondIdxs heavyIdx)
        (((m.atomBondIdxs heavyIdx).filter (fun b2 => !(b2 == bi))) ++ [bi]) % 2 = 1
    · rw [if_pos (by simpa using hps), if_pos hps]
      rw [Mol.getAtom_removeAtom _ i heavyIdx hne, removeHsBondDirStep_chiralTag]
      rw [Mol.getAtom_modifyAtom]
      rw [if_pos ⟨rfl, by rw [hEn]; exact hlt⟩]
      rw [hEt heavyIdx]
    · rw [if_neg (by simpa using hps), if_neg hps]
      rw [Mol.getAtom_removeAtom _ i heavyIdx hne, removeHsBondDirStep_chiralTag]
      exact hEt heavyIdx
  rw [hchain]
  constructor
  · intro hinv
    by_contra hpar
    rw [if_neg hpar] at hinv
    rcases htag with h1 | h1 <;> rw [h1] at hinv <;> exact ChiralType.noConfusion hinv
  · intro hpar
    rw [if_pos hpar]

/-- C2 witness: on the example chiral carbon, moving the hydrogen's leading
bond to the end of a four-bond list is an odd permutation and the tag is
inverted. -/
theorem removeHs_chiral_parity_witness :
    exMolChiralH.atomBondIdxs 1 = [0] ∧
    ((((removeHsRemoveOne exTable false exMolChiralH 1).getAtom
          (shiftIdx 1 0)).chiralTag =
        ((exMolChiralH.getAtom 0)).chiralTag.invert) ↔
      getPerturbationOrder (exMolChiralH.atomBondIdxs 0)
        (((exMolChiralH.atomBondIdxs 0).filter (fun b2 => !(b2 == 0))) ++ [0]) % 2 = 1) :=
  ⟨by decide,
    removeHs_chiral_parity exTable false exMolChiralH 1 0 0 (by decide) (by decide)
      (by decide) (by decide) (Or.inl (by decide))⟩

/-! Claim C3: the stereo-atom substitution. -/

/-- C3: `adjustStereoAtomsIfRequired` is a no-op for a degree-2 heavy
neighbor; otherwise, for the first qualifying double bond (stereo descriptor
beyond "any", stereo-atom list naming the removed hydrogen, alternate
neighbor available), another neighbor of the heavy atom — excluding the
double bond's other endpoint and the hydrogen itself — is substituted into
the hydrogen's stereo-atom slot, and the descriptor is swapped cis to trans
and trans to cis while the absolute E and Z descriptors stay unchanged. -/
theorem adjustStereoAtoms_spec (m : Mol) (atomIdx heavyIdx : Nat) :
    (m.getAtomDegree heavyIdx = 2 →
      adjustStereoAtomsIfRequired m atomIdx heavyIdx = (false, m)) ∧
    (∀ bi nb : Nat, m.getAtomDegree heavyIdx ≠ 2 →
      (m.getBondBetweenAtoms atomIdx heavyIdx).isSome →
      (m.atomBondIdxs heavyIdx).find? (adjustStereoQualifies m atomIdx heavyIdx) = some bi →
      adjustStereoAltNbr m atomIdx heavyIdx bi = some nb →
      bi < m.bonds.length →
      (nb ∈ m.atomNeighbors heavyIdx ∧ nb ≠ (m.getBond bi).getOtherAtomIdx heavyIdx ∧
        nb ≠ atomIdx) ∧
      ((adjustStereoAtomsIfRequired m atomIdx heavyIdx).2.getBond bi).stereoAtoms =
        replaceFirst (m.getBond bi).stereoAtoms atomIdx nb ∧
      ((m.getBond bi).stereo = .STEREOCIS →
        ((adjustStereoAtomsIfRequired m atomIdx heavyIdx).2.getBond bi).stereo = .STEREOTRANS) ∧
      ((m.getBond bi).stereo = .STEREOTRANS →
        ((adjustStereoAtomsIfRequired m atomIdx heavyIdx).2.getBond bi).stereo = .STEREOCIS) ∧
      ((m.getBond bi).stereo = .STEREOE →
        ((adjustStereoAtomsIfRequired m atomIdx heavyIdx).2.getBond bi).stereo = .STEREOE) ∧
      ((m.getBond bi).stereo = .STEREOZ →
        ((adjustStereoAtomsIfRequired m atomIdx heavyIdx).2.getBond bi).stereo = .STEREOZ)) := by
  constructor
  · intro hdeg
    unfold adjustStereoAtomsIfRequired
    rw [if_pos (by simpa using hdeg)]
  · intro bi nb hdeg hbond hfind halt hlt
    have hq : adjustStereoQualifies m atomIdx heavyIdx bi = true := List.find?_some hfind
    have hres : adjustStereoAtomsIfRequired m atomIdx heavyIdx =
        ((m.getBond bi).stereo == .STEREOCIS || (m.getBond bi).stereo == .STEREOTRANS,
          m.modifyBond bi (fun b =>
            { b with
              stereoAtoms := replaceFirst b.stereoAtoms atomIdx nb
              stereo := swapCisTrans b.stereo })) := by
      unfold adjustStereoAtomsIfRequired
      rw [if_neg (by simpa using hdeg),
        if_neg (by simp [Option.isNone_iff_eq_none]; exact Option.isSome_iff_ne_none.mp hbond),
        hfind]
      dsimp only
      rw [halt]
      rfl
    have halt' : (m.atomNeighbors heavyIdx).find?
        (fun n => !(n == (m.getBond bi).getOtherAtomIdx heavyIdx) && !(n == atomIdx)) =
          some nb := halt
    have hnb := List.find?_some halt'
    have hnbmem : nb ∈ m.atomNeighbors heavyIdx := List.mem_of_find?_eq_some halt' 
    simp only [Bool.and_eq_true, Bool.not_eq_true', beq_eq_false_iff_ne] at hnb
    refine ⟨⟨hnbmem, hnb.1, hnb.2⟩, ?_, ?_, ?_, ?_, ?_⟩
    · rw [hres]
      dsimp only
      rw [Mol.getBond_modifyBond_self m bi _ hlt]
    · intro hst
      rw [hres]
      dsimp only
      rw [Mol.getBond_modifyBond_self m bi _ hlt]
      dsimp only
      rw [hst]
      rfl
    · intro hst
      rw [hres]
      dsimp only
      rw [Mol.getBond_modifyBond_self m bi _ hlt]
      dsimp only
      rw [hst]
      rfl
    · intro hst
      rw [hres]
      dsimp only
      rw [Mol.getBond_modifyBond_self m bi _ hlt]
      dsimp only
      rw [hst]
      rfl
    · intro hst
      rw [hres]
      dsimp only
      rw [Mol.getBond_modifyBond_self m bi _ hlt]
      dsimp only
      rw [hst]
      rfl

/-- C3 witness: on the cis example, the hydrogen's slot is replaced by the
alternate neighbor (index 4) and the descriptor flips to trans. -/
theorem adjustStereoAtoms_spec_witness :
    (exMolCisH.atomBondIdxs 0).find? (adjustStereoQualifies exMolCisH 2 0) = some 0 ∧
    ((adjustStereoAtomsIfRequired exMolCisH 2 0).2.getBond 0).stereoAtoms =
      replaceFirst (exMolCisH.getBond 0).stereoAtoms 2 4 ∧
    ((exMolCisH.getBond 0).stereo = .STEREOCIS →
      ((adjustStereoAtomsIfRequired exMolCisH 2 0).2.getBond 0).stereo = .STEREOTRANS) := by
  have h := (adjustStereoAtoms_spec exMolCisH 2 0).2 0 4 (by decide) (by decide) (by decide)
    (by decide) (by decide)
  exact ⟨by decide, h.2.1, h.2.2.1⟩

/-! Sorting and bulk-removal machinery for `mergeQueryHs`. -/

theorem mem_insertAsc (x y : Nat) (l : List Nat) : y ∈ insertAsc x l ↔ y = x ∨ y ∈ l := by
  induction l with
  | nil => simp [insertAsc]
  | cons a t ih =>
    unfold insertAsc
    split
    · simp
    · simp only [List.mem_cons, ih]
      tauto

theorem insertAsc_perm (x : Nat) (l : List Nat) : List.Perm (insertAsc x l) (x :: l) := by
  induction l with
  | nil => exact List.Perm.refl _
  | cons a t ih =>
    unfold insertAsc
    split
    · exact List.Perm.refl _
    · exact ((ih.cons a).trans (List.Perm.swap x a t))

theorem sortAsc_perm (l : List Nat) : List.Perm (sortAsc l) l := by
  induction l with
  | nil => exact List.Perm.refl _
  | cons a t ih => exact (insertAsc_perm a (sortAsc t)).trans (ih.cons a)

theorem insertAsc_sorted (x : Nat) (l : List Nat) (h : l.Pairwise (· ≤ ·)) :
    (insertAsc x l).Pairwise (· ≤ ·) := by
  induction l with
  | nil => simp [insertAsc]
  | cons a t ih =>
    unfold insertAsc
    rcases List.pairwise_cons.mp h with ⟨ha, ht⟩
    split
    case isTrue hxa =>
      refine List.pairwise_cons.mpr ⟨?_, h⟩
      intro z hz
      rcases List.mem_cons.mp hz with rfl | hz'
      · exact hxa
      · exact le_trans hxa (ha z hz')
    case isFalse hxa =>
      refine List.pairwise_cons.mpr ⟨?_, ih ht⟩
      intro z hz
      rcases (mem_insertAsc x z t).mp hz with rfl | hz'
      · omega
      · exact ha z hz'

theorem sortAsc_sorted (l : List Nat) : (sortAsc l).Pairwise (· ≤ ·) := by
  induction l with
  | nil => simp [sortAsc]
  | cons a t ih => exact insertAsc_sorted a (sortAsc t) ih

theorem sortAsc_reverse_strictDesc (l : List Nat) (h : l.Nodup) :
    (sortAsc l).reverse.Pairwise (fun a b => b < a) := by
  have hnd : (sortAsc l).Nodup := ((sortAsc_perm l).nodup_iff).mpr h
  have hs := sortAsc_sorted l
  have hlt : (sortAsc l).Pairwise (· < ·) := by
    have := List.Pairwise.and hs hnd
    exact this.imp (fun hab => lt_of_le_of_ne hab.1 hab.2)
  exact (List.pairwise_reverse).mpr (hlt.imp (fun hab => hab))

theorem Mol.atoms_removeAtom (m : Mol) (k : Nat) :
    (m.removeAtom k).atoms = m.atoms.eraseIdx k := rfl

/-- Survival of a non-targeted atom record under a strictly descending
bulk removal. -/
theorem foldl_removeAtom_survival (L : List Nat) (m : Mol) (j : Nat)
    (hdesc : L.Pairwise (fun a b => b < a)) (hj : j ∉ L) :
    ∃ j', (L.foldl (fun mm k => mm.removeAtom k) m).getAtom j' = m.getAtom j := by
  induction L generalizing m j with
  | nil => exact ⟨j, rfl⟩
  | cons k L' ih =>
    rcases List.pairwise_cons.mp hdesc with ⟨hk, hL'⟩
    have hjk : j ≠ k := fun hh => hj (hh ▸ List.mem_cons_self k L')
    have hstep : (m.removeAtom k).getAtom (shiftIdx k j) = m.getAtom j :=
      Mol.getAtom_removeAtom m k j hjk
    have hnotin : shiftIdx k j ∉ L' := by
      intro hmem
      have hlt := hk _ hmem
      by_cases hkj : k < j
      · simp only [shiftIdx, if_pos hkj] at hlt
        omega
      · have hsj : shiftIdx k j = j := by simp only [shiftIdx, if_neg hkj]
        rw [hsj] at hmem
        exact hj (List.mem_cons_of_mem k hmem)
    obtain ⟨j', hj'⟩ := ih (m.removeAtom k) (shiftIdx k j) hL' hnotin
    exact ⟨j', hj'.trans hstep⟩

/-- A generic invariant for left folds. -/
theorem foldl_inv {σ α : Type} (P : σ → Prop) (step : σ → α → σ) (l : List α) (s : σ)
    (hs : P s) (hstep : ∀ s c, c ∈ l → P s → P (step s c)) : P (l.foldl step s) := by
  induction l generalizing s with
  | nil => exact hs
  | cons a t ih =>
    exact ih (step s a) (hstep s a (List.mem_cons_self a t) hs)
      (fun s' c hc => hstep s' c (List.mem_cons_of_mem a hc))

theorem getD_map_range {α : Type} (f : Nat → α) (n i : Nat) (d : α) (h : i < n) :
    ((List.range n).map f).getD i d = f i := by
  simp [List.getD_eq_getElem?_getD, List.getElem?_range h]

/-- Every index queued for removal by the `mergeQueryHs` scan was classified
as a query hydrogen up front. -/
theorem mergeQueryHsScan_toRemove (b : Bool) (m : Mol) :
    ∀ j ∈ (mergeQueryHsScan b m).2, (mergeQueryHsHatoms m).getD j false = true := by
  unfold mergeQueryHsScan
  refine foldl_inv (fun st : Mol × List Nat => ∀ j ∈ st.2, (mergeQueryHsHatoms m).getD j false = true)
    (mergeQueryHsStep b (mergeQueryHsHatoms m)) (List.range m.numAtoms) (m, []) ?_ ?_
  · intro j hj
    exact absurd hj (List.not_mem_nil j)
  · intro st c _ hP j hj
    unfold mergeQueryHsStep at hj
    dsimp only at hj
    split at hj
    · exact hP j hj
    · split at hj
      · dsimp only at hj
        rcases List.mem_append.mp hj with hj1 | hj2
        · exact hP j hj1
        · have := List.mem_filter.mp hj2
          exact (Bool.and_eq_true _ _).mp this.2 |>.1
      · exact hP j hj

/-- The scan phase never changes the atom count. -/
theorem mergeQueryHsScan_numAtoms (b : Bool) (m : Mol) :
    (mergeQueryHsScan b m).1.numAtoms = m.numAtoms := by
  unfold mergeQueryHsScan
  refine foldl_inv (fun st : Mol × List Nat => st.1.numAtoms = m.numAtoms)
    (mergeQueryHsStep b (mergeQueryHsHatoms m)) (List.range m.numAtoms) (m, []) rfl ?_
  intro st c _ hP
  unfold mergeQueryHsStep
  dsimp only
  split
  · exact hP
  · split
    · dsimp only
      rw [← hP]
      refine foldl_inv (fun mm : Mol => mm.numAtoms = st.1.numAtoms) _ _ _ ?_ ?_
      · split <;> simp [Mol.numAtoms_modifyAtom]
      · intro mm c _ hmm
        rw [Mol.numAtoms_modifyAtom, hmm]
    · exact hP

/-! Claim C6: ambiguous OR-with-hydrogen queries are rejected with a
warning and left alone. -/

/-- C6: a degree-1 atom whose query tree (scanned breadth-first, starting
from a non-negated root) yields both a non-negated atomic-number-equals-1
leaf and an OR combinator is not classified as a query hydrogen: the
warning diagnostic fires, and `mergeQueryHs` neither merges nor removes the
atom (its scanned record survives into the result); no error is raised, the
merge being a total function.  The root hypothesis reflects that an
atomic-number leaf carries no children in the source's query
representation. -/
theorem isQueryH_or_rejected (m : Mol) (b : Bool) (i : Nat) (q : Query)
    (hq : (m.getAtom i).query = some q)
    (hdeg : m.getAtomDegree i = 1)
    (hneg : q.neg = false)
    (hroot : q.descr = "AtomAtomicNum" → q.children = [])
    (hscan : scanHQuery (qsizeList q.children) q.children false
      (q.descr == "AtomOr") = (true, true))
    (hi : i < m.numAtoms)
    (hnd : (mergeQueryHsScan b m).2.Nodup) :
    isQueryH m i = false ∧ isQueryHWarning m i = true ∧
    ∃ j, (MolOps.mergeQueryHs m b).getAtom j =
      ((mergeQueryHsScan b m).1).getAtom i := by
  have hshort : ((m.getAtom i).atomicNum == 1 &&
      ((m.getAtom i).query.isNone ||
       (!(m.getAtom i).queryOf.neg &&
        (m.getAtom i).queryOf.descr == "AtomAtomicNum"))) = false := by
    by_cases hd : q.descr = "AtomAtomicNum"
    · rw [hroot hd] at hscan
      simp [qsizeList, scanHQuery] at hscan
    · simp [hq, Atom.queryOf, hd]
  have hdegc : (!(m.getAtomDegree i == 1)) = false := by simp [hdeg]
  have hnegc : ((m.getAtom i).query.isSome && (m.getAtom i).queryOf.neg) = false := by
    simp [hq, Atom.queryOf, hneg]
  have h1 : isQueryH m i = false := by
    unfold isQueryH
    dsimp only
    rw [if_neg (by simp [hshort]), if_neg (by simp [hdegc]), if_neg (by simp [hnegc]), hq]
    dsimp only
    rw [hscan]
    rfl
  have h2 : isQueryHWarning m i = true := by
    unfold isQueryHWarning
    dsimp only
    rw [if_neg (by simp [hshort]), if_neg (by simp [hdegc]), if_neg (by simp [hnegc]), hq]
    dsimp only
    rw [hscan]
    rfl
  have hmem : i ∉ (mergeQueryHsScan b m).2 := by
    intro hmemi
    have hh := mergeQueryHsScan_toRemove b m i hmemi
    unfold mergeQueryHsHatoms at hh
    rw [getD_map_range (isQueryH m) _ i false hi, h1] at hh
    exact Bool.noConfusion hh
  have hdesc := sortAsc_reverse_strictDesc _ hnd
  have hrevmem : i ∉ (sortAsc (mergeQueryHsScan b m).2).reverse := by
    intro hx
    exact hmem (((sortAsc_perm _).mem_iff).mp (List.mem_reverse.mp hx))
  obtain ⟨j, hj⟩ := foldl_removeAtom_survival _ _ i hdesc hrevmem
  refine ⟨h1, h2, ⟨j, ?_⟩⟩
  unfold MolOps.mergeQueryHs
  exact hj

/-- C6 witness: the OR-of-hydrogen-and-carbon query atom is rejected with
the warning and survives the merge. -/
theorem isQueryH_or_rejected_witness :
    (exMolOrH.getAtom 1).query = some (.node "AtomOr" false 0
      [.node "AtomAtomicNum" false 1 [], .node "AtomAtomicNum" false 6 []]) ∧
    isQueryH exMolOrH 1 = false ∧ isQueryHWarning exMolOrH 1 = true ∧
    ∃ j, (MolOps.mergeQueryHs exMolOrH false).getAtom j =
      ((mergeQueryHsScan false exMolOrH).1).getAtom 1 :=
  ⟨rfl, isQueryH_or_rejected exMolOrH false 1 _ rfl (by decide) rfl
    (fun h => absurd h (by decide)) (by decide) (by decide) (by decide)⟩

/-! Claim C5: machinery for the scan-phase characterization. -/

theorem mergeQueryHsStep_bonds (b : Bool) (hat : List Bool) (st : Mol × List Nat) (c : Nat) :
    (mergeQueryHsStep b hat st c).1.bonds = st.1.bonds := by
  unfold mergeQueryHsStep
  dsimp only
  split
  · rfl
  · split
    · dsimp only
      refine foldl_inv (fun mm : Mol => mm.bonds = st.1.bonds) _ _ _ ?_ ?_
      · split <;> rfl
      · intro mm c2 _ hmm
        rw [Mol.bonds_modifyAtom, hmm]
    · rfl

theorem mergeQueryHsStep_numAtoms (b : Bool) (hat : List Bool) (st : Mol × List Nat) (c : Nat) :
    (mergeQueryHsStep b hat st c).1.numAtoms = st.1.numAtoms := by
  unfold mergeQueryHsStep
  dsimp only
  split
  · rfl
  · split
    · dsimp only
      refine foldl_inv (fun mm : Mol => mm.numAtoms = st.1.numAtoms) _ _ _ ?_ ?_
      · split <;> simp [Mol.numAtoms_modifyAtom]
      · intro mm c2 _ hmm
        rw [Mol.numAtoms_modifyAtom, hmm]
    · rfl

theorem mergeQueryHsStep_molMap (b : Bool) (hat : List Bool) (st : Mol × List Nat)
    (c j : Nat) :
    ((mergeQueryHsStep b hat st c).1.getAtom j).molAtomMapNumber =
      (st.1.getAtom j).molAtomMapNumber := by
  unfold mergeQueryHsStep
  dsimp only
  split
  · rfl
  · split
    · dsimp only
      refine foldl_inv
        (fun mm : Mol => (mm.getAtom j).molAtomMapNumber = (st.1.getAtom j).molAtomMapNumber)
        _ _ _ ?_ ?_
      · split
        · rw [Mol.getAtom_modifyAtom]
          split
          case isTrue hc =>
            rcases hc with ⟨rfl, _⟩
            dsimp only
          case isFalse => rfl
        · rfl
      · intro mm c2 _ hmm
        rw [Mol.getAtom_modifyAtom]
        split
        case isTrue hc =>
          rcases hc with ⟨rfl, _⟩
          dsimp only
          exact hmm
        case isFalse => exact hmm
    · rfl

theorem mergeQueryHsStep_getAtom_ne (b : Bool) (hat : List Bool) (st : Mol × List Nat)
    (c j : Nat) (hne : j ≠ c) :
    (mergeQueryHsStep b hat st c).1.getAtom j = st.1.getAtom j := by
  unfold mergeQueryHsStep
  dsimp only
  split
  · rfl
  · split
    · dsimp only
      refine foldl_inv (fun mm : Mol => mm.getAtom j = st.1.getAtom j) _ _ _ ?_ ?_
      · split
        · exact Mol.getAtom_modifyAtom_ne _ _ _ _ hne
        · rfl
      · intro mm c2 _ hmm
        rw [Mol.getAtom_modifyAtom_ne _ _ _ _ hne, hmm]
    · rfl

/-- Folding `modifyAtom` at a fixed in-range index accumulates the record
transformations. -/
theorem foldl_modifyAtom_getAtom {α : Type} (l : List α) (mm : Mol) (i : Nat)
    (f : α → Atom → Atom) (hi : i < mm.numAtoms) :
    ((l.foldl (fun acc k => acc.modifyAtom i (f k)) mm).getAtom i =
      l.foldl (fun a k => f k a) (mm.getAtom i)) ∧
    (l.foldl (fun acc k => acc.modifyAtom i (f k)) mm).numAtoms = mm.numAtoms := by
  induction l generalizing mm with
  | nil => exact ⟨rfl, rfl⟩
  | cons x t ih =>
    have hnum : (mm.modifyAtom i (f x)).numAtoms = mm.numAtoms := Mol.numAtoms_modifyAtom mm i _
    have hrec := ih (mm.modifyAtom i (f x)) (by rw [hnum]; exact hi)
    refine ⟨?_, by simp only [List.foldl_cons]; rw [hrec.2, hnum]⟩
    simp only [List.foldl_cons]
    rw [hrec.1, Mol.getAtom_modifyAtom_self mm i _ hi]

theorem getD_map_range_ge {α : Type} (f : Nat → α) (n i : Nat) (d : α) (h : n ≤ i) :
    ((List.range n).map f).getD i d = d := by
  apply List.getD_eq_default
  simpa using h

/-- Members of a neighbor list are endpoints of bonds. -/
theorem mem_atomNeighbors_lt (m : Mol) (i j : Nat)
    (hwf : ∀ bnd ∈ m.bonds, bnd.beginAtomIdx < m.numAtoms ∧ bnd.endAtomIdx < m.numAtoms)
    (hj : j ∈ m.atomNeighbors i) : j < m.numAtoms := by
  unfold Mol.atomNeighbors at hj
  obtain ⟨bi, hbi, rfl⟩ := List.mem_map.mp hj
  have hlt := atomBondIdxs_lt m i bi hbi
  have hmem : m.getBond bi ∈ m.bonds := by
    unfold Mol.getBond
    rw [List.getD_eq_getElem _ _ hlt]
    exact List.getElem_mem hlt
  rcases hwf _ hmem with ⟨h1, h2⟩
  unfold Bond.getOtherAtomIdx
  split <;> assumption

/-- Bulk removal of a strictly descending list of valid indices shrinks the
atom count by the list length. -/
theorem foldl_removeAtom_numAtoms (L : List Nat) (m : Mol)
    (hdesc : L.Pairwise (fun a b => b < a)) (hlt : ∀ e ∈ L, e < m.numAtoms) :
    (L.foldl (fun mm k => mm.removeAtom k) m).numAtoms = m.numAtoms - L.length := by
  induction L generalizing m with
  | nil => rfl
  | cons k L' ih =>
    rcases List.pairwise_cons.mp hdesc with ⟨hk, hL'⟩
    have hkm : k < m.numAtoms := hlt k (List.mem_cons_self k L')
    have hnum : (m.removeAtom k).numAtoms = m.numAtoms - 1 := Mol.numAtoms_removeAtom m k hkm
    have hlt' : ∀ e ∈ L', e < (m.removeAtom k).numAtoms := by
      intro e he
      rw [hnum]
      have := hk e he
      omega
    have hrec := ih (m.removeAtom k) hL' hlt'
    simp only [List.foldl_cons]
    rw [hrec, hnum]
    simp only [List.length_cons]
    omega

theorem hChainQuery_succ (q : Query) (n : Nat) :
    hChainQuery q (n + 1) = expandQuery (hChainQuery q n) (negHCountQuery n) := by
  unfold hChainQuery
  rw [List.range_succ, List.foldl_append]
  rfl

/-- Accumulating the negated H-count clauses over a record. -/
theorem foldl_expand_record (a : Atom) (q0 : Query) (ha : a.query = some q0) (n : Nat) :
    (List.range n).foldl
        (fun x k => { x with query := some (expandQuery x.queryOf (negHCountQuery k)) }) a =
      { a with query := some (hChainQuery q0 n) } := by
  induction n with
  | zero =>
    show a = { a with query := some q0 }
    rw [← ha]
  | succ k ih =>
    rw [List.range_succ, List.foldl_append, ih, List.foldl_cons, List.foldl_nil]
    have hq : ({ a with query := some (hChainQuery q0 k) } : Atom).queryOf =
        hChainQuery q0 k := rfl
    rw [hq, hChainQuery_succ]

/-- The scan step at an unmerged heavy index, under the invariants the scan
maintains up to that index. -/
theorem mergeQueryHsStep_at (b : Bool) (m : Mol) (st : Mol × List Nat) (i : Nat)
    (hb : st.1.bonds = m.bonds)
    (hmap : ∀ j, (st.1.getAtom j).molAtomMapNumber = (m.getAtom j).molAtomMapNumber)
    (hai : st.1.getAtom i = m.getAtom i)
    (hnum : st.1.numAtoms = m.numAtoms)
    (hi : i < m.numAtoms)
    (hhat : (mergeQueryHsHatoms m).getD i false = false)
    (hn : 0 < (mergeEligible b m i).length) :
    (mergeQueryHsStep b (mergeQueryHsHatoms m) st i).1.getAtom i =
      { m.getAtom i with query := some (hChainQuery
          ((m.getAtom i).query.getD (makeAtomNumQuery (m.getAtom i).atomicNum))
          (mergeEligible b m i).length) } := by
  have helig : (st.1.atomNeighbors i).filter (fun j =>
      (mergeQueryHsHatoms m).getD j false &&
      (!b || (st.1.getAtom j).molAtomMapNumber.isNone)) = mergeEligible b m i := by
    unfold mergeEligible
    rw [Mol.atomNeighbors_eq_of_bonds st.1 m hb]
    apply List.filter_congr
    intro j _
    rw [hmap j]
  unfold mergeQueryHsStep
  dsimp only
  rw [if_neg (by rw [hhat]; simp), helig, if_pos (by simpa using hn)]
  rcases hq0 : (m.getAtom i).query with _ | q0
  · -- no query: the atomic-number query is synthesized first
    rw [hai, hq0, if_pos (show (none : Option Query).isNone = true from rfl)]
    have hm1num : (st.1.modifyAtom i
        (fun a => { a with query := some (makeAtomNumQuery a.atomicNum) })).numAtoms =
        m.numAtoms := by rw [Mol.numAtoms_modifyAtom, hnum]
    have hm1 : (st.1.modifyAtom i
        (fun a => { a with query := some (makeAtomNumQuery a.atomicNum) })).getAtom i =
        { m.getAtom i with query := some (makeAtomNumQuery (m.getAtom i).atomicNum) } := by
      rw [Mol.getAtom_modifyAtom_self _ _ _ (by rw [hnum]; exact hi), hai]
    rw [(foldl_modifyAtom_getAtom _ _ i _ (by rw [hm1num]; exact hi)).1, hm1]
    rw [foldl_expand_record _ (makeAtomNumQuery (m.getAtom i).atomicNum) rfl]
    rfl
  · -- existing query: it is the base of the chain
    rw [hai, hq0, if_neg (by simp)]
    rw [(foldl_modifyAtom_getAtom _ _ i _ (by rw [hnum]; exact hi)).1, hai]
    rw [foldl_expand_record _ q0 hq0]
    rfl

/-- The merged record of a non-query-hydrogen atom after the whole scan. -/
theorem mergeQueryHsScan_getAtom_merged (b : Bool) (m : Mol) (i : Nat)
    (hi : i < m.numAtoms)
    (hhat : (mergeQueryHsHatoms m).getD i false = false)
    (hn : 0 < (mergeEligible b m i).length) :
    (mergeQueryHsScan b m).1.getAtom i =
      { m.getAtom i with query := some (hChainQuery
          ((m.getAtom i).query.getD (makeAtomNumQuery (m.getAtom i).atomicNum))
          (mergeEligible b m i).length) } := by
  obtain ⟨r, hr⟩ : ∃ r, m.numAtoms = i + (r + 1) := ⟨m.numAtoms - i - 1, by omega⟩
  unfold mergeQueryHsScan
  rw [hr, List.range_add, List.foldl_append, List.range_succ_eq_map, List.map_cons,
    List.foldl_cons]
  set st1 := (List.range i).foldl (mergeQueryHsStep b (mergeQueryHsHatoms m)) (m, []) with hst1
  have hinv : st1.1.bonds = m.bonds ∧ (∀ j, (st1.1.getAtom j).molAtomMapNumber =
      (m.getAtom j).molAtomMapNumber) ∧ st1.1.getAtom i = m.getAtom i ∧
      st1.1.numAtoms = m.numAtoms := by
    rw [hst1]
    refine foldl_inv (fun st : Mol × List Nat => st.1.bonds = m.bonds ∧
      (∀ j, (st.1.getAtom j).molAtomMapNumber = (m.getAtom j).molAtomMapNumber) ∧
      st.1.getAtom i = m.getAtom i ∧ st.1.numAtoms = m.numAtoms)
      (mergeQueryHsStep b (mergeQueryHsHatoms m)) (List.range i) (m, [])
      ⟨rfl, fun _ => rfl, rfl, rfl⟩ ?_
    intro st c hc hP
    have hci : i ≠ c := by
      have := List.mem_range.mp hc
      omega
    refine ⟨(mergeQueryHsStep_bonds _ _ _ _).trans hP.1,
      fun j => (mergeQueryHsStep_molMap _ _ _ _ _).trans (hP.2.1 j),
      (mergeQueryHsStep_getAtom_ne _ _ _ _ _ hci).trans hP.2.2.1,
      (mergeQueryHsStep_numAtoms _ _ _ _).trans hP.2.2.2⟩
  have hstep := mergeQueryHsStep_at b m st1 i hinv.1 hinv.2.1 hinv.2.2.1 hinv.2.2.2 hi hhat hn
  rw [Nat.add_zero]
  refine foldl_inv (fun st : Mol × List Nat => st.1.getAtom i =
      { m.getAtom i with query := some (hChainQuery
        ((m.getAtom i).query.getD (makeAtomNumQuery (m.getAtom i).atomicNum))
        (mergeEligible b m i).length) })
    (mergeQueryHsStep b (mergeQueryHsHatoms m)) _ _ hstep ?_
  intro st c hc hP
  obtain ⟨x, hx, rfl⟩ := List.mem_map.mp hc
  obtain ⟨y, _, rfl⟩ := List.mem_map.mp hx
  have hci : i ≠ i + Nat.succ y := by omega
  exact (mergeQueryHsStep_getAtom_ne _ _ _ _ _ hci).trans hP

theorem hatoms_getD_true (m : Mol) (j : Nat)
    (h : (mergeQueryHsHatoms m).getD j false = true) :
    j < m.numAtoms ∧ isQueryH m j = true := by
  by_cases hj : j < m.numAtoms
  · refine ⟨hj, ?_⟩
    unfold mergeQueryHsHatoms at h
    rwa [getD_map_range (isQueryH m) _ j false hj] at h
  · exfalso
    unfold mergeQueryHsHatoms at h
    rw [getD_map_range_ge (isQueryH m) _ j false (by omega)] at h
    exact Bool.noConfusion h

/-- C5: for a non-query-hydrogen atom with at least one eligible
query-hydrogen neighbor, `mergeQueryHs` leaves on it a query — the existing
one, or an atomic-number query synthesized from its plain atomic number —
with one negated H-count-equals-k clause ANDed in per eligible neighbor, for
k = 0 up to the neighbor count; and the bulk-removal phase then removes
exactly the queued merged hydrogens (each of which was classified as a query
hydrogen), in descending index order, every other atom surviving. -/
theorem mergeQueryHs_spec (b : Bool) (m : Mol) (i : Nat)
    (hnd : (mergeQueryHsScan b m).2.Nodup)
    (hi : i < m.numAtoms)
    (hq : isQueryH m i = false)
    (hn : 0 < (mergeEligible b m i).length) :
    ((mergeQueryHsScan b m).1.getAtom i).query =
      some (hChainQuery ((m.getAtom i).query.getD (makeAtomNumQuery (m.getAtom i).atomicNum))
        (mergeEligible b m i).length) ∧
    (MolOps.mergeQueryHs m b).numAtoms = m.numAtoms - (mergeQueryHsScan b m).2.length ∧
    (∀ j ∈ (mergeQueryHsScan b m).2, isQueryH m j = true) ∧
    (∀ j, j < m.numAtoms → j ∉ (mergeQueryHsScan b m).2 →
      ∃ j', (MolOps.mergeQueryHs m b).getAtom j' = (mergeQueryHsScan b m).1.getAtom j) := by
  have hhat : (mergeQueryHsHatoms m).getD i false = false := by
    unfold mergeQueryHsHatoms
    rw [getD_map_range (isQueryH m) _ i false hi]
    exact hq
  have hdesc := sortAsc_reverse_strictDesc _ hnd
  have hmemrev : ∀ e ∈ (sortAsc (mergeQueryHsScan b m).2).reverse,
      e ∈ (mergeQueryHsScan b m).2 := by
    intro e he
    exact ((sortAsc_perm _).mem_iff).mp (List.mem_reverse.mp he)
  refine ⟨?_, ?_, ?_, ?_⟩
  · rw [mergeQueryHsScan_getAtom_merged b m i hi hhat hn]
  · unfold MolOps.mergeQueryHs
    rw [foldl_removeAtom_numAtoms _ _ hdesc ?hval]
    case hval =>
      intro e he
      have h1 := mergeQueryHsScan_toRemove b m e (hmemrev e he)
      have h2 := hatoms_getD_true m e h1
      rw [mergeQueryHsScan_numAtoms]
      exact h2.1
    rw [mergeQueryHsScan_numAtoms, List.length_reverse,
      List.Perm.length_eq (sortAsc_perm _)]
  · intro j hj
    exact (hatoms_getD_true m j (mergeQueryHsScan_toRemove b m j hj)).2
  · intro j hjlt hjnot
    have hrevnot : j ∉ (sortAsc (mergeQueryHsScan b m).2).reverse :=
      fun hx => hjnot (hmemrev j hx)
    obtain ⟨j', hj'⟩ := foldl_removeAtom_survival _ _ j hdesc hrevnot
    exact ⟨j', hj'⟩

theorem mergeQueryHs_spec_witness :
    ((mergeQueryHsScan false exMolCH2).2.Nodup ∧ 0 < exMolCH2.numAtoms ∧
      isQueryH exMolCH2 0 = false ∧ 0 < (mergeEligible false exMolCH2 0).length) ∧
    (((mergeQueryHsScan false exMolCH2).1.getAtom 0).query =
      some (hChainQuery
        ((exMolCH2.getAtom 0).query.getD (makeAtomNumQuery (exMolCH2.getAtom 0).atomicNum))
        (mergeEligible false exMolCH2 0).length) ∧
    (MolOps.mergeQueryHs exMolCH2 false).numAtoms =
      exMolCH2.numAtoms - (mergeQueryHsScan false exMolCH2).2.length ∧
    (∀ j ∈ (mergeQueryHsScan false exMolCH2).2, isQueryH exMolCH2 j = true) ∧
    (∀ j, j < exMolCH2.numAtoms → j ∉ (mergeQueryHsScan false exMolCH2).2 →
      ∃ j', (MolOps.mergeQueryHs exMolCH2 false).getAtom j' =
        (mergeQueryHsScan false exMolCH2).1.getAtom j)) :=
  ⟨⟨by decide, by decide, by decide, by decide⟩,
    mergeQueryHs_spec false exMolCH2 0 (by decide) (by decide) (by decide) (by decide)⟩

/-! Geometry lemmas for the placement corrections. -/

theorem getD_map_lt {A B : Type} (f : A → B) (l : List A) (k : Nat) (d : A) (d2 : B)
    (hk : k < l.length) : (l.map f).getD k d2 = f (l.getD k d) := by
  rw [List.getD_eq_getElem?_getD, List.getD_eq_getElem?_getD, List.getElem?_map,
    List.getElem?_eq_getElem hk]
  rfl

theorem Point3.lengthSq_nonneg (a : Point3) : 0 ≤ a.lengthSq := by
  unfold Point3.lengthSq
  have hx := mul_self_nonneg a.x
  have hy := mul_self_nonneg a.y
  have hz := mul_self_nonneg a.z
  linarith

theorem Point3.lengthSq_smul (a : Point3) (r : ℝ) :
    (a.smul r).lengthSq = a.lengthSq * (r * r) := by
  unfold Point3.smul Point3.lengthSq
  ring

/-- Normalizing a vector of nonzero length yields a unit vector. -/
theorem Point3.lengthSq_normalize (a : Point3) (h : a.lengthSq ≠ 0) :
    a.normalize.lengthSq = 1 := by
  unfold Point3.normalize Point3.length
  rw [Point3.lengthSq_smul]
  have hs : Real.sqrt a.lengthSq * Real.sqrt a.lengthSq = a.lengthSq :=
    Real.mul_self_sqrt a.lengthSq_nonneg
  calc a.lengthSq * (1 / Real.sqrt a.lengthSq * (1 / Real.sqrt a.lengthSq))
      = a.lengthSq * (1 / (Real.sqrt a.lengthSq * Real.sqrt a.lengthSq)) := by ring
    _ = a.lengthSq * (1 / a.lengthSq) := by rw [hs]
    _ = 1 := mul_one_div_cancel h

theorem Point3.add_zero_left (v : Point3) : (⟨0, 0, 0⟩ : Point3) + v = v := by
  show Point3.add _ _ = _
  unfold Point3.add
  simp

theorem Point3.sub_zero_right (v : Point3) : v - (⟨0, 0, 0⟩ : Point3) = v := by
  show Point3.sub _ _ = _
  unfold Point3.sub
  simp

/-- The non-degenerate 2-D branch of the degree-3 placement, one conformer
of the list: the hydrogen goes at the heavy position plus the normalized sum
of the two (negated, normalized) neighbor vectors, with no bond-length
scaling. -/
theorem setHCoordsDeg3_getD_2D (m : Mol) (bl : ℝ) (hydIdx heavyIdx n1 n2 k : Nat)
    (confs : List Conformer) (hk : k < confs.length)
    (h2d : (confs.getD k default).is3D = false)
    (hd1 : ¬ |((confs.getD k default).getAtomPos heavyIdx -
        (confs.getD k default).getAtomPos n1).lengthSq| < degenEps)
    (hd2 : ¬ |((confs.getD k default).getAtomPos heavyIdx -
        (confs.getD k default).getAtomPos n2).lengthSq| < degenEps) :
    (setHCoordsDeg3 m bl hydIdx heavyIdx n1 n2 confs).getD k default =
      (confs.getD k default).setAtomPos hydIdx
        ((confs.getD k default).getAtomPos heavyIdx +
          (((confs.getD k default).getAtomPos heavyIdx -
              (confs.getD k default).getAtomPos n1).normalize +
            ((confs.getD k default).getAtomPos heavyIdx -
              (confs.getD k default).getAtomPos n2).normalize).normalize) := by
  unfold setHCoordsDeg3
  rw [getD_map_lt _ _ k default default hk]
  dsimp only
  rw [if_neg (not_or.mpr ⟨hd1, hd2⟩), h2d]
  simp

/-- The degree-3 dispatch of `setHydrogenCoords`. -/
theorem setHydrogenCoords_deg3_conformers (rb0 : Nat → ℝ) (m : Mol) (hydIdx heavyIdx : Nat)
    (hdeg : m.getAtomDegree heavyIdx = 3) :
    (setHydrogenCoords rb0 m hydIdx heavyIdx).conformers =
      setHCoordsDeg3 m (rb0 1 + rb0 (m.getAtom heavyIdx).atomicNum) hydIdx heavyIdx
        (firstTwoNeighborsNot m heavyIdx hydIdx).1 (firstTwoNeighborsNot m heavyIdx hydIdx).2
        m.conformers := by
  unfold setHydrogenCoords
  dsimp only
  rw [hdeg]
  rw [if_neg (by decide), if_neg (by decide), if_pos (by decide)]

theorem exConf2D_v1 : exConf2D.getAtomPos 0 - exConf2D.getAtomPos 1 = (⟨1, 0, 0⟩ : Point3) := by
  show Point3.sub ⟨0, 0, 0⟩ ⟨-1, 0, 0⟩ = _
  unfold Point3.sub
  norm_num

theorem exConf2D_v2 : exConf2D.getAtomPos 0 - exConf2D.getAtomPos 2 = (⟨0, 1, 0⟩ : Point3) := by
  show Point3.sub ⟨0, 0, 0⟩ ⟨0, -1, 0⟩ = _
  unfold Point3.sub
  norm_num

theorem exConf2D_n1 : (⟨1, 0, 0⟩ : Point3).normalize = ⟨1, 0, 0⟩ := by
  unfold Point3.normalize Point3.length Point3.lengthSq Point3.smul
  norm_num

theorem exConf2D_n2 : (⟨0, 1, 0⟩ : Point3).normalize = ⟨0, 1, 0⟩ := by
  unfold Point3.normalize Point3.length Point3.lengthSq Point3.smul
  norm_num

theorem exConf2D_sum : (⟨1, 0, 0⟩ : Point3) + ⟨0, 1, 0⟩ = ⟨1, 1, 0⟩ := by
  show Point3.add _ _ = _
  unfold Point3.add
  norm_num

theorem exConf2D_sumSq : (⟨1, 1, 0⟩ : Point3).lengthSq = 2 := by
  unfold Point3.lengthSq
  norm_num

theorem exConf2D_nd1 : ¬ |((⟨1, 0, 0⟩ : Point3)).lengthSq| < degenEps := by
  unfold Point3.lengthSq degenEps
  norm_num

theorem exConf2D_nd2 : ¬ |((⟨0, 1, 0⟩ : Point3)).lengthSq| < degenEps := by
  unfold Point3.lengthSq degenEps
  norm_num

/-- C7: in the degree-3 2-D placement path the final normalize is NOT
skipped — the source normalizes the direction vector before branching on
dimensionality (line 193) — so the hydrogen's offset from the heavy atom is
the NORMALIZED sum of the two negated neighbor unit vectors, and (when that
sum is nonzero) the offset has unit length; only the bond-length scaling of
the other branches is absent. -/
theorem setHydrogenCoords_deg3_2D (rb0 : Nat → ℝ) (m : Mol) (hydIdx heavyIdx k : Nat)
    (hdeg : m.getAtomDegree heavyIdx = 3)
    (hk : k < m.conformers.length)
    (h2d : (m.conformers.getD k default).is3D = false)
    (hd1 : ¬ |((m.conformers.getD k default).getAtomPos heavyIdx -
        (m.conformers.getD k default).getAtomPos
          (firstTwoNeighborsNot m heavyIdx hydIdx).1).lengthSq| < degenEps)
    (hd2 : ¬ |((m.conformers.getD k default).getAtomPos heavyIdx -
        (m.conformers.getD k default).getAtomPos
          (firstTwoNeighborsNot m heavyIdx hydIdx).2).lengthSq| < degenEps)
    (hsum : (((m.conformers.getD k default).getAtomPos heavyIdx -
          (m.conformers.getD k default).getAtomPos
            (firstTwoNeighborsNot m heavyIdx hydIdx).1).normalize +
        ((m.conformers.getD k default).getAtomPos heavyIdx -
          (m.conformers.getD k default).getAtomPos
            (firstTwoNeighborsNot m heavyIdx hydIdx).2).normalize).lengthSq ≠ 0) :
    ((setHydrogenCoords rb0 m hydIdx heavyIdx).conformers.getD k default).getAtomPos hydIdx =
      (m.conformers.getD k default).getAtomPos heavyIdx +
        (((m.conformers.getD k default).getAtomPos heavyIdx -
            (m.conformers.getD k default).getAtomPos
              (firstTwoNeighborsNot m heavyIdx hydIdx).1).normalize +
          ((m.conformers.getD k default).getAtomPos heavyIdx -
            (m.conformers.getD k default).getAtomPos
              (firstTwoNeighborsNot m heavyIdx hydIdx).2).normalize).normalize ∧
    ((((m.conformers.getD k default).getAtomPos heavyIdx -
          (m.conformers.getD k default).getAtomPos
            (firstTwoNeighborsNot m heavyIdx hydIdx).1).normalize +
        ((m.conformers.getD k default).getAtomPos heavyIdx -
          (m.conformers.getD k default).getAtomPos
            (firstTwoNeighborsNot m heavyIdx hydIdx).2).normalize).normalize).lengthSq = 1 := by
  refine ⟨?_, Point3.lengthSq_normalize _ hsum⟩
  rw [setHydrogenCoords_deg3_conformers rb0 m hydIdx heavyIdx hdeg]
  rw [setHCoordsDeg3_getD_2D _ _ _ _ _ _ _ _ hk h2d hd1 hd2]
  rw [Conformer.getAtomPos_setAtomPos]

theorem setHydrogenCoords_deg3_2D_witness :
    (exMolDeg3.getAtomDegree 0 = 3 ∧ 0 < exMolDeg3.conformers.length ∧
      (exMolDeg3.conformers.getD 0 default).is3D = false ∧
      ¬ |((exMolDeg3.conformers.getD 0 default).getAtomPos 0 -
          (exMolDeg3.conformers.getD 0 default).getAtomPos
            (firstTwoNeighborsNot exMolDeg3 0 3).1).lengthSq| < degenEps ∧
      ¬ |((exMolDeg3.conformers.getD 0 default).getAtomPos 0 -
          (exMolDeg3.conformers.getD 0 default).getAtomPos
            (firstTwoNeighborsNot exMolDeg3 0 3).2).lengthSq| < degenEps ∧
      (((exMolDeg3.conformers.getD 0 default).getAtomPos 0 -
          (exMolDeg3.conformers.getD 0 default).getAtomPos
            (firstTwoNeighborsNot exMolDeg3 0 3).1).normalize +
        ((exMolDeg3.conformers.getD 0 default).getAtomPos 0 -
          (exMolDeg3.conformers.getD 0 default).getAtomPos
            (firstTwoNeighborsNot exMolDeg3 0 3).2).normalize).lengthSq ≠ 0) ∧
    (((setHydrogenCoords (fun _ => 1) exMolDeg3 3 0).conformers.getD 0 default).getAtomPos 3 =
      (exMolDeg3.conformers.getD 0 default).getAtomPos 0 +
        (((exMolDeg3.conformers.getD 0 default).getAtomPos 0 -
            (exMolDeg3.conformers.getD 0 default).getAtomPos
              (firstTwoNeighborsNot exMolDeg3 0 3).1).normalize +
          ((exMolDeg3.conformers.getD 0 default).getAtomPos 0 -
            (exMolDeg3.conformers.getD 0 default).getAtomPos
              (firstTwoNeighborsNot exMolDeg3 0 3).2).normalize).normalize ∧
    ((((exMolDeg3.conformers.getD 0 default).getAtomPos 0 -
          (exMolDeg3.conformers.getD 0 default).getAtomPos
            (firstTwoNeighborsNot exMolDeg3 0 3).1).normalize +
        ((exMolDeg3.conformers.getD 0 default).getAtomPos 0 -
          (exMolDeg3.conformers.getD 0 default).getAtomPos
            (firstTwoNeighborsNot exMolDeg3 0 3).2).normalize).normalize).lengthSq = 1) :=
  have h2 : (exMolDeg3.conformers.getD 0 default).is3D = false := rfl
  have hd1 : ¬ |((exMolDeg3.conformers.getD 0 default).getAtomPos 0 -
      (exMolDeg3.conformers.getD 0 default).getAtomPos
        (firstTwoNeighborsNot exMolDeg3 0 3).1).lengthSq| < degenEps := by
    rw [show (firstTwoNeighborsNot exMolDeg3 0 3).1 = 1 from rfl,
      show (exMolDeg3.conformers.getD 0 default) = exConf2D from rfl, exConf2D_v1]
    exact exConf2D_nd1
  have hd2 : ¬ |((exMolDeg3.conformers.getD 0 default).getAtomPos 0 -
      (exMolDeg3.conformers.getD 0 default).getAtomPos
        (firstTwoNeighborsNot exMolDeg3 0 3).2).lengthSq| < degenEps := by
    rw [show (firstTwoNeighborsNot exMolDeg3 0 3).2 = 2 from rfl,
      show (exMolDeg3.conformers.getD 0 default) = exConf2D from rfl, exConf2D_v2]
    exact exConf2D_nd2
  have hsum : (((exMolDeg3.conformers.getD 0 default).getAtomPos 0 -
        (exMolDeg3.conformers.getD 0 default).getAtomPos
          (firstTwoNeighborsNot exMolDeg3 0 3).1).normalize +
      ((exMolDeg3.conformers.getD 0 default).getAtomPos 0 -
        (exMolDeg3.conformers.getD 0 default).getAtomPos
          (firstTwoNeighborsNot exMolDeg3 0 3).2).normalize).lengthSq ≠ 0 := by
    rw [show (firstTwoNeighborsNot exMolDeg3 0 3).1 = 1 from rfl,
      show (firstTwoNeighborsNot exMolDeg3 0 3).2 = 2 from rfl,
      show (exMolDeg3.conformers.getD 0 default) = exConf2D from rfl,
      exConf2D_v1, exConf2D_v2, exConf2D_n1, exConf2D_n2, exConf2D_sum, exConf2D_sumSq]
    norm_num
  ⟨⟨rfl, by decide, h2, hd1, hd2, hsum⟩,
    setHydrogenCoords_deg3_2D (fun _ => 1) exMolDeg3 3 0 0 rfl (by decide) h2 hd1 hd2 hsum⟩

theorem setHydrogenCoords_deg3_2D_counterexample :
    ((setHydrogenCoords (fun _ => 1) exMolDeg3 3 0).conformers.getD 0 default).getAtomPos 3 -
        ((setHydrogenCoords (fun _ => 1) exMolDeg3 3 0).conformers.getD 0
          default).getAtomPos 0 ≠
      (exConf2D.getAtomPos 0 - exConf2D.getAtomPos 1).normalize +
        (exConf2D.getAtomPos 0 - exConf2D.getAtomPos 2).normalize ∧
    (((setHydrogenCoords (fun _ => 1) exMolDeg3 3 0).conformers.getD 0 default).getAtomPos 3 -
        ((setHydrogenCoords (fun _ => 1) exMolDeg3 3 0).conformers.getD 0
          default).getAtomPos 0).lengthSq = 1 := by
  have hd1 : ¬ |((exMolDeg3.conformers.getD 0 default).getAtomPos 0 -
      (exMolDeg3.conformers.getD 0 default).getAtomPos
        (firstTwoNeighborsNot exMolDeg3 0 3).1).lengthSq| < degenEps := by
    rw [show (firstTwoNeighborsNot exMolDeg3 0 3).1 = 1 from rfl,
      show (exMolDeg3.conformers.getD 0 default) = exConf2D from rfl, exConf2D_v1]
    exact exConf2D_nd1
  have hd2 : ¬ |((exMolDeg3.conformers.getD 0 default).getAtomPos 0 -
      (exMolDeg3.conformers.getD 0 default).getAtomPos
        (firstTwoNeighborsNot exMolDeg3 0 3).2).lengthSq| < degenEps := by
    rw [show (firstTwoNeighborsNot exMolDeg3 0 3).2 = 2 from rfl,
      show (exMolDeg3.conformers.getD 0 default) = exConf2D from rfl, exConf2D_v2]
    exact exConf2D_nd2
  have hconf : (setHydrogenCoords (fun _ => 1) exMolDeg3 3 0).conformers.getD 0 default =
      (exMolDeg3.conformers.getD 0 default).setAtomPos 3
        ((exMolDeg3.conformers.getD 0 default).getAtomPos 0 +
          (((exMolDeg3.conformers.getD 0 default).getAtomPos 0 -
              (exMolDeg3.conformers.getD 0 default).getAtomPos
                (firstTwoNeighborsNot exMolDeg3 0 3).1).normalize +
            ((exMolDeg3.conformers.getD 0 default).getAtomPos 0 -
              (exMolDeg3.conformers.getD 0 default).getAtomPos
                (firstTwoNeighborsNot exMolDeg3 0 3).2).normalize).normalize) := by
    rw [setHydrogenCoords_deg3_conformers (fun _ => 1) exMolDeg3 3 0 rfl]
    exact setHCoordsDeg3_getD_2D _ _ _ _ _ _ _ _ (by decide) rfl hd1 hd2
  have hval : (setHydrogenCoords (fun _ => 1) exMolDeg3 3 0).conformers.getD 0 default =
      exConf2D.setAtomPos 3 ((⟨0, 0, 0⟩ : Point3) + (⟨1, 1, 0⟩ : Point3).normalize) := by
    rw [hconf, show (firstTwoNeighborsNot exMolDeg3 0 3).1 = 1 from rfl,
      show (firstTwoNeighborsNot exMolDeg3 0 3).2 = 2 from rfl,
      show (exMolDeg3.conformers.getD 0 default) = exConf2D from rfl,
      exConf2D_v1, exConf2D_v2, exConf2D_n1, exConf2D_n2, exConf2D_sum]
    rfl
  have hpos3 : ((setHydrogenCoords (fun _ => 1) exMolDeg3 3 0).conformers.getD 0
      default).getAtomPos 3 = (⟨1, 1, 0⟩ : Point3).normalize := by
    rw [hval, Conformer.getAtomPos_setAtomPos, Point3.add_zero_left]
  have hpos0 : ((setHydrogenCoords (fun _ => 1) exMolDeg3 3 0).conformers.getD 0
      default).getAtomPos 0 = (⟨0, 0, 0⟩ : Point3) := by
    rw [hval]
    rfl
  have hsq : ((⟨1, 1, 0⟩ : Point3).normalize).lengthSq = 1 :=
    Point3.lengthSq_normalize _ (by rw [exConf2D_sumSq]; norm_num)
  rw [hpos3, hpos0, Point3.sub_zero_right, exConf2D_v1, exConf2D_v2, exConf2D_n1,
    exConf2D_n2, exConf2D_sum]
  refine ⟨fun he => ?_, hsq⟩
  have h2 : ((⟨1, 1, 0⟩ : Point3).normalize).lengthSq = (⟨1, 1, 0⟩ : Point3).lengthSq :=
    congrArg Point3.lengthSq he
  rw [hsq, exConf2D_sumSq] at h2
  norm_num at h2

theorem Point3.smul_one (a : Point3) : a.smul 1 = a := by
  unfold Point3.smul
  simp

theorem Point3.add_sub_cancel_left (a d : Point3) : (a + d) - a = d := by
  show Point3.sub (Point3.add a d) a = d
  unfold Point3.add Point3.sub
  obtain ⟨x, y, z⟩ := d
  dsimp
  norm_num

/-- The degree-1 dispatch of `setHydrogenCoords`. -/
theorem setHydrogenCoords_deg1_conformers (rb0 : Nat → ℝ) (m : Mol) (hydIdx heavyIdx : Nat)
    (hdeg : m.getAtomDegree heavyIdx = 1) :
    (setHydrogenCoords rb0 m hydIdx heavyIdx).conformers =
      setHCoordsDeg1 (rb0 1 + rb0 (m.getAtom heavyIdx).atomicNum) hydIdx heavyIdx
        Point3.zero m.conformers := by
  unfold setHydrogenCoords
  dsimp only
  rw [hdeg]
  rw [if_pos (by decide)]

/-- Over a dimensionally uniform conformer list, the degree-1 loop's carried
direction vector stays degenerate in the written components, so every
conformer gets the same axis-aligned offset. -/
theorem setHCoordsDeg1_uniform (bl : ℝ) (hydIdx heavyIdx : Nat) (b : Bool)
    (confs : List Conformer) : ∀ (d0 : Point3),
    (∀ c ∈ confs, c.is3D = b) → (b = true → d0.x = 0 ∧ d0.y = 0) →
    (b = false → d0.y = 0 ∧ d0.z = 0) →
    setHCoordsDeg1 bl hydIdx heavyIdx d0 confs =
      confs.map (fun c => c.setAtomPos hydIdx (c.getAtomPos heavyIdx +
        (if b then (⟨0, 0, 1⟩ : Point3).smul bl else (⟨1, 0, 0⟩ : Point3)))) := by
  induction confs with
  | nil =>
      intro d0 _ _ _
      rfl
  | cons c rest ih =>
      intro d0 huni h3 h2
      have hc : c.is3D = b := huni c (List.mem_cons_self c rest)
      have huni' : ∀ x ∈ rest, x.is3D = b := fun x hx => huni x (List.mem_cons_of_mem _ hx)
      simp only [setHCoordsDeg1, List.map_cons]
      rw [hc]
      cases b with
      | true =>
          obtain ⟨hx, hy⟩ := h3 rfl
          have hd : ({ d0 with z := (1 : ℝ) } : Point3) = ⟨0, 0, 1⟩ := by
            obtain ⟨x, y, z⟩ := d0
            dsimp at hx hy ⊢
            rw [hx, hy]
          simp only [if_true]
          rw [hd, ih ⟨0, 0, 1⟩ huni' (fun _ => ⟨rfl, rfl⟩)
            (fun hf => absurd hf (by decide))]
          simp
      | false =>
          obtain ⟨hy, hz⟩ := h2 rfl
          have hd : ({ d0 with x := (1 : ℝ) } : Point3) = ⟨1, 0, 0⟩ := by
            obtain ⟨x, y, z⟩ := d0
            dsimp at hy hz ⊢
            rw [hy, hz]
          simp only [Bool.false_eq_true, if_false]
          rw [hd, Point3.smul_one, ih ⟨1, 0, 0⟩ huni'
            (fun hf => absurd hf (by decide)) (fun _ => ⟨rfl, rfl⟩)]
          simp

/-- The degree-1 loop on a 3-D conformer followed by a 2-D conformer: the
2-D conformer's direction vector inherits the z component written by the 3-D
iteration, so its offset is (1, 0, 1), not the +x unit vector. -/
theorem setHCoordsDeg1_mixed_eval (bl : ℝ) (hydIdx heavyIdx : Nat) (cA cB : Conformer)
    (hA : cA.is3D = true) (hB : cB.is3D = false) :
    setHCoordsDeg1 bl hydIdx heavyIdx Point3.zero [cA, cB] =
      [cA.setAtomPos hydIdx (cA.getAtomPos heavyIdx + (⟨0, 0, 1⟩ : Point3).smul bl),
       cB.setAtomPos hydIdx (cB.getAtomPos heavyIdx + (⟨1, 0, 1⟩ : Point3).smul 1)] := by
  simp only [setHCoordsDeg1]
  rw [hA, hB]
  simp only [if_true, Bool.false_eq_true, if_false]
  rfl

/-- C8: the degree-1 placement of `addHs`-created hydrogens is axis-aligned
as claimed — +z scaled by the bond length for 3-D conformers, the +x unit
vector for 2-D conformers — provided the molecule's conformers all share one
dimensionality: the direction vector is a C++ local declared outside the
conformer loop and each branch writes only one of its components, so mixed
lists leak components across conformers (see the counterexample). -/
theorem setHydrogenCoords_deg1_uniform (rb0 : Nat → ℝ) (m : Mol) (hydIdx heavyIdx k : Nat)
    (b : Bool) (hdeg : m.getAtomDegree heavyIdx = 1)
    (huni : ∀ c ∈ m.conformers, c.is3D = b)
    (hk : k < m.conformers.length) :
    ((setHydrogenCoords rb0 m hydIdx heavyIdx).conformers.getD k default).getAtomPos hydIdx =
      (m.conformers.getD k default).getAtomPos heavyIdx +
        (if b then (⟨0, 0, 1⟩ : Point3).smul (rb0 1 + rb0 (m.getAtom heavyIdx).atomicNum)
         else (⟨1, 0, 0⟩ : Point3)) ∧
    (b = false →
      ((if b then (⟨0, 0, 1⟩ : Point3).smul (rb0 1 + rb0 (m.getAtom heavyIdx).atomicNum)
        else (⟨1, 0, 0⟩ : Point3)) : Point3).lengthSq = 1) := by
  constructor
  · rw [setHydrogenCoords_deg1_conformers rb0 m hydIdx heavyIdx hdeg,
      setHCoordsDeg1_uniform _ _ _ b m.conformers Point3.zero huni
        (fun _ => ⟨rfl, rfl⟩) (fun _ => ⟨rfl, rfl⟩),
      getD_map_lt _ _ k default default hk, Conformer.getAtomPos_setAtomPos]
  · intro hb
    rw [hb]
    simp only [Bool.false_eq_true, if_false]
    unfold Point3.lengthSq
    norm_num

theorem setHydrogenCoords_deg1_uniform_witness :
    (exMolDeg1Uni.getAtomDegree 0 = 1 ∧ (∀ c ∈ exMolDeg1Uni.conformers, c.is3D = false) ∧
      0 < exMolDeg1Uni.conformers.length) ∧
    (((setHydrogenCoords (fun _ => 1) exMolDeg1Uni 1 0).conformers.getD 0
        default).getAtomPos 1 =
      (exMolDeg1Uni.conformers.getD 0 default).getAtomPos 0 +
        (if false then (⟨0, 0, 1⟩ : Point3).smul
            ((fun _ => (1 : ℝ)) 1 + (fun _ => (1 : ℝ)) (exMolDeg1Uni.getAtom 0).atomicNum)
         else (⟨1, 0, 0⟩ : Point3)) ∧
    (false = false →
      ((if false then (⟨0, 0, 1⟩ : Point3).smul
          ((fun _ => (1 : ℝ)) 1 + (fun _ => (1 : ℝ)) (exMolDeg1Uni.getAtom 0).atomicNum)
        else (⟨1, 0, 0⟩ : Point3)) : Point3).lengthSq = 1)) :=
  ⟨⟨rfl, by decide, by decide⟩,
    setHydrogenCoords_deg1_uniform (fun _ => 1) exMolDeg1Uni 1 0 0 false rfl
      (by decide) (by decide)⟩

theorem setHydrogenCoords_deg1_mixed_counterexample :
    (exMolDeg1Mixed.conformers.getD 1 default).is3D = false ∧
    ((setHydrogenCoords (fun _ => 1) exMolDeg1Mixed 1 0).conformers.getD 1
          default).getAtomPos 1 -
        ((setHydrogenCoords (fun _ => 1) exMolDeg1Mixed 1 0).conformers.getD 1
          default).getAtomPos 0 ≠ (⟨1, 0, 0⟩ : Point3) ∧
    (((setHydrogenCoords (fun _ => 1) exMolDeg1Mixed 1 0).conformers.getD 1
          default).getAtomPos 1 -
        ((setHydrogenCoords (fun _ => 1) exMolDeg1Mixed 1 0).conformers.getD 1
          default).getAtomPos 0).lengthSq ≠ 1 := by
  have hconfs : (setHydrogenCoords (fun _ => 1) exMolDeg1Mixed 1 0).conformers =
      [exConfU3D.setAtomPos 1 (exConfU3D.getAtomPos 0 + (⟨0, 0, 1⟩ : Point3).smul
          ((fun _ => (1 : ℝ)) 1 + (fun _ => (1 : ℝ)) (exMolDeg1Mixed.getAtom 0).atomicNum)),
        exConfU2D.setAtomPos 1 (exConfU2D.getAtomPos 0 + (⟨1, 0, 1⟩ : Point3).smul 1)] := by
    rw [setHydrogenCoords_deg1_conformers (fun _ => 1) exMolDeg1Mixed 1 0 rfl]
    exact setHCoordsDeg1_mixed_eval _ 1 0 exConfU3D exConfU2D rfl rfl
  have hpos1 : ((setHydrogenCoords (fun _ => 1) exMolDeg1Mixed 1 0).conformers.getD 1
      default).getAtomPos 1 = exConfU2D.getAtomPos 0 + (⟨1, 0, 1⟩ : Point3).smul 1 := by
    rw [hconfs]
    exact Conformer.getAtomPos_setAtomPos _ _ _
  have hpos0 : ((setHydrogenCoords (fun _ => 1) exMolDeg1Mixed 1 0).conformers.getD 1
      default).getAtomPos 0 = (⟨0, 0, 0⟩ : Point3) := by
    rw [hconfs]
    rfl
  have hoff : ((setHydrogenCoords (fun _ => 1) exMolDeg1Mixed 1 0).conformers.getD 1
        default).getAtomPos 1 -
      ((setHydrogenCoords (fun _ => 1) exMolDeg1Mixed 1 0).conformers.getD 1
        default).getAtomPos 0 = (⟨1, 0, 1⟩ : Point3) := by
    rw [hpos1, hpos0, Point3.smul_one, show exConfU2D.getAtomPos 0 = (⟨0, 0, 0⟩ : Point3)
      from rfl, Point3.add_zero_left, Point3.sub_zero_right]
  refine ⟨rfl, ?_, ?_⟩
  · rw [hoff]
    intro he
    have := congrArg Point3.z he
    norm_num at this
  · rw [hoff]
    unfold Point3.lengthSq
    norm_num

/-! Round-trip machinery (claim C1): shape lemmas for the hydrogen blocks
`addHs` appends. -/

theorem ownersFrom_append (l1 l2 : List Nat) (s : Nat) :
    ownersFrom (l1 ++ l2) s = ownersFrom l1 s ++ ownersFrom l2 (s + l1.length) := by
  induction l1 generalizing s with
  | nil =>
      show ownersFrom l2 s = [] ++ ownersFrom l2 (s + 0)
      simp
  | cons k rest ih =>
      show List.replicate k s ++ ownersFrom (rest ++ l2) (s + 1) =
        (List.replicate k s ++ ownersFrom rest (s + 1)) ++ ownersFrom l2 (s + (rest.length + 1))
      rw [ih (s + 1), List.append_assoc]
      have h : s + 1 + rest.length = s + (rest.length + 1) := by omega
      rw [h]

theorem ownersFrom_length (l : List Nat) (s : Nat) : (ownersFrom l s).length = l.sum := by
  induction l generalizing s with
  | nil => rfl
  | cons k rest ih =>
      show (List.replicate k s ++ ownersFrom rest (s + 1)).length = (k :: rest).sum
      simp [ih]

theorem mem_ownersFrom (l : List Nat) (s x : Nat) (h : x ∈ ownersFrom l s) :
    s ≤ x ∧ x - s < l.length ∧ 0 < l.getD (x - s) 0 := by
  induction l generalizing s with
  | nil => cases h
  | cons k rest ih =>
      rw [show ownersFrom (k :: rest) s = List.replicate k s ++ ownersFrom rest (s + 1)
        from rfl] at h
      rcases List.mem_append.mp h with h1 | h2
      · obtain rfl := List.eq_of_mem_replicate h1
        have hk : k ≠ 0 := by
          rintro rfl
          cases h1
        refine ⟨Nat.le_refl _, by simp, ?_⟩
        simp only [Nat.sub_self]
        show 0 < k
        omega
      · obtain ⟨hs, hlt, hpos⟩ := ih (s + 1) h2
        refine ⟨by omega, by simp; omega, ?_⟩
        have hx : x - s = (x - (s + 1)) + 1 := by omega
        rw [hx]
        simpa using hpos

theorem ownersFrom_count_lt (l : List Nat) (s x : Nat) (hx : x < s) :
    (ownersFrom l s).count x = 0 := by
  apply List.count_eq_zero.mpr
  intro hmem
  have := mem_ownersFrom l s x hmem
  omega

theorem ownersFrom_count (l : List Nat) (s t : Nat) (ht : t < l.length) :
    (ownersFrom l s).count (s + t) = l.getD t 0 := by
  induction l generalizing s t with
  | nil => simp at ht
  | cons k rest ih =>
      rw [show ownersFrom (k :: rest) s = List.replicate k s ++ ownersFrom rest (s + 1)
        from rfl, List.count_append, List.count_replicate]
      cases t with
      | zero =>
          rw [ownersFrom_count_lt rest (s + 1) (s + 0) (by omega)]
          simp
      | succ u =>
          have h : s + (u + 1) = (s + 1) + u := by omega
          rw [h, ih (s + 1) u (by simpa using ht)]
          have hne : (s == s + 1 + u) = false := by
            simp only [beq_eq_false_iff_ne]
            omega
          rw [hne]
          simp

theorem hBondsFor_append (o1 o2 : List Nat) (base : Nat) :
    hBondsFor (o1 ++ o2) base = hBondsFor o1 base ++ hBondsFor o2 (base + o1.length) := by
  induction o1 generalizing base with
  | nil =>
      show hBondsFor o2 base = [] ++ hBondsFor o2 (base + 0)
      simp
  | cons o rest ih =>
      show _ :: hBondsFor (rest ++ o2) (base + 1) =
        ({ beginAtomIdx := o, endAtomIdx := base, bondType := .SINGLE } : Bond) ::
          hBondsFor rest (base + 1) ++ hBondsFor o2 (base + (rest.length + 1))
      rw [ih (base + 1)]
      have h : base + 1 + rest.length = base + (rest.length + 1) := by omega
      rw [h]
      rfl

theorem hBondsFor_length (os : List Nat) (base : Nat) :
    (hBondsFor os base).length = os.length := by
  induction os generalizing base with
  | nil => rfl
  | cons o rest ih =>
      show (hBondsFor rest (base + 1)).length + 1 = rest.length + 1
      rw [ih]

theorem atom_zeroExplicit_eta (a : Atom) (h : a.numExplicitHs = 0) :
    ({ a with numExplicitHs := 0 } : Atom) = a := by
  rw [← h]

theorem atom_mark_eta (a : Atom) (h : a.numExplicitHs = 0) :
    ({ a with origNoImplicit := some a.noImplicit, noImplicit := true } : Atom) = markAdded a := by
  unfold markAdded
  rw [← h]

theorem atom_restore_eta (a : Atom) (h : a.numExplicitHs = 0) (h2 : a.origNoImplicit = none) :
    ({ markAdded a with noImplicit := a.noImplicit, origNoImplicit := none } : Atom) = a := by
  unfold markAdded
  rw [← h, ← h2]

theorem addHsOneH_shape (rb0 : Nat → ℝ) (impl : Bool) (M : Mol) (aidx : Nat) :
    addHsOneH rb0 false impl M aidx =
      ⟨M.atoms ++ [{ newHAtom with isImplicit := impl }],
       M.bonds ++ [{ beginAtomIdx := aidx, endAtomIdx := M.numAtoms, bondType := .SINGLE }],
       M.conformers⟩ := rfl

theorem foldl_addHsOneH (rb0 : Nat → ℝ) (aidx : Nat) (M : Mol) (c : Nat) :
    (List.range c).foldl (fun mm _ => addHsOneH rb0 false true mm aidx) M =
      ⟨M.atoms ++ List.replicate c hAtomImp,
       M.bonds ++ hBondsFor (List.replicate c aidx) M.numAtoms, M.conformers⟩ := by
  induction c with
  | zero =>
      show M = ⟨M.atoms ++ [], M.bonds ++ hBondsFor [] M.numAtoms, M.conformers⟩
      simp [hBondsFor]
  | succ c ih =>
      rw [List.range_succ, List.foldl_append, ih, List.foldl_cons, List.foldl_nil,
        addHsOneH_shape]
      have hn : (⟨M.atoms ++ List.replicate c hAtomImp,
          M.bonds ++ hBondsFor (List.replicate c aidx) M.numAtoms,
          M.conformers⟩ : Mol).numAtoms = M.numAtoms + c := by
        show (M.atoms ++ List.replicate c hAtomImp).length = M.numAtoms + c
        simp [Mol.numAtoms]
      rw [hn]
      congr 1
      · rw [List.append_assoc]
        show M.atoms ++ (List.replicate c hAtomImp ++ [hAtomImp]) =
          M.atoms ++ List.replicate (c + 1) hAtomImp
        rw [← List.replicate_succ' c hAtomImp]
      · rw [List.append_assoc, List.replicate_succ' c aidx, hBondsFor_append]
        simp [hBondsFor]

theorem getBond_bonds_append_lt (A : List Atom) (C : List Conformer) (B E : List Bond)
    (bi : Nat) (h : bi < B.length) :
    Mol.getBond ⟨A, B ++ E, C⟩ bi = Mol.getBond ⟨A, B, C⟩ bi := by
  show (B ++ E).getD bi {} = B.getD bi {}
  exact List.getD_append B E {} bi h

/-- The valence contributions of an atom's incident bonds decompose over an
appended bond block. -/
theorem bondContribSum_append (A : List Atom) (C : List Conformer) (B E : List Bond)
    (i : Nat) :
    ((Mol.atomBondIdxs ⟨A, B ++ E, C⟩ i).map
      (fun bi => (Mol.getBond ⟨A, B ++ E, C⟩ bi).bondType.valenceContrib)).sum =
    ((Mol.atomBondIdxs ⟨A, B, C⟩ i).map
      (fun bi => (Mol.getBond ⟨A, B, C⟩ bi).bondType.valenceContrib)).sum +
    ((Mol.atomBondIdxs ⟨A, E, C⟩ i).map
      (fun bi => (Mol.getBond ⟨A, E, C⟩ bi).bondType.valenceContrib)).sum := by
  rw [atomBondIdxs_bonds_append, List.map_append, List.sum_append]
  have h1 : (Mol.atomBondIdxs ⟨A, B, C⟩ i).map
        (fun bi => (Mol.getBond ⟨A, B ++ E, C⟩ bi).bondType.valenceContrib) =
      (Mol.atomBondIdxs ⟨A, B, C⟩ i).map
        (fun bi => (Mol.getBond ⟨A, B, C⟩ bi).bondType.valenceContrib) := by
    apply List.map_congr_left
    intro bi hbi
    rw [getBond_bonds_append_lt A C B E bi (atomBondIdxs_lt ⟨A, B, C⟩ i bi hbi)]
  have h2 : ((Mol.atomBondIdxs ⟨A, E, C⟩ i).map (B.length + ·)).map
        (fun bi => (Mol.getBond ⟨A, B ++ E, C⟩ bi).bondType.valenceContrib) =
      (Mol.atomBondIdxs ⟨A, E, C⟩ i).map
        (fun bi => (Mol.getBond ⟨A, E, C⟩ bi).bondType.valenceContrib) := by
    rw [List.map_map]
    apply List.map_congr_left
    intro bi _
    show (((B ++ E).getD (B.length + bi) {}).bondType).valenceContrib = _
    rw [List.getD_append_right B E {} (B.length + bi) (Nat.le_add_right _ _)]
    have hidx : B.length + bi - B.length = bi := by omega
    rw [hidx]
    rfl
  rw [h1, h2]

/-- Explicit valence over an appended bond block. -/
theorem explicitValence_bonds_append (A : List Atom) (C : List Conformer) (B E : List Bond)
    (i : Nat) :
    Mol.explicitValence ⟨A, B ++ E, C⟩ i =
      Mol.explicitValence ⟨A, B, C⟩ i +
      ((Mol.atomBondIdxs ⟨A, E, C⟩ i).map
        (fun bi => (Mol.getBond ⟨A, E, C⟩ bi).bondType.valenceContrib)).sum := by
  show ((Mol.atomBondIdxs ⟨A, B ++ E, C⟩ i).map
      (fun bi => (Mol.getBond ⟨A, B ++ E, C⟩ bi).bondType.valenceContrib)).sum +
      (A.getD i {}).numExplicitHs = _
  rw [bondContribSum_append]
  show _ = ((Mol.atomBondIdxs ⟨A, B, C⟩ i).map
      (fun bi => (Mol.getBond ⟨A, B, C⟩ bi).bondType.valenceContrib)).sum +
      (A.getD i {}).numExplicitHs + _
  omega

/-- A hydrogen-bond block contributes one unit of valence per occurrence of
the atom as an owner. -/
theorem hBonds_valence (A : List Atom) (C : List Conformer) (x : Nat) (os : List Nat) :
    ∀ (base : Nat), x < base →
    ((Mol.atomBondIdxs ⟨A, hBondsFor os base, C⟩ x).map
      (fun bi => (Mol.getBond ⟨A, hBondsFor os base, C⟩ bi).bondType.valenceContrib)).sum =
    os.count x := by
  induction os with
  | nil =>
      intro base _
      rfl
  | cons o rest ih =>
      intro base hx
      rw [show hBondsFor (o :: rest) base =
        [({ beginAtomIdx := o, endAtomIdx := base, bondType := .SINGLE } : Bond)] ++
          hBondsFor rest (base + 1) from rfl, bondContribSum_append]
      rw [ih (base + 1) (by omega)]
      have hhead : Mol.atomBondIdxs
          ⟨A, [({ beginAtomIdx := o, endAtomIdx := base, bondType := .SINGLE } : Bond)], C⟩ x =
          if (o == x) then [0] else [] := by
        show (List.range 1).filter _ = _
        rw [show List.range 1 = [0] from rfl, List.filter_cons, List.filter_nil]
        have : (Mol.getBond
            ⟨A, [({ beginAtomIdx := o, endAtomIdx := base, bondType := .SINGLE } : Bond)], C⟩
            0).incident x = (o == x) := by
          show (o == x || base == x) = (o == x)
          have : (base == x) = false := by
            simp only [beq_eq_false_iff_ne]
            omega
          rw [this, Bool.or_false]
        rw [this]
      rw [hhead, List.count_cons]
      cases ho : (o == x) with
      | true =>
          rw [if_pos rfl]
          show ((Mol.getBond _ 0).bondType.valenceContrib + 0) + _ = _
          simp [Mol.getBond, BondType.valenceContrib]
          omega
      | false =>
          rw [if_neg (by simp)]
          simp

theorem atomBondIdxs_hBondsFor_nil (A : List Atom) (C : List Conformer) (x : Nat)
    (os : List Nat) : ∀ (base : Nat), x < base → (∀ o ∈ os, o ≠ x) →
    Mol.atomBondIdxs ⟨A, hBondsFor os base, C⟩ x = [] := by
  induction os with
  | nil =>
      intro base _ _
      rfl
  | cons o rest ih =>
      intro base hx hos
      rw [show hBondsFor (o :: rest) base =
        [({ beginAtomIdx := o, endAtomIdx := base, bondType := .SINGLE } : Bond)] ++
          hBondsFor rest (base + 1) from rfl, atomBondIdxs_bonds_append]
      have h1 : Mol.atomBondIdxs
          ⟨A, [({ beginAtomIdx := o, endAtomIdx := base, bondType := .SINGLE } : Bond)], C⟩ x =
          [] := by
        show (List.range 1).filter _ = _
        rw [show List.range 1 = [0] from rfl, List.filter_cons, List.filter_nil]
        have hb : (Mol.getBond
            ⟨A, [({ beginAtomIdx := o, endAtomIdx := base, bondType := .SINGLE } : Bond)], C⟩
            0).incident x = false := by
          show (o == x || base == x) = false
          have h1 : (o == x) = false := by
            simp only [beq_eq_false_iff_ne]
            exact hos o (List.mem_cons_self o rest)
          have h2 : (base == x) = false := by
            simp only [beq_eq_false_iff_ne]
            omega
          rw [h1, h2]
          rfl
        rw [hb]
        rfl
      rw [h1, ih (base + 1) (by omega) (fun y hy => hos y (List.mem_cons_of_mem o hy))]
      rfl

/-- Mols agreeing on bonds and the atom record agree on the atom's explicit
valence. -/
theorem explicitValence_eq_of (m1 m2 : Mol) (i : Nat) (hb : m1.bonds = m2.bonds)
    (ha : m1.getAtom i = m2.getAtom i) :
    m1.explicitValence i = m2.explicitValence i := by
  unfold Mol.explicitValence
  rw [Mol.atomBondIdxs_eq_of_bonds m1 m2 hb, ha]
  have hmap : (m2.atomBondIdxs i).map (fun bi => (m1.getBond bi).bondType.valenceContrib) =
      (m2.atomBondIdxs i).map (fun bi => (m2.getBond bi).bondType.valenceContrib) := by
    apply List.map_congr_left
    intro bi _
    show ((m1.bonds.getD bi {}).bondType).valenceContrib = _
    rw [hb]
    rfl
  rw [hmap]

/-- Mols agreeing on bonds and the atom record agree on the atom's implicit
hydrogen count. -/
theorem getNumImplicitHs_eq_of (table : Nat → List Nat) (m1 m2 : Mol) (i : Nat)
    (hb : m1.bonds = m2.bonds) (ha : m1.getAtom i = m2.getAtom i) :
    m1.getNumImplicitHs table i = m2.getNumImplicitHs table i := by
  unfold Mol.getNumImplicitHs
  rw [ha, explicitValence_eq_of m1 m2 i hb ha]

/-- The first default valence at least `e0` is stable when `e0` grows toward
it. -/
theorem pickDefaultValence_stable (vs : List Nat) (e0 e v : Nat)
    (h : pickDefaultValence vs e0 = some v) (h1 : e0 ≤ e) (h2 : e ≤ v) :
    pickDefaultValence vs e = some v := by
  induction vs with
  | nil => simp [pickDefaultValence] at h
  | cons x rest ih =>
      unfold pickDefaultValence at h ih ⊢
      by_cases hx : e0 ≤ x
      · rw [List.find?_cons_of_pos _ (by simpa)] at h
        have hv : x = v := by
          cases h
          rfl
        subst hv
        rw [List.find?_cons_of_pos _ (by simpa)]
      · rw [List.find?_cons_of_neg _ (by simpa using hx)] at h
        rw [List.find?_cons_of_neg _ (by simp only [decide_eq_true_eq]; omega)]
        exact ih h

/-- A positive implicit count exposes the picked default valence. -/
theorem getNumImplicitHs_pos (table : Nat → List Nat) (m : Mol) (i : Nat)
    (h : 0 < m.getNumImplicitHs table i) :
    (m.getAtom i).noImplicit = false ∧
    ∃ v, pickDefaultValence (table (m.getAtom i).atomicNum) (m.explicitValence i) = some v ∧
      m.explicitValence i ≤ v ∧
      m.getNumImplicitHs table i = v - m.explicitValence i := by
  have hni : (m.getAtom i).noImplicit = false := by
    cases hb : (m.getAtom i).noImplicit with
    | false => rfl
    | true =>
        unfold Mol.getNumImplicitHs at h
        rw [hb] at h
        simp at h
  refine ⟨hni, ?_⟩
  unfold Mol.getNumImplicitHs at h ⊢
  rw [hni] at h ⊢
  simp only [Bool.false_eq_true, if_false] at h ⊢
  cases hp : pickDefaultValence (table (m.getAtom i).atomicNum) (m.explicitValence i) with
  | none =>
      rw [hp] at h
      simp at h
  | some v =>
      rw [hp] at h
      refine ⟨v, rfl, ?_, rfl⟩
      have h2 := List.find?_some hp
      simpa using h2

theorem take_succ_getD {α : Type} (l : List α) (j : Nat) (d : α) (h : j < l.length) :
    l.take (j + 1) = l.take j ++ [l.getD j d] := by
  rw [List.take_succ]
  congr 1
  rw [List.getElem?_eq_getElem h]
  rw [List.getD_eq_getElem?_getD, List.getElem?_eq_getElem h]
  rfl

/-- One `addHs` iteration on the invariant state: the processed prefix grows
by one marked atom, and the atom's implicit hydrogens are appended with their
bonds. -/
theorem addHsProcessAtom_step (table : Nat → List Nat) (rb0 : Nat → ℝ) (m : Mol) (j : Nat)
    (hj : j < m.numAtoms) (hEa : (m.getAtom j).numExplicitHs = 0)
    (OS : List Nat) (hOSj : ∀ x ∈ OS, x < j) (r : Nat) (hlen : OS.length = r) :
    addHsProcessAtom table rb0 false false
      ⟨(m.atoms.take j).map markAdded ++ m.atoms.drop j ++ List.replicate r hAtomImp,
       m.bonds ++ hBondsFor OS m.numAtoms, m.conformers⟩ j =
      ⟨(m.atoms.take (j + 1)).map markAdded ++ m.atoms.drop (j + 1) ++
         List.replicate (r + m.getNumImplicitHs table j) hAtomImp,
       m.bonds ++ hBondsFor (OS ++ List.replicate (m.getNumImplicitHs table j) j)
         m.numAtoms, m.conformers⟩ := by
  have hj' : j < m.atoms.length := hj
  have hAL : ((m.atoms.take j).map markAdded).length = j := by
    rw [List.length_map, List.length_take]
    omega
  have hdrop : m.atoms.drop j = m.getAtom j :: m.atoms.drop (j + 1) := by
    rw [List.drop_eq_getElem_cons hj']
    congr 1
    show m.atoms[j] = m.atoms.getD j {}
    rw [List.getD_eq_getElem?_getD, List.getElem?_eq_getElem hj']
    rfl
  have hexpose : ∀ rr : Nat,
      (m.atoms.take j).map markAdded ++ m.atoms.drop j ++ List.replicate rr hAtomImp =
      (m.atoms.take j).map markAdded ++
        m.getAtom j :: (m.atoms.drop (j + 1) ++ List.replicate rr hAtomImp) := by
    intro rr
    rw [hdrop, List.append_assoc, List.cons_append]
  have hSat : ∀ rr : Nat,
      ((m.atoms.take j).map markAdded ++ m.atoms.drop j ++
        List.replicate rr hAtomImp).getD j {} = m.getAtom j := by
    intro rr
    have h0 := getD_append_len ((m.atoms.take j).map markAdded) (m.getAtom j)
      (m.atoms.drop (j + 1) ++ List.replicate rr hAtomImp) ({} : Atom)
    rw [hAL] at h0
    rw [hexpose rr]
    exact h0
  have hset : ∀ rr : Nat, ∀ x : Atom,
      ((m.atoms.take j).map markAdded ++ m.atoms.drop j ++
        List.replicate rr hAtomImp).set j x =
      (m.atoms.take j).map markAdded ++
        x :: (m.atoms.drop (j + 1) ++ List.replicate rr hAtomImp) := by
    intro rr x
    have h0 := set_append_len ((m.atoms.take j).map markAdded) (m.getAtom j)
      (m.atoms.drop (j + 1) ++ List.replicate rr hAtomImp) x
    rw [hAL] at h0
    rw [hexpose rr]
    exact h0
  have hgat : ∀ (rr : Nat) (B : List Bond), Mol.getAtom
      ⟨(m.atoms.take j).map markAdded ++ m.atoms.drop j ++ List.replicate rr hAtomImp,
       B, m.conformers⟩ j = m.getAtom j := fun rr _ => hSat rr
  have hval : Mol.explicitValence
      ⟨(m.atoms.take j).map markAdded ++ m.atoms.drop j ++ List.replicate r hAtomImp,
       m.bonds ++ hBondsFor OS m.numAtoms, m.conformers⟩ j = m.explicitValence j := by
    rw [explicitValence_bonds_append]
    rw [hBonds_valence _ _ j OS m.numAtoms hj]
    rw [List.count_eq_zero.mpr (fun hmem => absurd (hOSj j hmem) (lt_irrefl j))]
    rw [Nat.add_zero]
    exact explicitValence_eq_of _ m j rfl (hSat r)
  have himp : Mol.getNumImplicitHs table
      ⟨(m.atoms.take j).map markAdded ++ m.atoms.drop j ++ List.replicate r hAtomImp,
       m.bonds ++ hBondsFor OS m.numAtoms, m.conformers⟩ j =
      m.getNumImplicitHs table j := by
    unfold Mol.getNumImplicitHs
    rw [hgat r _, hval]
  have hnum : (⟨(m.atoms.take j).map markAdded ++ m.atoms.drop j ++
      List.replicate r hAtomImp,
      m.bonds ++ hBondsFor OS m.numAtoms, m.conformers⟩ : Mol).numAtoms =
      m.numAtoms + r := by
    show ((m.atoms.take j).map markAdded ++ m.atoms.drop j ++
      List.replicate r hAtomImp).length = m.numAtoms + r
    rw [List.length_append, List.length_append, hAL, List.length_drop,
      List.length_replicate]
    have : m.numAtoms = m.atoms.length := rfl
    omega
  unfold addHsProcessAtom
  dsimp only
  rw [hgat r _, hEa]
  rw [show List.range 0 = ([] : List Nat) from rfl, List.foldl_nil]
  have hm2 : Mol.modifyAtom
      ⟨(m.atoms.take j).map markAdded ++ m.atoms.drop j ++ List.replicate r hAtomImp,
       m.bonds ++ hBondsFor OS m.numAtoms, m.conformers⟩ j
      (fun a => { a with numExplicitHs := 0 }) =
      ⟨(m.atoms.take j).map markAdded ++ m.atoms.drop j ++ List.replicate r hAtomImp,
       m.bonds ++ hBondsFor OS m.numAtoms, m.conformers⟩ := by
    unfold Mol.modifyAtom Mol.setAtom
    rw [hgat r _]
    dsimp only
    rw [atom_zeroExplicit_eta _ hEa]
    rw [← hSat r, set_getD_self]
  rw [if_neg (by simp)]
  rw [hm2, himp]
  rw [foldl_addHsOneH rb0 j _ (m.getNumImplicitHs table j)]
  rw [hnum]
  have hm4 : Mol.modifyAtom
      ⟨((m.atoms.take j).map markAdded ++ m.atoms.drop j ++ List.replicate r hAtomImp) ++
         List.replicate (m.getNumImplicitHs table j) hAtomImp,
       (m.bonds ++ hBondsFor OS m.numAtoms) ++
         hBondsFor (List.replicate (m.getNumImplicitHs table j) j) (m.numAtoms + r),
       m.conformers⟩ j
      (fun a => { a with origNoImplicit := some a.noImplicit, noImplicit := true }) =
      ⟨(m.atoms.take (j + 1)).map markAdded ++ m.atoms.drop (j + 1) ++
         List.replicate (r + m.getNumImplicitHs table j) hAtomImp,
       m.bonds ++ hBondsFor (OS ++ List.replicate (m.getNumImplicitHs table j) j)
         m.numAtoms, m.conformers⟩ := by
    have hA3 : ((m.atoms.take j).map markAdded ++ m.atoms.drop j ++
        List.replicate r hAtomImp) ++ List.replicate (m.getNumImplicitHs table j) hAtomImp =
        (m.atoms.take j).map markAdded ++ m.atoms.drop j ++
          List.replicate (r + m.getNumImplicitHs table j) hAtomImp := by
      rw [List.append_assoc ((m.atoms.take j).map markAdded ++ m.atoms.drop j),
        ← List.replicate_add]
    have hB3 : (m.bonds ++ hBondsFor OS m.numAtoms) ++
        hBondsFor (List.replicate (m.getNumImplicitHs table j) j) (m.numAtoms + r) =
        m.bonds ++ hBondsFor (OS ++ List.replicate (m.getNumImplicitHs table j) j)
          m.numAtoms := by
      rw [hBondsFor_append, hlen, List.append_assoc]
    rw [hA3, hB3]
    unfold Mol.modifyAtom Mol.setAtom
    rw [hgat (r + m.getNumImplicitHs table j) _]
    dsimp only
    rw [atom_mark_eta _ hEa]
    rw [hset (r + m.getNumImplicitHs table j) (markAdded (m.getAtom j))]
    have htake : (m.atoms.take (j + 1)).map markAdded =
        (m.atoms.take j).map markAdded ++ [markAdded (m.getAtom j)] := by
      rw [take_succ_getD m.atoms j {} hj', List.map_append]
      rfl
    rw [htake, List.append_assoc, List.append_assoc]
    rfl
  rw [hm4]

/-- The `addHs` scan after its first `j` iterations: the processed prefix is
marked, the untouched suffix intact, and the hydrogens of the prefix appended
with their bonds. -/
theorem addHs_prefix (table : Nat → List Nat) (rb0 : Nat → ℝ) (m : Mol)
    (hE : ∀ a ∈ m.atoms, a.numExplicitHs = 0) :
    ∀ j, j ≤ m.numAtoms →
    (List.range j).foldl (fun mm aidx => addHsProcessAtom table rb0 false false mm aidx) m =
      ⟨(m.atoms.take j).map markAdded ++ m.atoms.drop j ++
         List.replicate (((impCounts table m).take j).sum) hAtomImp,
       m.bonds ++ hBondsFor (ownersFrom ((impCounts table m).take j) 0) m.numAtoms,
       m.conformers⟩ := by
  have hclen : (impCounts table m).length = m.numAtoms := by
    unfold impCounts
    rw [List.length_map, List.length_range]
  intro j
  induction j with
  | zero =>
      intro _
      simp only [List.take_zero, List.map_nil, List.nil_append, List.drop_zero,
        List.sum_nil, List.replicate_zero, List.append_nil, List.range_zero,
        List.foldl_nil]
      show m = ⟨m.atoms, m.bonds ++ [], m.conformers⟩
      rw [List.append_nil]
  | succ j ih =>
      intro hj1
      have hj : j < m.numAtoms := by omega
      have hj' : j < m.atoms.length := hj
      have htlen : ((impCounts table m).take j).length = j := by
        rw [List.length_take]
        omega
      rw [List.range_succ, List.foldl_append, ih (by omega), List.foldl_cons, List.foldl_nil]
      have hmem : m.getAtom j ∈ m.atoms := by
        show m.atoms.getD j {} ∈ m.atoms
        rw [List.getD_eq_getElem?_getD, List.getElem?_eq_getElem hj']
        exact List.getElem_mem hj'
      have hOSj : ∀ x ∈ ownersFrom ((impCounts table m).take j) 0, x < j := by
        intro x hx
        have h0 := mem_ownersFrom _ _ _ hx
        omega
      rw [addHsProcessAtom_step table rb0 m j hj (hE _ hmem) _ hOSj _
        (ownersFrom_length _ _)]
      have htak : (impCounts table m).take (j + 1) =
          (impCounts table m).take j ++ [m.getNumImplicitHs table j] := by
        rw [take_succ_getD _ j 0 (by omega)]
        unfold impCounts
        rw [getD_map_range _ _ j 0 hj]
      have hsum : ((impCounts table m).take (j + 1)).sum =
          ((impCounts table m).take j).sum + m.getNumImplicitHs table j := by
        rw [htak, List.sum_append]
        simp
      have howners : ownersFrom ((impCounts table m).take (j + 1)) 0 =
          ownersFrom ((impCounts table m).take j) 0 ++
            List.replicate (m.getNumImplicitHs table j) j := by
        rw [htak, ownersFrom_append, htlen]
        show _ ++ (List.replicate _ (0 + j) ++ ownersFrom [] (0 + j + 1)) = _
        rw [Nat.zero_add]
        show _ ++ (List.replicate _ j ++ []) = _
        rw [List.append_nil]
      rw [hsum, howners]

/-- The full `addHs` characterization: every atom marked, the created
hydrogens appended in owner order, one single bond each. -/
theorem addHs_spec (table : Nat → List Nat) (rb0 : Nat → ℝ) (m : Mol)
    (hE : ∀ a ∈ m.atoms, a.numExplicitHs = 0) :
    MolOps.addHs table rb0 m false false none =
      ⟨m.atoms.map markAdded ++ List.replicate ((impCounts table m).sum) hAtomImp,
       m.bonds ++ hBondsFor (ownersFrom (impCounts table m) 0) m.numAtoms,
       m.conformers⟩ := by
  have hclen : (impCounts table m).length = m.numAtoms := by
    unfold impCounts
    rw [List.length_map, List.length_range]
  have he : MolOps.addHs table rb0 m false false none =
      (List.range m.numAtoms).foldl
        (fun mm aidx => addHsProcessAtom table rb0 false false mm aidx) m := rfl
  rw [he, addHs_prefix table rb0 m hE m.numAtoms (Nat.le_refl _)]
  have h1 : m.atoms.take m.numAtoms = m.atoms := by
    show m.atoms.take m.atoms.length = m.atoms
    exact List.take_length m.atoms
  have h2 : m.atoms.drop m.numAtoms = [] := by
    show m.atoms.drop m.atoms.length = []
    exact List.drop_length m.atoms
  have h3 : (impCounts table m).take m.numAtoms = impCounts table m := by
    rw [← hclen]
    exact List.take_length (impCounts table m)
  rw [h1, h2, h3, List.append_nil]

/-- The molecule the `removeHs` loop produces does not depend on the
original-index counter or the accumulated index map. -/
theorem removeHsLoop_fst_indep (table : Nat → List Nat) (io uec : Bool) :
    ∀ (fuel : Nat) (m : Mol) (ci o1 : Nat) (im1 : List (Nat × Nat)) (o2 : Nat)
      (im2 : List (Nat × Nat)),
    (removeHsLoop table io uec fuel m ci o1 im1).1 =
    (removeHsLoop table io uec fuel m ci o2 im2).1 := by
  intro fuel
  induction fuel with
  | zero =>
      intro m ci o1 im1 o2 im2
      rfl
  | succ f ih =>
      intro m ci o1 im1 o2 im2
      simp only [removeHsLoop]
      split
      · split
        · split
          · exact ih _ _ _ _ _ _
          · exact ih _ _ _ _ _ _
        · exact ih _ _ _ _ _ _
      · rfl

/-- Phase A of the round trip: the scan sweeps over the marked heavy prefix,
restoring each record, until it reaches the appended hydrogen block. -/
theorem removeHs_phaseA (table : Nat → List Nat) (uec : Bool) (m : Mol) (R : List Atom)
    (B : List Bond) (CF : List Conformer)
    (h1 : ∀ a ∈ m.atoms, a.atomicNum ≠ 1)
    (h2 : ∀ a ∈ m.atoms, a.numExplicitHs = 0)
    (h2c : ∀ a ∈ m.atoms, a.origNoImplicit = none) :
    ∀ (d j : Nat), j + d = m.numAtoms → ∀ (fuel : Nat), d ≤ fuel →
    ∀ (o : Nat) (im : List (Nat × Nat)),
    (removeHsLoop table true uec fuel
      ⟨m.atoms.take j ++ (m.atoms.drop j).map markAdded ++ R, B, CF⟩ j o im).1 =
    (removeHsLoop table true uec (fuel - d) ⟨m.atoms ++ R, B, CF⟩ m.numAtoms 0 []).1 := by
  intro d
  induction d with
  | zero =>
      intro j hj fuel hf o im
      have hjn : j = m.numAtoms := by omega
      have hT : m.atoms.take j = m.atoms := by
        rw [hjn]
        exact List.take_length m.atoms
      have hD : m.atoms.drop j = [] := by
        rw [hjn]
        exact List.drop_length m.atoms
      rw [hT, hD, List.map_nil, List.append_nil, Nat.sub_zero, hjn]
      exact removeHsLoop_fst_indep table true uec fuel _ _ o im 0 []
  | succ d ihd =>
      intro j hj fuel hf o im
      have hjlt : j < m.numAtoms := by omega
      have hj' : j < m.atoms.length := hjlt
      have hTL : (m.atoms.take j).length = j := by
        rw [List.length_take]
        omega
      have hmem : m.getAtom j ∈ m.atoms := by
        show m.atoms.getD j {} ∈ m.atoms
        rw [List.getD_eq_getElem?_getD, List.getElem?_eq_getElem hj']
        exact List.getElem_mem hj'
      have hdrop : m.atoms.drop j = m.getAtom j :: m.atoms.drop (j + 1) := by
        rw [List.drop_eq_getElem_cons hj']
        congr 1
        show m.atoms[j] = m.atoms.getD j {}
        rw [List.getD_eq_getElem?_getD, List.getElem?_eq_getElem hj']
        rfl
      have hexpose : m.atoms.take j ++ (m.atoms.drop j).map markAdded ++ R =
          m.atoms.take j ++ markAdded (m.getAtom j) ::
            ((m.atoms.drop (j + 1)).map markAdded ++ R) := by
        rw [hdrop, List.map_cons, List.append_assoc, List.cons_append]
      have hget : Mol.getAtom
          ⟨m.atoms.take j ++ (m.atoms.drop j).map markAdded ++ R, B, CF⟩ j =
          markAdded (m.getAtom j) := by
        show (m.atoms.take j ++ (m.atoms.drop j).map markAdded ++ R).getD j {} = _
        have h0 := getD_append_len (m.atoms.take j) (markAdded (m.getAtom j))
          ((m.atoms.drop (j + 1)).map markAdded ++ R) ({} : Atom)
        rw [hTL] at h0
        rw [hexpose]
        exact h0
      have hnum : (⟨m.atoms.take j ++ (m.atoms.drop j).map markAdded ++ R, B, CF⟩ :
          Mol).numAtoms = m.numAtoms + R.length := by
        show (m.atoms.take j ++ (m.atoms.drop j).map markAdded ++ R).length = _
        rw [List.length_append, List.length_append, hTL, List.length_map,
          List.length_drop]
        have he : m.numAtoms = m.atoms.length := rfl
        omega
      obtain ⟨f, rfl⟩ : ∃ f, fuel = f + 1 := ⟨fuel - 1, by omega⟩
      simp only [removeHsLoop]
      rw [if_pos (by rw [hnum]; omega)]
      rw [hget]
      have hanum : ((markAdded (m.getAtom j)).atomicNum == 1) = false := by
        show ((m.getAtom j).atomicNum == 1) = false
        simp only [beq_eq_false_iff_ne]
        exact h1 _ hmem
      rw [hanum]
      rw [if_neg (by simp)]
      have hrestore : removeHsRestoreStep
          ⟨m.atoms.take j ++ (m.atoms.drop j).map markAdded ++ R, B, CF⟩ j =
          ⟨m.atoms.take (j + 1) ++ (m.atoms.drop (j + 1)).map markAdded ++ R, B, CF⟩ := by
        unfold removeHsRestoreStep
        rw [hget]
        show Mol.modifyAtom
          ⟨m.atoms.take j ++ (m.atoms.drop j).map markAdded ++ R, B, CF⟩ j
          (fun a => { a with noImplicit := (m.getAtom j).noImplicit
                             origNoImplicit := none }) = _
        unfold Mol.modifyAtom Mol.setAtom
        rw [hget]
        dsimp only
        rw [atom_restore_eta _ (h2 _ hmem) (h2c _ hmem)]
        have hsetp := set_append_len (m.atoms.take j) (markAdded (m.getAtom j))
          ((m.atoms.drop (j + 1)).map markAdded ++ R) (m.getAtom j)
        rw [hTL] at hsetp
        show (⟨(m.atoms.take j ++ (m.atoms.drop j).map markAdded ++ R).set j
          (m.getAtom j), B, CF⟩ : Mol) = _
        rw [hexpose, hsetp]
        have htake : m.atoms.take (j + 1) = m.atoms.take j ++ [m.getAtom j] := by
          rw [take_succ_getD _ j {} hj']
          rfl
        rw [htake, List.append_assoc, List.append_assoc]
        rfl
      rw [hrestore]
      have hrec := ihd (j + 1) (by omega) f (by omega) (o + 1) (im ++ [(o, j)])
      rw [hrec, show f + 1 - (d + 1) = f - d from by omega]

theorem getD_mem_of_lt {α : Type} (l : List α) (i : Nat) (d : α) (h : i < l.length) :
    l.getD i d ∈ l := by
  rw [List.getD_eq_getElem?_getD, List.getElem?_eq_getElem h]
  exact List.getElem_mem h

/-- With no bond naming `i` among its stereo atoms, the stereo-atom
substitution is the identity. -/
theorem adjustStereoAtoms_noop (M : Mol) (i o : Nat)
    (hst : ∀ bi, bi < M.bonds.length → ((M.getBond bi).stereoAtoms.contains i) = false) :
    (adjustStereoAtomsIfRequired M i o).2 = M := by
  unfold adjustStereoAtomsIfRequired
  split
  · rfl
  · split
    · rfl
    · cases hf : (M.atomBondIdxs o).find? (adjustStereoQualifies M i o) with
      | none => rfl
      | some bi =>
          exfalso
          have hq := List.find?_some hf
          have hbi := List.mem_of_find?_eq_some hf
          have hlt := atomBondIdxs_lt M o bi hbi
          unfold adjustStereoQualifies at hq
          have hc := hst bi hlt
          simp only [Bool.and_eq_true] at hq
          have hm2 : ((M.getBond bi).stereoAtoms.contains i) = true := hq.1.2
          rw [hc] at hm2
          exact Bool.noConfusion hm2

/-- The explicit-count bookkeeping is the identity when none of its bump
conditions hold. -/
theorem removeHsExplicitCountStep_noop (table : Nat → List Nat) (M : Mol) (o : Nat)
    (hni : (M.getAtom o).noImplicit = false)
    (hch : (M.getAtom o).chiralTag = .CHI_UNSPECIFIED)
    (har : (((M.getAtom o).atomicNum == 7 || (M.getAtom o).atomicNum == 15) &&
      (M.getAtom o).isAromatic) = false)
    (hdv : ((table (M.getAtom o).atomicNum).drop 1).contains (M.getTotalValence table o) =
      false) :
    removeHsExplicitCountStep table false M o = M := by
  unfold removeHsExplicitCountStep
  dsimp only
  rw [if_neg (by simp [hni, hch]), if_neg (by rw [har, hdv]; simp)]

/-- The chiral-parity fix-up is the identity on an unspecified tag. -/
theorem removeHsChiralStep_noop (M : Mol) (o bi : Nat)
    (hch : (M.getAtom o).chiralTag = .CHI_UNSPECIFIED) :
    removeHsChiralStep M o bi = M := by
  unfold removeHsChiralStep
  rw [if_neg (by simp [hch])]

/-- The direction handling is the identity for an unmarked bond when no
stereo-atom list names the hydrogen. -/
theorem removeHsBondDirStep_noop (M : Mol) (i o bi : Nat)
    (hdir : (M.getBond bi).bondDir = .NONE)
    (hst : ∀ b2, b2 < M.bonds.length → ((M.getBond b2).stereoAtoms.contains i) = false) :
    removeHsBondDirStep M i o bi = M := by
  unfold removeHsBondDirStep
  dsimp only
  rw [if_neg (by simp [hdir]), if_neg (by simp [hdir])]
  exact adjustStereoAtoms_noop M i o hst

theorem mem_hBondsFor_shape (b : Bond) (os : List Nat) :
    ∀ (base : Nat), b ∈ hBondsFor os base →
    b.bondType = .SINGLE ∧ b.stereoAtoms = [] ∧ b.bondDir = .NONE ∧
    b.beginAtomIdx ∈ os ∧ base ≤ b.endAtomIdx := by
  induction os with
  | nil =>
      intro base hb
      cases hb
  | cons o rest ih =>
      intro base hb
      rcases List.mem_cons.mp hb with hb1 | hb2
      · subst hb1
        exact ⟨rfl, rfl, rfl, List.mem_cons_self o rest, Nat.le_refl base⟩
      · obtain ⟨hT, hS, hD, hBn, hE⟩ := ih (base + 1) hb2
        exact ⟨hT, hS, hD, List.mem_cons_of_mem o hBn, by omega⟩

theorem filter_not_incident_self (bs : List Bond) (x : Nat)
    (h : ∀ b ∈ bs, b.beginAtomIdx ≠ x ∧ b.endAtomIdx ≠ x) :
    bs.filter (fun b => !(b.incident x)) = bs := by
  apply List.filter_eq_self.mpr
  intro b hb
  obtain ⟨h1, h2⟩ := h b hb
  show (!(b.beginAtomIdx == x || b.endAtomIdx == x)) = true
  have hb1 : (b.beginAtomIdx == x) = false := by
    simp only [beq_eq_false_iff_ne]
    exact h1
  have hb2 : (b.endAtomIdx == x) = false := by
    simp only [beq_eq_false_iff_ne]
    exact h2
  rw [hb1, hb2]
  rfl

theorem shiftAfterRemoval_noop (k : Nat) (b : Bond) (hb : b.beginAtomIdx ≤ k)
    (he : b.endAtomIdx ≤ k) (hs : ∀ s ∈ b.stereoAtoms, s ≤ k) :
    Bond.shiftAfterRemoval k b = b := by
  have h1 : shiftIdx k b.beginAtomIdx = b.beginAtomIdx := by
    unfold shiftIdx
    exact if_neg (by omega)
  have h2 : shiftIdx k b.endAtomIdx = b.endAtomIdx := by
    unfold shiftIdx
    exact if_neg (by omega)
  have h3 : b.stereoAtoms.map (shiftIdx k) = b.stereoAtoms := by
    rw [show b.stereoAtoms.map (shiftIdx k) = b.stereoAtoms.map id from
      List.map_congr_left (fun x hx => by
        unfold shiftIdx
        dsimp only [id]
        exact if_neg (by have := hs x hx; omega)), List.map_id]
  unfold Bond.shiftAfterRemoval
  rw [h1, h2, h3]

/-- Deleting the hydrogen at the block head: its bond disappears, every
later hydrogen bond shifts into place one index lower. -/
theorem hBondsFor_tail_surgery (k : Nat) (os : List Nat) :
    ∀ (base : Nat), k < base → (∀ o ∈ os, o < k) →
    ((hBondsFor os base).filter (fun b => !(b.incident k))).map (Bond.shiftAfterRemoval k) =
      hBondsFor os (base - 1) := by
  induction os with
  | nil =>
      intro base _ _
      rfl
  | cons o rest ih =>
      intro base hbk hos
      have ho : o < k := hos o (List.mem_cons_self o rest)
      show ((({ beginAtomIdx := o, endAtomIdx := base, bondType := .SINGLE } : Bond) ::
        hBondsFor rest (base + 1)).filter (fun b => !(b.incident k))).map
          (Bond.shiftAfterRemoval k) = _
      rw [List.filter_cons]
      have hinc : (!(({ beginAtomIdx := o, endAtomIdx := base, bondType := .SINGLE } :
          Bond).incident k)) = true := by
        show (!(o == k || base == k)) = true
        have h1 : (o == k) = false := by
          simp only [beq_eq_false_iff_ne]
          omega
        have h2 : (base == k) = false := by
          simp only [beq_eq_false_iff_ne]
          omega
        rw [h1, h2]
        rfl
      rw [if_pos hinc, List.map_cons,
        ih (base + 1) (by omega) (fun x hx => hos x (List.mem_cons_of_mem o hx)),
        Nat.add_sub_cancel]
      have hhead : Bond.shiftAfterRemoval k
          ({ beginAtomIdx := o, endAtomIdx := base, bondType := .SINGLE } : Bond) =
          ({ beginAtomIdx := o, endAtomIdx := base - 1, bondType := .SINGLE } : Bond) := by
        simp only [Bond.shiftAfterRemoval, shiftIdx]
        rw [if_neg (by omega), if_pos hbk]
        rfl
      rw [hhead]
      show _ = ({ beginAtomIdx := o, endAtomIdx := base - 1, bondType := .SINGLE } : Bond) ::
        hBondsFor rest (base - 1 + 1)
      rw [show base - 1 + 1 = base from by omega]

/-- Removing the head hydrogen of the appended block restores the invariant
with one hydrogen fewer. -/
theorem removeAtom_roundtrip_step (m : Mol) (CF : List Conformer) (o : Nat)
    (os : List Nat) (r : Nat)
    (h3 : ∀ b ∈ m.bonds, b.beginAtomIdx < m.numAtoms ∧ b.endAtomIdx < m.numAtoms)
    (h6 : ∀ b ∈ m.bonds, ∀ s ∈ b.stereoAtoms, s < m.numAtoms)
    (hos : ∀ x ∈ os, x < m.numAtoms) :
    Mol.removeAtom ⟨m.atoms ++ hAtomImp :: List.replicate r hAtomImp,
      m.bonds ++ hBondsFor (o :: os) m.numAtoms, CF⟩ m.numAtoms =
    ⟨m.atoms ++ List.replicate r hAtomImp, m.bonds ++ hBondsFor os m.numAtoms,
     CF.map (fun c => { c with positions := c.positions.eraseIdx m.numAtoms })⟩ := by
  unfold Mol.removeAtom
  congr 1
  · show (m.atoms ++ hAtomImp :: List.replicate r hAtomImp).eraseIdx m.atoms.length = _
    exact eraseIdx_append_len m.atoms hAtomImp (List.replicate r hAtomImp)
  · show ((m.bonds ++ hBondsFor (o :: os) m.numAtoms).filter
      (fun b => !(b.incident m.numAtoms))).map (Bond.shiftAfterRemoval m.numAtoms) = _
    rw [List.filter_append, List.map_append]
    have hm1 : m.bonds.filter (fun b => !(b.incident m.numAtoms)) = m.bonds :=
      filter_not_incident_self m.bonds m.numAtoms (fun b hb =>
        ⟨by have := (h3 b hb).1; omega, by have := (h3 b hb).2; omega⟩)
    have hm2 : m.bonds.map (Bond.shiftAfterRemoval m.numAtoms) = m.bonds := by
      rw [show m.bonds.map (Bond.shiftAfterRemoval m.numAtoms) = m.bonds.map id from
        List.map_congr_left (fun b hb => by
          dsimp only [id]
          exact shiftAfterRemoval_noop m.numAtoms b
            (by have := (h3 b hb).1; omega) (by have := (h3 b hb).2; omega)
            (fun x hx => by have := h6 b hb x hx; omega)), List.map_id]
    have hh : ((hBondsFor (o :: os) m.numAtoms).filter
        (fun b => !(b.incident m.numAtoms))).map (Bond.shiftAfterRemoval m.numAtoms) =
        hBondsFor os m.numAtoms := by
      show ((({ beginAtomIdx := o, endAtomIdx := m.numAtoms, bondType := .SINGLE } : Bond) ::
        hBondsFor os (m.numAtoms + 1)).filter (fun b => !(b.incident m.numAtoms))).map
          (Bond.shiftAfterRemoval m.numAtoms) = _
      rw [List.filter_cons]
      rw [if_neg (by simp [Bond.incident])]
      rw [hBondsFor_tail_surgery m.numAtoms os (m.numAtoms + 1) (by omega) hos,
        Nat.add_sub_cancel]
    rw [hm1, hm2, hh]

theorem atomBondIdxs_hblock (A : List Atom) (CF : List Conformer) (mb : List Bond)
    (n o : Nat) (os : List Nat)
    (hmb : ∀ b ∈ mb, b.beginAtomIdx ≠ n ∧ b.endAtomIdx ≠ n)
    (hos : ∀ x ∈ os, x ≠ n) :
    Mol.atomBondIdxs ⟨A, mb ++ hBondsFor (o :: os) n, CF⟩ n = [mb.length] := by
  rw [atomBondIdxs_bonds_append]
  have h1 : Mol.atomBondIdxs ⟨A, mb, CF⟩ n = [] := by
    unfold Mol.atomBondIdxs
    apply List.filter_eq_nil_iff.mpr
    intro bi hbi
    have hlt : bi < mb.length := by simpa using List.mem_range.mp hbi
    have hbm : Mol.getBond ⟨A, mb, CF⟩ bi ∈ mb := getD_mem_of_lt mb bi {} hlt
    obtain ⟨hb1, hb2⟩ := hmb _ hbm
    simp [Bond.incident, hb1, hb2]
  have h2 : Mol.atomBondIdxs ⟨A, hBondsFor (o :: os) n, CF⟩ n = [0] := by
    show Mol.atomBondIdxs
      ⟨A, [({ beginAtomIdx := o, endAtomIdx := n, bondType := .SINGLE } : Bond)] ++
        hBondsFor os (n + 1), CF⟩ n = [0]
    rw [atomBondIdxs_bonds_append]
    have hh : Mol.atomBondIdxs
        ⟨A, [({ beginAtomIdx := o, endAtomIdx := n, bondType := .SINGLE } : Bond)], CF⟩ n =
        [0] := by
      show (List.range 1).filter _ = [0]
      rw [show List.range 1 = [0] from rfl, List.filter_cons, List.filter_nil]
      rw [if_pos (show (Mol.getBond
        ⟨A, [({ beginAtomIdx := o, endAtomIdx := n, bondType := .SINGLE } : Bond)], CF⟩
        0).incident n = true from by
          show (o == n || n == n) = true
          simp)]
    have ht := atomBondIdxs_hBondsFor_nil A CF n os (n + 1) (by omega) hos
    rw [hh, ht]
    rfl
  rw [h1, h2]
  simp

/-- Phase B of the round trip: the scan removes the appended hydrogens one by
one, each removal leaving the original atoms and bonds plus the shortened
hydrogen block, with no explicit-count bump, no chirality flip and no stereo
adjustment. -/
theorem removeHs_phaseB (table : Nat → List Nat) (m : Mol)
    (h3 : ∀ b ∈ m.bonds, b.beginAtomIdx < m.numAtoms ∧ b.endAtomIdx < m.numAtoms)
    (h6 : ∀ b ∈ m.bonds, ∀ s ∈ b.stereoAtoms, s < m.numAtoms) :
    ∀ (os : List Nat),
    (∀ x ∈ os, x < m.numAtoms ∧ 1 ≤ (m.getAtom x).atomicNum ∧
      (m.getAtom x).noImplicit = false ∧
      (m.getAtom x).chiralTag = ChiralType.CHI_UNSPECIFIED ∧
      (((m.getAtom x).atomicNum == 7 || (m.getAtom x).atomicNum == 15) &&
        (m.getAtom x).isAromatic) = false ∧
      ∃ v, pickDefaultValence (table (m.getAtom x).atomicNum) (m.explicitValence x) =
          some v ∧
        m.explicitValence x + os.count x ≤ v ∧
        ((table (m.getAtom x).atomicNum).drop 1).contains v = false) →
    ∀ (CF : List Conformer) (fuel : Nat), os.length ≤ fuel → ∀ (o : Nat)
      (im : List (Nat × Nat)),
    (removeHsLoop table true false fuel
      ⟨m.atoms ++ List.replicate os.length hAtomImp,
       m.bonds ++ hBondsFor os m.numAtoms, CF⟩ m.numAtoms o im).1.atoms = m.atoms ∧
    (removeHsLoop table true false fuel
      ⟨m.atoms ++ List.replicate os.length hAtomImp,
       m.bonds ++ hBondsFor os m.numAtoms, CF⟩ m.numAtoms o im).1.bonds = m.bonds := by
  intro os
  induction os with
  | nil =>
      intro _ CF fuel _ o im
      cases fuel with
      | zero =>
          exact ⟨by simp only [removeHsLoop]; simp,
            by simp only [removeHsLoop]; simp [hBondsFor]⟩
      | succ f =>
          simp only [removeHsLoop]
          rw [if_neg (by
            show ¬ m.numAtoms < (m.atoms ++ List.replicate 0 hAtomImp).length
            simp [Mol.numAtoms])]
          exact ⟨by simp, by simp [hBondsFor]⟩
  | cons o1 os' ih =>
      intro hcond CF fuel hfuel o im
      rcases hcond o1 (List.mem_cons_self o1 os') with
        ⟨ho1n, ho1an, ho1ni, ho1ch, ho1ar, v, hpick, hcnt, hcontains⟩
      obtain ⟨f, rfl⟩ : ∃ f, fuel = f + 1 := ⟨fuel - 1, by
        have : (o1 :: os').length = os'.length + 1 := rfl
        omega⟩
      have hosl : ∀ x ∈ os', x < m.numAtoms :=
        fun x hx => (hcond x (List.mem_cons_of_mem o1 hx)).1
      have hnumS : (⟨m.atoms ++ List.replicate (o1 :: os').length hAtomImp,
          m.bonds ++ hBondsFor (o1 :: os') m.numAtoms, CF⟩ : Mol).numAtoms =
          m.numAtoms + (os'.length + 1) := by
        show (m.atoms ++ List.replicate (o1 :: os').length hAtomImp).length = _
        rw [List.length_append, List.length_replicate, List.length_cons]
        rfl
      have hgetn : Mol.getAtom ⟨m.atoms ++ List.replicate (o1 :: os').length hAtomImp,
          m.bonds ++ hBondsFor (o1 :: os') m.numAtoms, CF⟩ m.numAtoms = hAtomImp := by
        show (m.atoms ++ hAtomImp :: List.replicate os'.length hAtomImp).getD
          m.atoms.length {} = hAtomImp
        exact getD_append_len m.atoms hAtomImp (List.replicate os'.length hAtomImp) {}
      have hgetlow : ∀ (B : List Bond) (x : Nat), x < m.numAtoms →
          Mol.getAtom ⟨m.atoms ++ List.replicate (o1 :: os').length hAtomImp, B, CF⟩ x =
          m.getAtom x := by
        intro B x hx
        show (m.atoms ++ List.replicate (o1 :: os').length hAtomImp).getD x {} =
          m.atoms.getD x {}
        exact List.getD_append _ _ {} x hx
      have hidx : Mol.atomBondIdxs ⟨m.atoms ++ List.replicate (o1 :: os').length hAtomImp,
          m.bonds ++ hBondsFor (o1 :: os') m.numAtoms, CF⟩ m.numAtoms =
          [m.bonds.length] := by
        apply atomBondIdxs_hblock
        · intro b hb
          have := h3 b hb
          omega
        · intro x hx
          have := hosl x hx
          omega
      have hdeg : Mol.getAtomDegree
          ⟨m.atoms ++ List.replicate (o1 :: os').length hAtomImp,
           m.bonds ++ hBondsFor (o1 :: os') m.numAtoms, CF⟩ m.numAtoms = 1 := by
        unfold Mol.getAtomDegree
        rw [hidx]
        rfl
      have hgetbi : Mol.getBond ⟨m.atoms ++ List.replicate (o1 :: os').length hAtomImp,
          m.bonds ++ hBondsFor (o1 :: os') m.numAtoms, CF⟩ m.bonds.length =
          ({ beginAtomIdx := o1, endAtomIdx := m.numAtoms, bondType := .SINGLE } : Bond) := by
        show (m.bonds ++ ({ beginAtomIdx := o1, endAtomIdx := m.numAtoms,
                            bondType := .SINGLE } : Bond) ::
          hBondsFor os' (m.numAtoms + 1)).getD m.bonds.length {} = _
        exact getD_append_len m.bonds _ _ {}
      have hoth : Bond.getOtherAtomIdx
          ({ beginAtomIdx := o1, endAtomIdx := m.numAtoms, bondType := .SINGLE } : Bond)
          m.numAtoms = o1 := by
        unfold Bond.getOtherAtomIdx
        rw [if_neg (by simp only [beq_iff_eq]; omega)]
      have hnbrs : Mol.atomNeighbors
          ⟨m.atoms ++ List.replicate (o1 :: os').length hAtomImp,
           m.bonds ++ hBondsFor (o1 :: os') m.numAtoms, CF⟩ m.numAtoms = [o1] := by
        unfold Mol.atomNeighbors
        rw [hidx, List.map_cons, List.map_nil, hgetbi, hoth]
      have hsr : removeHsShouldRemove
          ⟨m.atoms ++ List.replicate (o1 :: os').length hAtomImp,
           m.bonds ++ hBondsFor (o1 :: os') m.numAtoms, CF⟩ true m.numAtoms = true := by
        unfold removeHsShouldRemove
        dsimp only
        rw [hgetn, hdeg, hnbrs]
        rw [if_neg (by decide), if_neg (by decide), if_neg (by decide)]
        rw [if_pos (show hAtomImp.isImplicit = true from rfl)]
        rw [show (List.headD [o1] 0) = o1 from rfl, hgetlow _ o1 ho1n]
        rw [if_neg (by
          simp only [Bool.and_eq_true, decide_eq_true_eq]
          intro hcc
          omega)]
      have hev : Mol.explicitValence
          ⟨m.atoms ++ List.replicate (o1 :: os').length hAtomImp,
           m.bonds ++ hBondsFor (o1 :: os') m.numAtoms, CF⟩ o1 =
          m.explicitValence o1 + (o1 :: os').count o1 := by
        rw [explicitValence_bonds_append]
        rw [hBonds_valence _ _ o1 (o1 :: os') m.numAtoms ho1n]
        congr 1
        exact explicitValence_eq_of _ m o1 rfl (hgetlow m.bonds o1 ho1n)
      have himpv : Mol.getNumImplicitHs table
          ⟨m.atoms ++ List.replicate (o1 :: os').length hAtomImp,
           m.bonds ++ hBondsFor (o1 :: os') m.numAtoms, CF⟩ o1 =
          v - (m.explicitValence o1 + (o1 :: os').count o1) := by
        unfold Mol.getNumImplicitHs
        rw [hgetlow _ o1 ho1n, ho1ni]
        simp only [Bool.false_eq_true, if_false]
        rw [hev, pickDefaultValence_stable _ _ _ _ hpick (by omega) (by omega)]
      have htv : Mol.getTotalValence table
          ⟨m.atoms ++ List.replicate (o1 :: os').length hAtomImp,
           m.bonds ++ hBondsFor (o1 :: os') m.numAtoms, CF⟩ o1 = v := by
        unfold Mol.getTotalValence
        rw [hev, himpv]
        omega
      have hst : ∀ b2, b2 < (⟨m.atoms ++ List.replicate (o1 :: os').length hAtomImp,
          m.bonds ++ hBondsFor (o1 :: os') m.numAtoms, CF⟩ : Mol).bonds.length →
          ((Mol.getBond ⟨m.atoms ++ List.replicate (o1 :: os').length hAtomImp,
            m.bonds ++ hBondsFor (o1 :: os') m.numAtoms, CF⟩ b2).stereoAtoms.contains
            m.numAtoms) = false := by
        intro b2 hb2
        have hb2x : b2 < (m.bonds ++ hBondsFor (o1 :: os') m.numAtoms).length := hb2
        have hbm : Mol.getBond ⟨m.atoms ++ List.replicate (o1 :: os').length hAtomImp,
            m.bonds ++ hBondsFor (o1 :: os') m.numAtoms, CF⟩ b2 ∈
            m.bonds ++ hBondsFor (o1 :: os') m.numAtoms :=
          getD_mem_of_lt (m.bonds ++ hBondsFor (o1 :: os') m.numAtoms) b2 {} hb2x
        rcases List.mem_append.mp hbm with hm1 | hm2
        · have hnot : m.numAtoms ∉ (Mol.getBond
              ⟨m.atoms ++ List.replicate (o1 :: os').length hAtomImp,
               m.bonds ++ hBondsFor (o1 :: os') m.numAtoms, CF⟩ b2).stereoAtoms := by
            intro hmm
            have := h6 _ hm1 _ hmm
            omega
          simpa using hnot
        · rw [(mem_hBondsFor_shape _ _ _ hm2).2.1]
          rfl
      have hrem : removeHsRemoveOne table false
          ⟨m.atoms ++ List.replicate (o1 :: os').length hAtomImp,
           m.bonds ++ hBondsFor (o1 :: os') m.numAtoms, CF⟩ m.numAtoms =
          ⟨m.atoms ++ List.replicate os'.length hAtomImp,
           m.bonds ++ hBondsFor os' m.numAtoms,
           CF.map (fun c => { c with positions := c.positions.eraseIdx m.numAtoms })⟩ := by
        unfold removeHsRemoveOne
        dsimp only
        rw [hidx, show (List.headD [m.bonds.length] 0) = m.bonds.length from rfl,
          hgetbi, hoth]
        rw [removeHsExplicitCountStep_noop table _ o1 (by rw [hgetlow _ o1 ho1n]; exact ho1ni)
          (by rw [hgetlow _ o1 ho1n]; exact ho1ch)
          (by rw [hgetlow _ o1 ho1n]; exact ho1ar)
          (by rw [hgetlow _ o1 ho1n, htv]; exact hcontains)]
        rw [removeHsChiralStep_noop _ o1 _ (by rw [hgetlow _ o1 ho1n]; exact ho1ch)]
        rw [removeHsBondDirStep_noop _ _ o1 _ (by rw [hgetbi]) hst]
        show Mol.removeAtom ⟨m.atoms ++ hAtomImp :: List.replicate os'.length hAtomImp,
          m.bonds ++ hBondsFor (o1 :: os') m.numAtoms, CF⟩ m.numAtoms = _
        exact removeAtom_roundtrip_step m CF o1 os' os'.length h3 h6 hosl
      simp only [removeHsLoop]
      rw [if_pos (by rw [hnumS]; omega)]
      rw [hgetn]
      rw [if_pos (show (hAtomImp.atomicNum == 1) = true from rfl)]
      rw [if_pos hsr]
      rw [hrem]
      apply ih
      · intro x hx
        rcases hcond x (List.mem_cons_of_mem o1 hx) with
          ⟨hx1, hx2, hx3, hx4, hx5, w, hw1, hw2, hw3⟩
        refine ⟨hx1, hx2, hx3, hx4, hx5, w, hw1, ?_, hw3⟩
        have hcc : (o1 :: os').count x = os'.count x + if o1 == x then 1 else 0 :=
          List.count_cons x o1 os'
        by_cases hcase : (o1 == x) = true
        · rw [hcase] at hcc
          omega
        · rw [Bool.not_eq_true] at hcase
          rw [hcase] at hcc
          omega
      · show os'.length ≤ f
        have : (o1 :: os').length = os'.length + 1 := rfl
        omega

/-- C1 (corrected): for a molecule with no hydrogen atoms in the graph, no
stored explicit-hydrogen counts and no stale restoration markers, whose
bonds are index-clean, and whose implicit-hydrogen-bearing atoms are
non-dummy, achiral, not aromatic nitrogen or phosphorus, and do not sit on a
later entry of their default-valence list, addHs (explicitOnly = false)
followed by removeHs (implicitOnly = true, updateExplicitCount = false)
restores the atom list, the bond list, the atom count and every atom's
implicit-hydrogen count.  (Without the chirality/aromaticity/valence
conditions the explicit-count bookkeeping of the removal loop migrates
implicit counts into explicit ones: see the counterexample.) -/
theorem addHs_removeHs_roundtrip (table : Nat → List Nat) (rb0 : Nat → ℝ) (m : Mol)
    (h1 : ∀ a ∈ m.atoms, a.atomicNum ≠ 1)
    (h2 : ∀ a ∈ m.atoms, a.numExplicitHs = 0)
    (h2c : ∀ a ∈ m.atoms, a.origNoImplicit = none)
    (h3 : ∀ b ∈ m.bonds, b.beginAtomIdx < m.numAtoms ∧ b.endAtomIdx < m.numAtoms)
    (h6 : ∀ b ∈ m.bonds, ∀ s ∈ b.stereoAtoms, s < m.numAtoms)
    (h5 : ∀ i, i < m.numAtoms → 0 < m.getNumImplicitHs table i →
      1 ≤ (m.getAtom i).atomicNum ∧
      (m.getAtom i).chiralTag = ChiralType.CHI_UNSPECIFIED ∧
      (((m.getAtom i).atomicNum == 7 || (m.getAtom i).atomicNum == 15) &&
        (m.getAtom i).isAromatic) = false ∧
      ((table (m.getAtom i).atomicNum).drop 1).contains (m.getTotalValence table i) =
        false) :
    (MolOps.removeHs table (MolOps.addHs table rb0 m false false none) true false).atoms =
      m.atoms ∧
    (MolOps.removeHs table (MolOps.addHs table rb0 m false false none) true false).bonds =
      m.bonds ∧
    (MolOps.removeHs table (MolOps.addHs table rb0 m false false none) true
      false).numAtoms = m.numAtoms ∧
    ∀ i, (MolOps.removeHs table (MolOps.addHs table rb0 m false false none) true
      false).getNumImplicitHs table i = m.getNumImplicitHs table i := by
  have hclen : (impCounts table m).length = m.numAtoms := by
    unfold impCounts
    rw [List.length_map, List.length_range]
  have hoslen : (ownersFrom (impCounts table m) 0).length = (impCounts table m).sum :=
    ownersFrom_length _ _
  have hcondAll : ∀ x ∈ ownersFrom (impCounts table m) 0,
      x < m.numAtoms ∧ 1 ≤ (m.getAtom x).atomicNum ∧
      (m.getAtom x).noImplicit = false ∧
      (m.getAtom x).chiralTag = ChiralType.CHI_UNSPECIFIED ∧
      (((m.getAtom x).atomicNum == 7 || (m.getAtom x).atomicNum == 15) &&
        (m.getAtom x).isAromatic) = false ∧
      ∃ v, pickDefaultValence (table (m.getAtom x).atomicNum) (m.explicitValence x) =
          some v ∧
        m.explicitValence x + (ownersFrom (impCounts table m) 0).count x ≤ v ∧
        ((table (m.getAtom x).atomicNum).drop 1).contains v = false := by
    intro x hx
    obtain ⟨_, hxl, hxpos⟩ := mem_ownersFrom _ _ _ hx
    rw [Nat.sub_zero] at hxl hxpos
    have hxn : x < m.numAtoms := by omega
    have hgd : (impCounts table m).getD x 0 = m.getNumImplicitHs table x := by
      unfold impCounts
      exact getD_map_range _ _ x 0 hxn
    rw [hgd] at hxpos
    obtain ⟨hxa, hxc, hxar, hxdv⟩ := h5 x hxn hxpos
    obtain ⟨hni, v, hpick, hle, himp⟩ := getNumImplicitHs_pos table m x hxpos
    refine ⟨hxn, hxa, hni, hxc, hxar, v, hpick, ?_, ?_⟩
    · have hco : (ownersFrom (impCounts table m) 0).count x =
          (impCounts table m).getD x 0 := by
        have h0 := ownersFrom_count (impCounts table m) 0 x (by omega)
        rwa [Nat.zero_add] at h0
      rw [hco, hgd, himp]
      omega
    · have htv : m.getTotalValence table x = v := by
        unfold Mol.getTotalValence
        rw [himp]
        omega
      rwa [htv] at hxdv
  have hspec := addHs_spec table rb0 m h2
  have hnums : (⟨m.atoms.map markAdded ++
      List.replicate ((impCounts table m).sum) hAtomImp,
      m.bonds ++ hBondsFor (ownersFrom (impCounts table m) 0) m.numAtoms,
      m.conformers⟩ : Mol).numAtoms = m.numAtoms + (impCounts table m).sum := by
    show (m.atoms.map markAdded ++ _).length = _
    rw [List.length_append, List.length_map, List.length_replicate]
    rfl
  have hrm : MolOps.removeHs table (MolOps.addHs table rb0 m false false none) true
      false =
      (removeHsLoop table true false
        (m.numAtoms + (impCounts table m).sum)
        ⟨m.atoms.map markAdded ++ List.replicate ((impCounts table m).sum) hAtomImp,
         m.bonds ++ hBondsFor (ownersFrom (impCounts table m) 0) m.numAtoms,
         m.conformers⟩ 0 0 []).1 := by
    unfold MolOps.removeHs
    rw [hspec, hnums]
  have hA : (removeHsLoop table true false (m.numAtoms + (impCounts table m).sum)
      ⟨m.atoms.map markAdded ++ List.replicate ((impCounts table m).sum) hAtomImp,
       m.bonds ++ hBondsFor (ownersFrom (impCounts table m) 0) m.numAtoms,
       m.conformers⟩ 0 0 []).1 =
      (removeHsLoop table true false
        (m.numAtoms + (impCounts table m).sum - m.numAtoms)
        ⟨m.atoms ++ List.replicate ((impCounts table m).sum) hAtomImp,
         m.bonds ++ hBondsFor (ownersFrom (impCounts table m) 0) m.numAtoms,
         m.conformers⟩ m.numAtoms 0 []).1 :=
    removeHs_phaseA table false m (List.replicate ((impCounts table m).sum) hAtomImp)
      (m.bonds ++ hBondsFor (ownersFrom (impCounts table m) 0) m.numAtoms)
      m.conformers h1 h2 h2c m.numAtoms 0 (by omega)
      (m.numAtoms + (impCounts table m).sum) (by omega) 0 []
  have hfe : m.numAtoms + (impCounts table m).sum - m.numAtoms =
      (impCounts table m).sum := by omega
  rw [hfe] at hA
  have hB := removeHs_phaseB table m h3 h6 (ownersFrom (impCounts table m) 0) hcondAll
    m.conformers ((impCounts table m).sum) (by omega) 0 []
  rw [hoslen] at hB
  have hAtoms : (MolOps.removeHs table (MolOps.addHs table rb0 m false false none) true
      false).atoms = m.atoms := by
    rw [hrm, hA]
    exact hB.1
  have hBonds : (MolOps.removeHs table (MolOps.addHs table rb0 m false false none) true
      false).bonds = m.bonds := by
    rw [hrm, hA]
    exact hB.2
  refine ⟨hAtoms, hBonds, ?_, ?_⟩
  · show (MolOps.removeHs table (MolOps.addHs table rb0 m false false none) true
      false).atoms.length = m.atoms.length
    rw [hAtoms]
  · intro i
    exact getNumImplicitHs_eq_of table _ m i hBonds
      (Mol.getAtom_eq_of_atoms _ m hAtoms i)

theorem addHs_removeHs_roundtrip_witness :
    ((∀ a ∈ exMolCH4.atoms, a.atomicNum ≠ 1) ∧
     (∀ a ∈ exMolCH4.atoms, a.numExplicitHs = 0) ∧
     (∀ a ∈ exMolCH4.atoms, a.origNoImplicit = none) ∧
     (∀ b ∈ exMolCH4.bonds, b.beginAtomIdx < exMolCH4.numAtoms ∧
       b.endAtomIdx < exMolCH4.numAtoms) ∧
     (∀ b ∈ exMolCH4.bonds, ∀ s ∈ b.stereoAtoms, s < exMolCH4.numAtoms) ∧
     (∀ i, i < exMolCH4.numAtoms → 0 < exMolCH4.getNumImplicitHs exTable i →
       1 ≤ (exMolCH4.getAtom i).atomicNum ∧
       (exMolCH4.getAtom i).chiralTag = ChiralType.CHI_UNSPECIFIED ∧
       (((exMolCH4.getAtom i).atomicNum == 7 || (exMolCH4.getAtom i).atomicNum == 15) &&
         (exMolCH4.getAtom i).isAromatic) = false ∧
       ((exTable (exMolCH4.getAtom i).atomicNum).drop 1).contains
         (exMolCH4.getTotalValence exTable i) = false)) ∧
    ((MolOps.removeHs exTable
        (MolOps.addHs exTable (fun _ => 0) exMolCH4 false false none) true false).atoms =
      exMolCH4.atoms ∧
    (MolOps.removeHs exTable
        (MolOps.addHs exTable (fun _ => 0) exMolCH4 false false none) true false).bonds =
      exMolCH4.bonds ∧
    (MolOps.removeHs exTable
        (MolOps.addHs exTable (fun _ => 0) exMolCH4 false false none) true
        false).numAtoms = exMolCH4.numAtoms ∧
    ∀ i, (MolOps.removeHs exTable
        (MolOps.addHs exTable (fun _ => 0) exMolCH4 false false none) true
        false).getNumImplicitHs exTable i = exMolCH4.getNumImplicitHs exTable i) :=
  have h5 : ∀ i, i < exMolCH4.numAtoms → 0 < exMolCH4.getNumImplicitHs exTable i →
      1 ≤ (exMolCH4.getAtom i).atomicNum ∧
      (exMolCH4.getAtom i).chiralTag = ChiralType.CHI_UNSPECIFIED ∧
      (((exMolCH4.getAtom i).atomicNum == 7 || (exMolCH4.getAtom i).atomicNum == 15) &&
        (exMolCH4.getAtom i).isAromatic) = false ∧
      ((exTable (exMolCH4.getAtom i).atomicNum).drop 1).contains
        (exMolCH4.getTotalValence exTable i) = false := by
    intro i hi
    have hi1 : i < 1 := hi
    interval_cases i
    decide
  ⟨⟨by decide, by decide, by decide, by decide, by decide, h5⟩,
    addHs_removeHs_roundtrip exTable (fun _ => 0) exMolCH4 (by decide) (by decide)
      (by decide) (by decide) (by decide) h5⟩

theorem addHs_removeHs_roundtrip_counterexample :
    (∀ a ∈ exMolChiralImp.atoms, a.atomicNum ≠ 1) ∧
    (∀ a ∈ exMolChiralImp.atoms, a.numExplicitHs = 0) ∧
    exMolChiralImp.getNumImplicitHs exTable 0 = 1 ∧
    (MolOps.removeHs exTable
      (MolOps.addHs exTable (fun _ => 0) exMolChiralImp false false none) true
      false).numAtoms = exMolChiralImp.numAtoms ∧
    (MolOps.removeHs exTable
      (MolOps.addHs exTable (fun _ => 0) exMolChiralImp false false none) true
      false).getNumImplicitHs exTable 0 = 0 ∧
    ((MolOps.removeHs exTable
      (MolOps.addHs exTable (fun _ => 0) exMolChiralImp false false none) true
      false).getAtom 0).numExplicitHs = 1 :=
  ⟨by decide, by decide, by decide, by decide, by decide, by decide⟩

/-- A hydrogen in a protected configuration is never selected for
removal. -/
theorem protectedH_shouldRemove (m : Mol) (i : Nat)
    (hH : (m.getAtom i).atomicNum = 1) (hp : protectedH m i) :
    removeHsShouldRemove m false i = false := by
  rcases hp with h0 | ⟨himp, hiso⟩ | ⟨himp, hdeg, hdum⟩ |
    ⟨himp, hiso, hdeg, hnb, hnd, hany⟩
  · unfold removeHsShouldRemove
    simp [hH, h0]
  · have hiso' : ((m.getAtom i).isotope == 0) = false := by
      simp only [beq_eq_false_iff_ne]
      omega
    unfold removeHsShouldRemove
    simp [hH, himp, hiso']
  · unfold removeHsShouldRemove
    dsimp only
    rw [hH, show (!((1 : Nat) == 1)) = false from rfl, if_neg (by simp)]
    rw [hdeg, show ((1 : Nat) == 0) = false from rfl, if_neg (by simp)]
    by_cases hq : (m.getAtom i).query.isSome = true
    · rw [if_pos hq]
    · rw [if_neg hq, if_pos himp]
      have hcond : (m.getAtomDegree i == 1 &&
          decide ((m.getAtom ((m.atomNeighbors i).headD 0)).atomicNum < 1)) = true := by
        rw [hdeg, hdum]
        rfl
      rw [hdeg] at hcond
      rw [if_pos hcond]
  · unfold removeHsShouldRemove
    dsimp only
    rw [hH, show (!((1 : Nat) == 1)) = false from rfl, if_neg (by simp)]
    rw [hdeg, show ((1 : Nat) == 0) = false from rfl, if_neg (by simp)]
    by_cases hq : (m.getAtom i).query.isSome = true
    · rw [if_pos hq]
    · rw [if_neg hq]
      rw [himp, if_neg (by simp)]
      rw [hiso]
      rw [if_pos (show (!false && ((0 : Nat) == 0) && ((1 : Nat) == 1)) = true from rfl)]
      rw [if_pos hnb]
      have hcond : (m.getAtomDegree ((m.atomNeighbors i).headD 0) == 2 &&
          (m.atomBondIdxs ((m.atomNeighbors i).headD 0)).any (fun bi =>
            (m.getBond bi).bondType == .DOUBLE &&
            ((m.getBond bi).stereo.gtAny ||
             BondDir.NONE.toNat <
               (m.getBond ((m.getBondBetweenAtoms i
                 ((m.atomNeighbors i).headD 0)).getD 0)).bondDir.toNat))) = true := by
        rw [hnd, hany]
        rfl
      rw [if_pos hcond]

/-- The scan is the identity while every hydrogen it meets is ineligible and
every non-hydrogen carries no restoration marker. -/
theorem removeHsLoop_identity (table : Nat → List Nat) (uec : Bool) (m : Mol) :
    ∀ (fuel ci : Nat),
    (∀ k, ci ≤ k → k < m.numAtoms →
      ((m.getAtom k).atomicNum = 1 → removeHsShouldRemove m false k = false) ∧
      ((m.getAtom k).atomicNum ≠ 1 → (m.getAtom k).origNoImplicit = none)) →
    ∀ (o : Nat) (im : List (Nat × Nat)),
    (removeHsLoop table false uec fuel m ci o im).1 = m := by
  intro fuel
  induction fuel with
  | zero =>
      intro ci _ o im
      rfl
  | succ f ih =>
      intro ci hyp o im
      simp only [removeHsLoop]
      by_cases hci : ci < m.numAtoms
      · rw [if_pos hci]
        have hyp' : ∀ k, ci + 1 ≤ k → k < m.numAtoms →
            ((m.getAtom k).atomicNum = 1 → removeHsShouldRemove m false k = false) ∧
            ((m.getAtom k).atomicNum ≠ 1 → (m.getAtom k).origNoImplicit = none) :=
          fun k hk1 hk2 => hyp k (by omega) hk2
        by_cases hH : ((m.getAtom ci).atomicNum == 1) = true
        · rw [if_pos hH]
          have hsr := (hyp ci (Nat.le_refl ci) hci).1 (by simpa using hH)
          rw [hsr, if_neg (by simp)]
          exact ih (ci + 1) hyp' (o + 1) (im ++ [(o, ci)])
        · rw [if_neg hH]
          have hr : removeHsRestoreStep m ci = m := by
            unfold removeHsRestoreStep
            rw [(hyp ci (Nat.le_refl ci) hci).2 (by simpa using hH)]
          rw [hr]
          exact ih (ci + 1) hyp' (o + 1) (im ++ [(o, ci)])
      · rw [if_neg hci]

/-- C4 (corrected): with `implicitOnly = false`, the eligibility decision
keeps every hydrogen in one of the protected configurations — degree 0,
non-implicit with an isotope, implicit on a lone dummy neighbor, or
NON-implicit stereo-defining at a degree-2 heavy neighbor — and a molecule
all of whose hydrogens are so protected (with no stale restoration markers
on the other atoms) passes through `removeHs` completely unchanged.  The
claim's fourth case must exclude implicit-flagged hydrogens: the implicit
branch of the decision removes those regardless of any stereo reference
role (see the counterexample). -/
theorem removeHs_protected (table : Nat → List Nat) (m : Mol) (uec : Bool)
    (hprot : ∀ k, k < m.numAtoms → (m.getAtom k).atomicNum = 1 → protectedH m k)
    (hmark : ∀ k, k < m.numAtoms → (m.getAtom k).atomicNum ≠ 1 →
      (m.getAtom k).origNoImplicit = none) :
    (∀ i, i < m.numAtoms → (m.getAtom i).atomicNum = 1 →
      removeHsShouldRemove m false i = false) ∧
    MolOps.removeHs table m false uec = m := by
  have hdec : ∀ i, i < m.numAtoms → (m.getAtom i).atomicNum = 1 →
      removeHsShouldRemove m false i = false :=
    fun i hi hHi => protectedH_shouldRemove m i hHi (hprot i hi hHi)
  refine ⟨hdec, ?_⟩
  unfold MolOps.removeHs
  exact removeHsLoop_identity table uec m m.numAtoms 0
    (fun k _ hk2 => ⟨hdec k hk2, hmark k hk2⟩) 0 []

theorem removeHs_protected_witness :
    ((∀ k, k < exMolProt.numAtoms → (exMolProt.getAtom k).atomicNum = 1 →
        protectedH exMolProt k) ∧
      (∀ k, k < exMolProt.numAtoms → (exMolProt.getAtom k).atomicNum ≠ 1 →
        (exMolProt.getAtom k).origNoImplicit = none)) ∧
    ((∀ i, i < exMolProt.numAtoms → (exMolProt.getAtom i).atomicNum = 1 →
      removeHsShouldRemove exMolProt false i = false) ∧
    MolOps.removeHs exTable exMolProt false false = exMolProt) :=
  ⟨⟨by decide, by decide⟩,
    removeHs_protected exTable exMolProt false (by decide) (by decide)⟩

theorem removeHs_protected_counterexample :
    (exMolStereoImpH.getAtom 2).atomicNum = 1 ∧
    (exMolStereoImpH.getAtom 2).isImplicit = true ∧
    exMolStereoImpH.getAtomDegree 0 = 2 ∧
    (exMolStereoImpH.getBond 0).bondType = .DOUBLE ∧
    (exMolStereoImpH.getBond 0).stereo.gtAny = true ∧
    (exMolStereoImpH.getBond 0).stereoAtoms.contains 2 = true ∧
    removeHsShouldRemove exMolStereoImpH false 2 = true ∧
    (MolOps.removeHs exTable exMolStereoImpH false false).numAtoms = 3 ∧
    (∀ j, j < (MolOps.removeHs exTable exMolStereoImpH false false).numAtoms →
      ((MolOps.removeHs exTable exMolStereoImpH false false).getAtom j).atomicNum ≠ 1) :=
  ⟨by decide, by decide, by decide, by decide, by decide, by decide, by decide,
    by decide, by decide⟩

end RDKitAddHs
